import Mathlib

/-!
vts-browser-cpp: byte buffer and data thread

A shallow embedding of `renderer-core/buffer.cpp` (class `melown::Buffer`) and of
`vts-browser-glfw/dataThread.cpp` (`DataThread::run`), with the properties of the
written specification stated and proved over it.

Memory model

The C heap is a partial map from block identifiers to the bytes of the block.  A
pointer is a block identifier together with an offset into the block; the null
pointer is `none`.  Buffer objects live in an object store indexed by the address
of the object, so that the test `&other == this` of the assignment operators is
equality of two object addresses.

`malloc` is not code of the repository.  Its answer to a call (the null pointer,
or a block with indeterminate contents) is an argument of every operation that
reaches it.

Sizes are `uint32` in the source.  The code does no arithmetic on them apart from
the pointer sum `data_ + size_`, so they are natural numbers here.
-/

namespace melown

/-- One `char` of raw memory. -/
abbrev Byte := Fin 256

/-- A non-null `char *`: a heap block and an offset into it. -/
structure Ptr where
  block : Nat
  off : Nat
deriving DecidableEq, Repr

/-- The heap: the live blocks and their bytes. -/
abbrev Heap := Nat → Option (List Byte)

/-- Pointer arithmetic `p + n` on a possibly null pointer. -/
def ptrAdd : Option Ptr → Nat → Option Ptr
  | none, _ => none
  | some p, n => some ⟨p.block, p.off + n⟩

/-- The answer of the allocator to one `malloc` call: `none` is the null pointer,
`some (blk, fill)` hands out block `blk`, whose indeterminate initial bytes are
given by `fill`. -/
abbrev MallocAnswer := Option (Nat × (Nat → Byte))

/-- The libc call `malloc(n)`: the returned pointer and the heap afterwards.  That
the block handed out is not a live block is the contract of the allocator, and is
a hypothesis where it is needed. -/
def malloc (h : Heap) (n : Nat) (ans : MallocAnswer) : Option Ptr × Heap :=
  match ans with
  | none => (none, h)
  | some (blk, fill) => (some ⟨blk, 0⟩, Function.update h blk (some ((List.range n).map fill)))

/-- The libc call `free(p)`: nothing for the null pointer, release of the block
for a pointer to the start of a live block, and undefined (`none`) otherwise. -/
def cfree (h : Heap) : Option Ptr → Option Heap
  | none => some h
  | some p =>
    if p.off = 0 ∧ (h p.block).isSome then some (Function.update h p.block none) else none

/-- The libc call `memcpy(dst, src, n)`.  A copy of zero bytes changes nothing;
otherwise both ranges have to lie inside live blocks and must not overlap, and the
call is undefined (`none`) when they do not. -/
def memcpy (h : Heap) (dst src : Option Ptr) (n : Nat) : Option Heap :=
  if n = 0 then some h
  else
    match dst, src with
    | some d, some s =>
      match h d.block, h s.block with
      | some db, some sb =>
        if d.off + n ≤ db.length ∧ s.off + n ≤ sb.length ∧
            (d.block ≠ s.block ∨ d.off + n ≤ s.off ∨ s.off + n ≤ d.off) then
          some (Function.update h d.block
            (some (db.take d.off ++ (sb.drop s.off).take n ++ db.drop (d.off + n))))
        else none
      | _, _ => none
    | _, _ => none

/-- The members of a `Buffer` object: `data_`, `size_`, and the get area of its
`std::streambuf` base (`eback()`, `gptr()`, `egptr()`). -/
structure Buffer where
  data_ : Option Ptr
  size_ : Nat
  eback : Option Ptr
  gptr : Option Ptr
  egptr : Option Ptr
deriving DecidableEq, Repr

/-- The call `std::streambuf::setg(gbeg, gnext, gend)`. -/
def setg (b : Buffer) (gbeg gnext gend : Option Ptr) : Buffer :=
  { b with eback := gbeg, gptr := gnext, egptr := gend }

/-- The heap together with the Buffer objects, indexed by object address. -/
structure World where
  heap : Heap
  objs : Nat → Buffer

/-- How a member function ends: it returns, it throws `std::runtime_error(what)`,
or its behaviour is undefined.  The world at the throw is kept.  `noReturn` is the
undefined behaviour of a function with a return type whose control reaches the
closing brace without a `return` statement: the function does not return, and the
world that its statements had reached at the brace is kept. -/
inductive Outcome where
  | ok (w : World)
  | threw (what : String) (w : World)
  | undefined
  | noReturn (w : World)

/-- Source: `void Buffer::free()`. -/
def Buffer.free (w : World) (this : Nat) : Outcome :=
  let b := setg (w.objs this) none none none
  match cfree w.heap b.data_ with
  | none => Outcome.undefined
  | some h =>
    Outcome.ok { heap := h, objs := Function.update w.objs this { b with data_ := none, size_ := 0 } }

/-- Source: `void Buffer::allocate(uint32 size)`. -/
def Buffer.allocate (w : World) (this : Nat) (size : Nat) (ans : MallocAnswer) : Outcome :=
  match Buffer.free w this with
  | Outcome.ok w1 =>
    let b1 : Buffer := { w1.objs this with size_ := size }
    let r := malloc w1.heap b1.size_ ans
    let b2 : Buffer := { b1 with data_ := r.1 }
    if b2.data_.isNone then
      Outcome.threw "not enough memory" { heap := r.2, objs := Function.update w1.objs this b2 }
    else
      Outcome.ok { heap := r.2,
                   objs := Function.update w1.objs this
                     (setg b2 b2.data_ b2.data_ (ptrAdd b2.data_ b2.size_)) }
  | r => r

/-- Source: `Buffer::Buffer()`.  The `std::streambuf` base starts with a null get area. -/
def Buffer.ctorDefault (w : World) (this : Nat) : World :=
  { w with objs := Function.update w.objs this ⟨none, 0, none, none, none⟩ }

/-- Source: `Buffer::Buffer(uint32 size)`. -/
def Buffer.ctorSize (w : World) (this : Nat) (size : Nat) (ans : MallocAnswer) : Outcome :=
  let w0 : World := { w with objs := Function.update w.objs this ⟨none, size, none, none, none⟩ }
  Buffer.allocate w0 this size ans

/-- Source: `Buffer::Buffer(const Buffer &other)`. -/
def Buffer.ctorCopy (w : World) (this other : Nat) (ans : MallocAnswer) : Outcome :=
  let w0 : World :=
    { w with objs := Function.update w.objs this ⟨none, (w.objs other).size_, none, none, none⟩ }
  match Buffer.allocate w0 this (w0.objs this).size_ ans with
  | Outcome.ok w1 =>
    match memcpy w1.heap (w1.objs this).data_ (w1.objs other).data_ (w1.objs this).size_ with
    | none => Outcome.undefined
    | some h => Outcome.ok { w1 with heap := h }
  | r => r

/-- Source: `Buffer::Buffer(Buffer &&other)`. -/
def Buffer.ctorMove (w : World) (this other : Nat) : World :=
  let b0 : Buffer := ⟨(w.objs other).data_, (w.objs other).size_, none, none, none⟩
  let o1 := Function.update w.objs this b0
  let o2 := Function.update o1 other { o1 other with data_ := none }
  let o3 := Function.update o2 other { o2 other with size_ := 0 }
  let b := o3 this
  { w with objs := Function.update o3 this (setg b b.data_ b.data_ (ptrAdd b.data_ b.size_)) }

/-- Source: `Buffer::~Buffer()`. -/
def Buffer.dtor (w : World) (this : Nat) : Outcome :=
  Buffer.free w this

/-- Source: `Buffer &Buffer::operator = (const Buffer &other)`.  Only the path of
`&other == this` has a `return`.  On the other path the source has no `return` after
the `memcpy`: control flows off the end of a function that returns `Buffer &`, which
is undefined behaviour, and the path ends in `Outcome.noReturn`. -/
def Buffer.assignCopy (w : World) (this other : Nat) (ans : MallocAnswer) : Outcome :=
  if other = this then Outcome.ok w
  else
    match Buffer.free w this with
    | Outcome.ok w1 =>
      match Buffer.allocate w1 this (w1.objs other).size_ ans with
      | Outcome.ok w2 =>
        match memcpy w2.heap (w2.objs this).data_ (w2.objs other).data_ (w2.objs this).size_ with
        | none => Outcome.undefined
        | some h => Outcome.noReturn { w2 with heap := h }
      | r => r
    | r => r

/-- Source: `Buffer &Buffer::operator = (Buffer &&other)`.  Only the path of
`&other == this` has a `return`.  On the other path the source has no `return` after
the `setg`: control flows off the end of a function that returns `Buffer &`, which
is undefined behaviour, and the path ends in `Outcome.noReturn`. -/
def Buffer.assignMove (w : World) (this other : Nat) : Outcome :=
  if other = this then Outcome.ok w
  else
    match Buffer.free w this with
    | Outcome.ok w1 =>
      let o1 := Function.update w1.objs this { w1.objs this with size_ := (w1.objs other).size_ }
      let o2 := Function.update o1 this { o1 this with data_ := (o1 other).data_ }
      let o3 := Function.update o2 other { o2 other with data_ := none }
      let o4 := Function.update o3 other { o3 other with size_ := 0 }
      let b := o4 this
      Outcome.noReturn
        { w1 with objs := Function.update o4 this (setg b b.data_ b.data_ (ptrAdd b.data_ b.size_)) }
    | r => r

/-- The bytes a buffer holds: the `size_` bytes that start at `data_`. -/
def contents (w : World) (i : Nat) : List Byte :=
  match (w.objs i).data_ with
  | none => []
  | some p =>
    match w.heap p.block with
    | none => []
    | some bs => (bs.drop p.off).take (w.objs i).size_

/-- The buffer at address `i` can be released: `data_` is null or points to the
start of a live block. -/
def Freeable (w : World) (i : Nat) : Prop :=
  ∀ p, (w.objs i).data_ = some p → p.off = 0 ∧ (w.heap p.block).isSome

/-- The buffer at address `i` owns what its members say: with a null `data_` the
size is 0, and otherwise `data_` is the start of a live block of `size_` bytes. -/
def Owned (w : World) (i : Nat) : Prop :=
  match (w.objs i).data_ with
  | none => (w.objs i).size_ = 0
  | some p => p.off = 0 ∧ ∃ bs, w.heap p.block = some bs ∧ bs.length = (w.objs i).size_

/-- No two buffer objects have `data_` pointers into the same block. -/
def NoAlias (w : World) : Prop :=
  ∀ i j p q, i ≠ j → (w.objs i).data_ = some p → (w.objs j).data_ = some q → p.block ≠ q.block

/-- A world for examples: block 7 holds the bytes 10, 20, 30 and is owned by the
buffer at address 1, with its read window over the whole block; block 8 holds the
bytes 1, 2 and is owned by the buffer at address 2; every other buffer is empty. -/
def exampleWorld : World where
  heap := fun a => if a = 7 then some [10, 20, 30] else if a = 8 then some [1, 2] else none
  objs := fun i =>
    if i = 1 then ⟨some ⟨7, 0⟩, 3, some ⟨7, 0⟩, some ⟨7, 0⟩, some ⟨7, 3⟩⟩
    else if i = 2 then ⟨some ⟨8, 0⟩, 2, some ⟨8, 0⟩, some ⟨8, 0⟩, some ⟨8, 2⟩⟩
    else ⟨none, 0, none, none, none⟩

/-- The heap after `free(d)` for a pointer `d` that may be released. -/
def released (h : Heap) : Option Ptr → Heap
  | none => h
  | some p => Function.update h p.block none

/-- The bytes that a read through the stream of buffer `i` can reach: the part of
the get area from `gptr()` up to `egptr()`. -/
def readWindow (w : World) (i : Nat) : List Byte :=
  match (w.objs i).gptr, (w.objs i).egptr with
  | some g, some e =>
    match w.heap g.block with
    | none => []
    | some bs => (bs.drop g.off).take (e.off - g.off)
  | _, _ => []

/-- The read window of a buffer spans the buffer: the get area begins at `data_`,
the read position is at `data_`, and the end is `data_ + size_`. -/
def WindowAtStart (b : Buffer) : Prop :=
  b.eback = b.data_ ∧ b.gptr = b.data_ ∧ b.egptr = ptrAdd b.data_ b.size_

end melown

/-!
The data thread

`DataThread::run` is one sequential thread.  The members `stop` and `map` are
written by other threads, so every read of them takes its value from an
environment indexed by the number of reads made so far; the results of
`dataTick` come from a second oracle.  A run is the sequence of its reads of
`stop`, its tests of `map` and its external calls.  Both loops are bounded by
fuel, and a run that needs more fuel has no result.
-/

/-- The members of `DataThread` that other threads write, as one read finds them:
`stop`, and `map` with `none` for the null pointer. -/
structure Shared where
  stop : Bool
  map : Option Nat
deriving DecidableEq, Repr

/-- The members of `DataThread` that are fixed before the thread starts. -/
structure DataThread where
  window : Nat
  fetcher : Nat
deriving DecidableEq, Repr

/-- The member functions of the map that `DataThread::run` calls. -/
inductive MapMethod where
  | dataInitialize
  | dataTick
  | dataFinalize
deriving DecidableEq, Repr

/-- One step of a run of the data thread that is visible from outside. -/
inductive Event where
  /-- The call `setThreadName(name)`. -/
  | setThreadName (name : String)
  /-- The call `glfwMakeContextCurrent(window)`. -/
  | glfwMakeContextCurrent (window : Nat)
  /-- The call `usleep(usec)`. -/
  | usleep (usec : Nat)
  /-- A read of `stop` in a loop condition. -/
  | stopRead (value : Bool)
  /-- The test `!map` of the first loop, with the pointer it found. -/
  | mapTest (value : Option Nat)
  /-- The call `map->dataInitialize(fetcher)` on an attached map. -/
  | dataInitialize (map : Nat) (fetcher : Nat)
  /-- The call `map->dataTick()` on an attached map, with its return value. -/
  | dataTick (map : Nat) (result : Bool)
  /-- The call `map->dataFinalize()` on an attached map. -/
  | dataFinalize (map : Nat)
  /-- A member call through a null `map`; the behaviour from here on is undefined
  and the run ends. -/
  | nullMapCall (method : MapMethod)
deriving DecidableEq, Repr

/-- Source: `while (!stop && !map) usleep(1000);` in `DataThread::run`, started at
read number `t`.  The result is the events and the number of the next read. -/
def DataThread.waitLoop (env : Nat → Shared) : Nat → Nat → Option (List Event × Nat)
  | 0, _ => none
  | fuel + 1, t =>
    if (env t).stop then some ([Event.stopRead true], t + 1)
    else
      match (env (t + 1)).map with
      | some m => some ([Event.stopRead false, Event.mapTest (some m)], t + 2)
      | none =>
        match DataThread.waitLoop env fuel (t + 2) with
        | none => none
        | some r =>
          some (Event.stopRead false :: Event.mapTest none :: Event.usleep 1000 :: r.1, r.2)

/-- Source: `while (!stop) { if (map->dataTick()) usleep(20000); else usleep(5000); }`
in `DataThread::run`, started at read number `t`.  The result is the events and,
when the loop was left at its condition, the number of the next read. -/
def DataThread.tickLoop (env : Nat → Shared) (tick : Nat → Bool) :
    Nat → Nat → Option (List Event × Option Nat)
  | 0, _ => none
  | fuel + 1, t =>
    if (env t).stop then some ([Event.stopRead true], some (t + 1))
    else
      match (env (t + 1)).map with
      | none => some ([Event.stopRead false, Event.nullMapCall MapMethod.dataTick], none)
      | some m =>
        match DataThread.tickLoop env tick fuel (t + 2) with
        | none => none
        | some r =>
          some (Event.stopRead false :: Event.dataTick m (tick (t + 1)) ::
            Event.usleep (if tick (t + 1) then 20000 else 5000) :: r.1, r.2)

/-- Source: `void DataThread::run()`. -/
def DataThread.run (self : DataThread) (env : Nat → Shared) (tick : Nat → Bool) (fuel : Nat) :
    Option (List Event) :=
  match DataThread.waitLoop env fuel 0 with
  | none => none
  | some (evs1, t1) =>
    let entry := [Event.setThreadName "data", Event.glfwMakeContextCurrent self.window] ++ evs1 ++
      [Event.setThreadName "downloader"]
    match (env t1).map with
    | none => some (entry ++ [Event.nullMapCall MapMethod.dataInitialize])
    | some m =>
      match DataThread.tickLoop env tick fuel (t1 + 1) with
      | none => none
      | some (evs2, left) =>
        let body := entry ++ [Event.dataInitialize m self.fetcher, Event.setThreadName "data"] ++ evs2
        match left with
        | none => some body
        | some t2 =>
          match (env t2).map with
          | none => some (body ++ [Event.nullMapCall MapMethod.dataFinalize])
          | some m2 => some (body ++ [Event.dataFinalize m2])

/-- The event is a call on the map, attached or not. -/
def Event.isMapCall : Event → Bool
  | Event.dataInitialize _ _ => true
  | Event.dataTick _ _ => true
  | Event.dataFinalize _ => true
  | Event.nullMapCall _ => true
  | _ => false

/-- The event is a call of `dataTick`, on an attached map or through a null `map`. -/
def Event.isTickCall : Event → Bool
  | Event.dataTick _ _ => true
  | Event.nullMapCall MapMethod.dataTick => true
  | _ => false

/-- The event is a call of a function of the graphics context (GLFW, OpenGL). -/
def Event.isGraphicsCall : Event → Bool
  | Event.glfwMakeContextCurrent _ => true
  | _ => false

/-- The event is a call that leaves `DataThread::run`, as opposed to a read of a
member. -/
def Event.isExternalCall : Event → Bool
  | Event.stopRead _ => false
  | Event.mapTest _ => false
  | _ => true

/-- An environment for examples: the map 1 is attached from the start, and `stop`
is set from read number 6 on. -/
def exampleEnv (t : Nat) : Shared :=
  ⟨decide (6 ≤ t), some 1⟩

/-- An environment for examples: `stop` is set from the start and no map is ever
attached. -/
def stoppedEnv (_ : Nat) : Shared :=
  ⟨true, none⟩

/-- The results of `dataTick` for examples: `true` for the call at read number 4,
and `false` for every other call. -/
def exampleTick (t : Nat) : Bool :=
  decide (t = 4)

/-- The run of the data thread with window 3 and fetcher 9 in the example
environment: two rounds of the tick loop, then the stop. -/
def exampleRun : List Event :=
  [Event.setThreadName "data", Event.glfwMakeContextCurrent 3,
   Event.stopRead false, Event.mapTest (some 1),
   Event.setThreadName "downloader", Event.dataInitialize 1 9, Event.setThreadName "data",
   Event.stopRead false, Event.dataTick 1 true, Event.usleep 20000,
   Event.stopRead false, Event.dataTick 1 false, Event.usleep 5000,
   Event.stopRead true, Event.dataFinalize 1]

/-- An environment for examples: the map 1 is attached and `stop` is never set. -/
def runningEnv (_ : Nat) : Shared :=
  ⟨false, some 1⟩

/-!
The resource record

`melown-cpp/resource.hpp` declares `ResourceImpl` with its `State` enumeration.
-/

namespace melown

/-- Source: `enum class State` of `ResourceImpl`. -/
inductive ResourceImpl.State where
  | initializing
  | downloading
  | downloaded
  | ready
  | errorDownload
  | errorLoad
  | finalizing
deriving DecidableEq, Repr, Fintype

/-- The eight record states that the specification names.  This second definition
follows the words of the specification, for comparison with `ResourceImpl.State`. -/
inductive SpecState where
  | Initializing
  | Downloading
  | Downloaded
  | Preparing
  | Ready
  | ErrorDownload
  | ErrorPrepare
  | Finalizing
deriving DecidableEq, Repr, Fintype

/-- The state of the specification that a value of the source enumeration stands
for; `errorLoad` is the error of the load (prepare) stage. -/
def ResourceImpl.State.toSpec : ResourceImpl.State → SpecState
  | ResourceImpl.State.initializing => SpecState.Initializing
  | ResourceImpl.State.downloading => SpecState.Downloading
  | ResourceImpl.State.downloaded => SpecState.Downloaded
  | ResourceImpl.State.ready => SpecState.Ready
  | ResourceImpl.State.errorDownload => SpecState.ErrorDownload
  | ResourceImpl.State.errorLoad => SpecState.ErrorPrepare
  | ResourceImpl.State.finalizing => SpecState.Finalizing

end melown

/-!
The resource cache

The sources at hand declare `ResourceImpl` (its `state` and `lastAccessTick`) and
the disk-cache probes `availableInCache` and `loadFromCache`; the code that drives
the records is not among them.  The record, the cache manager and the steps of the
data thread on a record are therefore modelled from the specification (sections 3,
4.1 and 4.2).  The stages after `downloaded` (decode, GPU upload) are not part of
the model.
-/

namespace melown

/-- Modelled from the spec: the Resource Key, an opaque stable string. -/
abbrev ResourceKey := String

/-- Modelled from the spec: the Resource Record of section 3, which the sources only
declare in part (`ResourceImpl` has `state` and `lastAccessTick`).  `rawBytes` is the
optional byte buffer, `memoryFootprintBytes` the estimate of the memory held, and
`refCount` the number of active consumers.  The prepared payload and the GPU handle
are left out. -/
structure ResourceRecord where
  key : ResourceKey
  state : ResourceImpl.State
  rawBytes : Option (List Byte)
  lastAccessTick : Nat
  memoryFootprintBytes : Nat
  refCount : Nat
deriving DecidableEq, Repr

/-- Modelled from the spec: what the disk-cache lookup of a key finds (the probes
`availableInCache` and `loadFromCache` are only declared): no entry, an entry that
is stale or fails validation, or valid bytes. -/
inductive DiskEntry where
  | missing
  | invalid
  | valid (bytes : List Byte)
deriving DecidableEq, Repr

/-- Modelled from the spec: the kinds of failure the Fetcher reports (section 4.4). -/
inductive FetchError where
  | network
  | timeout
  | httpStatus
  | cancelled
deriving DecidableEq, Repr

/-- Modelled from the spec: the state of the Cache Manager of section 3, which is
missing from the sources.  `records` is the mapping from key to record, one entry
per key; `memoryBudget` the configured ceiling; `accessCounter` the monotonically
increasing counter that `lastAccessTick` is taken from; `submitted` the fetch tasks
handed to the Fetcher so far, oldest first. -/
structure CacheManager where
  records : List ResourceRecord
  memoryBudget : Nat
  accessCounter : Nat
  submitted : List ResourceKey
deriving DecidableEq, Repr

/-- Modelled from the spec: `totalMemoryUse`, the sum of `memoryFootprintBytes` over
the live records (section 3). -/
def totalMemoryUse (rs : List ResourceRecord) : Nat :=
  (rs.map (fun r => r.memoryFootprintBytes)).sum

/-- Modelled from the spec: a record is eviction-eligible when its liveness count is
zero (sections 3 and 4.2). -/
def ResourceRecord.evictionEligible (r : ResourceRecord) : Bool :=
  r.refCount == 0

/-- Modelled from the spec: the re-request of a live record by `acquire` (sections
4.1, 4.2 and 7).  The liveness count goes up by one and `lastAccessTick` is updated;
a record in `errorDownload` or `errorLoad` is reset to `initializing` without its
raw bytes. -/
def ResourceRecord.touch (now : Nat) (r : ResourceRecord) : ResourceRecord :=
  if r.state = ResourceImpl.State.errorDownload ∨ r.state = ResourceImpl.State.errorLoad then
    { r with refCount := r.refCount + 1, lastAccessTick := now,
             state := ResourceImpl.State.initializing, rawBytes := none,
             memoryFootprintBytes := 0 }
  else
    { r with refCount := r.refCount + 1, lastAccessTick := now }

/-- Modelled from the spec: `acquire(key)` of the Cache Manager (section 4.2), which
is missing from the sources.  It returns the existing record for the key, creating
one in `initializing` if absent, increments the liveness count of the record and
updates its `lastAccessTick`. -/
def CacheManager.acquire (c : CacheManager) (key : ResourceKey) : CacheManager :=
  let now := c.accessCounter + 1
  if c.records.any (fun r => r.key == key) then
    { c with accessCounter := now,
             records := c.records.map (fun r => if r.key = key then r.touch now else r) }
  else
    { c with accessCounter := now,
             records := c.records ++ [⟨key, ResourceImpl.State.initializing, none, now, 0, 1⟩] }

/-- Modelled from the spec: `release(handle)` of the Cache Manager (section 4.2),
which is missing from the sources.  It decrements the liveness count and evicts
nothing. -/
def CacheManager.release (c : CacheManager) (key : ResourceKey) : CacheManager :=
  { c with records := c.records.map (fun r =>
      if r.key = key then { r with refCount := r.refCount - 1 } else r) }

/-- Modelled from the spec: the eviction-eligible record that was accessed longest
ago, the next one `tick()` evicts (section 4.2). -/
def oldestEligible : List ResourceRecord → Option ResourceRecord
  | [] => none
  | r :: rs =>
    match oldestEligible rs with
    | none => if r.evictionEligible then some r else none
    | some o =>
      if r.evictionEligible && decide (r.lastAccessTick ≤ o.lastAccessTick) then some r
      else some o

/-- Modelled from the spec: the eviction loop of `tick()` (section 4.2).  While the
total memory use exceeds the budget and an eligible record remains, the eligible
record that was accessed longest ago is removed.  The result is the records that
stay and the evicted records in the order of their eviction.  The fuel bounds the
number of rounds; the number of records is always enough. -/
def evictLoop (budget : Nat) : Nat → List ResourceRecord → List ResourceRecord × List ResourceRecord
  | 0, rs => (rs, [])
  | fuel + 1, rs =>
    if totalMemoryUse rs ≤ budget then (rs, [])
    else
      match oldestEligible rs with
      | none => (rs, [])
      | some o =>
        let r := evictLoop budget fuel (rs.erase o)
        (r.1, o :: r.2)

/-- Modelled from the spec: `tick()` of the Cache Manager (section 4.2), which is
missing from the sources.  It recomputes the total memory use and, if that exceeds
the budget, evicts eligible records in ascending `lastAccessTick` order until the
total is within the budget or no eligible record remains. -/
def CacheManager.tick (c : CacheManager) : CacheManager :=
  { c with records := (evictLoop c.memoryBudget c.records.length c.records).1 }

/-- The records that `tick()` evicts, in the order of their eviction. -/
def CacheManager.tickEvicted (c : CacheManager) : List ResourceRecord :=
  (evictLoop c.memoryBudget c.records.length c.records).2

/-- Modelled from the spec: `purge()` of the Cache Manager (section 4.2), which is
missing from the sources.  It evicts every record regardless of liveness. -/
def CacheManager.purge (c : CacheManager) : CacheManager :=
  { c with records := [] }

/-- Modelled from the spec: one step of the data thread on a record (section 4.1),
with the fetch tasks it submits.  A record in `initializing` is looked up in the
disk cache: valid content makes it `downloaded` with the disk bytes, and a missing
or invalid entry submits one fetch task and makes it `downloading`.  Records in
other states are not advanced by this part of the model. -/
def ResourceRecord.advance (disk : ResourceKey → DiskEntry) (r : ResourceRecord) :
    ResourceRecord × List ResourceKey :=
  match r.state with
  | ResourceImpl.State.initializing =>
    match disk r.key with
    | DiskEntry.valid bytes =>
      ({ r with state := ResourceImpl.State.downloaded, rawBytes := some bytes,
                memoryFootprintBytes := bytes.length }, [])
    | _ => ({ r with state := ResourceImpl.State.downloading }, [r.key])
  | _ => (r, [])

/-- Modelled from the spec: one tick of the data thread over the cache (section
4.3), which advances every record by one step and hands the fetch tasks to the
Fetcher. -/
def CacheManager.dataTick (c : CacheManager) (disk : ResourceKey → DiskEntry) : CacheManager :=
  { c with records := c.records.map (fun r => (r.advance disk).1),
           submitted := c.submitted ++ c.records.flatMap (fun r => (r.advance disk).2) }

/-- Modelled from the spec: the completion of a fetch on a record (sections 4.1 and
5).  A record in `downloading` becomes `downloaded` with the fetched bytes, or
`errorDownload` on a failure; a result for a record in any other state is stale and
is dropped. -/
def ResourceRecord.fetchCompleted (result : Except FetchError (List Byte)) (r : ResourceRecord) :
    ResourceRecord :=
  if r.state = ResourceImpl.State.downloading then
    match result with
    | Except.ok bytes =>
      { r with state := ResourceImpl.State.downloaded, rawBytes := some bytes,
               memoryFootprintBytes := bytes.length }
    | Except.error _ => { r with state := ResourceImpl.State.errorDownload }
  else r

/-- Modelled from the spec: the delivery of a fetch result for a key to the cache. -/
def CacheManager.fetchCompleted (c : CacheManager) (key : ResourceKey)
    (result : Except FetchError (List Byte)) : CacheManager :=
  { c with records := c.records.map (fun r =>
      if r.key = key then r.fetchCompleted result else r) }

/-- One operation on the cache: a call of the Cache Manager by a consumer or its
owner, a tick of the data thread with the disk cache as it is then, or the
completion of a fetch. -/
inductive CacheOp where
  | acquire (key : ResourceKey)
  | release (key : ResourceKey)
  | tick
  | purge
  | dataTick (disk : ResourceKey → DiskEntry)
  | fetchCompleted (key : ResourceKey) (result : Except FetchError (List Byte))

/-- The effect of one operation on the cache. -/
def CacheManager.step (c : CacheManager) : CacheOp → CacheManager
  | CacheOp.acquire key => c.acquire key
  | CacheOp.release key => c.release key
  | CacheOp.tick => c.tick
  | CacheOp.purge => c.purge
  | CacheOp.dataTick disk => c.dataTick disk
  | CacheOp.fetchCompleted key result => c.fetchCompleted key result

/-- The cache after a sequence of operations, which stands for one interleaving of
the calls of the consumers with the steps of the data thread and of the Fetcher. -/
def CacheManager.run (c : CacheManager) (ops : List CacheOp) : CacheManager :=
  ops.foldl CacheManager.step c

/-- The operation leaves the pending request of the key alone: it does not release
the key or purge the cache, it is not a tick of the data thread that finds valid
content for the key on disk, and it is not the failure of a fetch of the key. -/
def CacheOp.quiet (k : ResourceKey) : CacheOp → Prop
  | CacheOp.acquire _ => True
  | CacheOp.release key => key ≠ k
  | CacheOp.tick => True
  | CacheOp.purge => False
  | CacheOp.dataTick disk => ∀ bytes, disk k ≠ DiskEntry.valid bytes
  | CacheOp.fetchCompleted key result => key = k → ∃ bytes, result = Except.ok bytes

/-- The cache holds a record in use for the key, and the number of fetch tasks
submitted for the key is `n` while the record is in `initializing` and `n + 1` once
it is in `downloading` or `downloaded`. -/
def CacheManager.Tracks (c : CacheManager) (k : ResourceKey) (n : Nat) : Prop :=
  ∃ r ∈ c.records, r.key = k ∧ 0 < r.refCount ∧
    ((r.state = ResourceImpl.State.initializing ∧ c.submitted.count k = n) ∨
     ((r.state = ResourceImpl.State.downloading ∨ r.state = ResourceImpl.State.downloaded) ∧
       c.submitted.count k = n + 1))

/-- The keys of the records map are unique. -/
def CacheManager.UniqueKeys (c : CacheManager) : Prop :=
  (c.records.map (fun r => r.key)).Nodup

/-- One mebibyte, the unit of the memory budget in the options panel. -/
def MiB : Nat := 1024 * 1024

/-- Scenario D of the specification: a budget of 10 MB and five `ready` records of
3 MB each with zero liveness and the ticks 1 to 5. -/
def scenarioD : CacheManager where
  records :=
    [⟨"tile/3", ResourceImpl.State.ready, none, 3, 3 * MiB, 0⟩,
     ⟨"tile/1", ResourceImpl.State.ready, none, 1, 3 * MiB, 0⟩,
     ⟨"tile/5", ResourceImpl.State.ready, none, 5, 3 * MiB, 0⟩,
     ⟨"tile/2", ResourceImpl.State.ready, none, 2, 3 * MiB, 0⟩,
     ⟨"tile/4", ResourceImpl.State.ready, none, 4, 3 * MiB, 0⟩]
  memoryBudget := 10 * MiB
  accessCounter := 5
  submitted := []

/-- A cache over its budget of 4 bytes in which the oldest record is in use: the
record of tick 1 has liveness 2, the records of ticks 2 and 3 have liveness 0. -/
def liveCache : CacheManager where
  records :=
    [⟨"a", ResourceImpl.State.ready, none, 1, 10, 2⟩,
     ⟨"b", ResourceImpl.State.ready, none, 3, 10, 0⟩,
     ⟨"c", ResourceImpl.State.errorDownload, none, 2, 10, 0⟩]
  memoryBudget := 4
  accessCounter := 3
  submitted := []

/-- The cache `liveCache` with a budget of 12 bytes, which the record in use fits
into. -/
def roomyCache : CacheManager :=
  { liveCache with memoryBudget := 12 }

/-- A cache whose one record, for the key `tile/0/0.jpg`, is being downloaded. -/
def fetchingCache : CacheManager where
  records := [⟨"tile/0/0.jpg", ResourceImpl.State.downloading, none, 1, 0, 1⟩]
  memoryBudget := 10 * MiB
  accessCounter := 1
  submitted := ["tile/0/0.jpg"]

/-- The empty cache with a budget of 10 MB. -/
def emptyCache : CacheManager where
  records := []
  memoryBudget := 10 * MiB
  accessCounter := 0
  submitted := []

/-- A disk cache without any entry. -/
def emptyDisk (_ : ResourceKey) : DiskEntry :=
  DiskEntry.missing

/-- A disk cache that holds the valid bytes 7, 7 for the key `tile/0/0.jpg` and
nothing else. -/
def tileDisk (key : ResourceKey) : DiskEntry :=
  if key = "tile/0/0.jpg" then DiskEntry.valid [7, 7] else DiskEntry.missing

/-- The cache after the first request of `tile/0/0.jpg`: one record in
`initializing`. -/
def requestedCache : CacheManager :=
  emptyCache.acquire "tile/0/0.jpg"

end melown

/-!
Map statistics

`vts/statistics.hpp` declares `MapStatistics`.  The counters are `uint32` and are
only ever assigned here, so they are natural numbers.  The bodies of `resetAll`
and `resetFrame` are not among the sources at hand.
-/

namespace vts

/-- Source: `static const uint32 MaxLods = 22;` of `MapStatistics`. -/
abbrev MapStatistics.MaxLods : Nat := 22

/-- Source: the data members of `class MapStatistics`, in the three groups of the
header: frame statistics, global statistics, current statistics. -/
structure MapStatistics where
  meshesRenderedTotal : Nat
  meshesRenderedPerLod : Fin MapStatistics.MaxLods → Nat
  metaNodesTraversedTotal : Nat
  metaNodesTraversedPerLod : Fin MapStatistics.MaxLods → Nat
  resourcesIgnored : Nat
  resourcesDownloaded : Nat
  resourcesDiskLoaded : Nat
  resourcesProcessLoaded : Nat
  resourcesReleased : Nat
  resourcesFailed : Nat
  frameIndex : Nat
  currentResources : Nat
  currentResourceDownloads : Nat
  currentResourcePreparing : Nat
  currentGpuMemUse : Nat
  currentRamMemUse : Nat
  lastHeightRequestLod : Nat
  currentNodeUpdates : Nat

/-- Modelled from the spec: the body of `MapStatistics::resetFrame`, which the
header declares and whose definition is missing.  The specification says that the
reset-frame operation clears only the per-frame counters (rendered and traversed,
in total and per level of detail); these are the members under the comment
`frame statistics` of the header. -/
def MapStatistics.resetFrame (s : MapStatistics) : MapStatistics :=
  { s with
    meshesRenderedTotal := 0
    meshesRenderedPerLod := fun _ => 0
    metaNodesTraversedTotal := 0
    metaNodesTraversedPerLod := fun _ => 0 }

/-- Modelled from the spec: the body of `MapStatistics::resetAll`, which the header
declares and whose definition is missing.  The specification says that the
statistics are reset only by the reset-all operation; it resets the frame
statistics as `resetFrame` does and sets every global and current counter to 0. -/
def MapStatistics.resetAll (s : MapStatistics) : MapStatistics :=
  { s.resetFrame with
    resourcesIgnored := 0
    resourcesDownloaded := 0
    resourcesDiskLoaded := 0
    resourcesProcessLoaded := 0
    resourcesReleased := 0
    resourcesFailed := 0
    frameIndex := 0
    currentResources := 0
    currentResourceDownloads := 0
    currentResourcePreparing := 0
    currentGpuMemUse := 0
    currentRamMemUse := 0
    lastHeightRequestLod := 0
    currentNodeUpdates := 0 }

end vts

/-!
The desktop GUI

`vts-browser-desktop/gui.cpp`.  The widget library (nuklear) and SDL are not code
of the repository: what a widget returns in a frame is an argument of the function
that draws it.  Characters are bytes; `int` is a 32-bit and `uint64` a 64-bit
machine integer.
-/

/-- The C string that starts a character buffer: the bytes before the first NUL. -/
def cstr (buf : List melown.Byte) : List melown.Byte :=
  buf.takeWhile (fun b => b ≠ 0)

/-- Source: `clipBoardCopy(nk_handle, const char *text, int len)`.  `junk` is the
indeterminate content of the local `char buffer[301]` and `text` the bytes that can
be read at the pointer `text`.  The result is the buffer after the two writes and
the C string that `SDL_SetClipboardText(buffer)` reads from it; it is `none` when
the assertion fails, when `memcpy` would read behind the text or when a write would
fall outside the buffer. -/
def clipBoardCopy (junk text : List melown.Byte) (len : Int) :
    Option (List melown.Byte × List melown.Byte) :=
  if len < 300 then
    if 0 ≤ len ∧ len.toNat ≤ text.length ∧ len.toNat ≤ junk.length then
      let copied := text.take len.toNat ++ junk.drop len.toNat
      if len.toNat < copied.length then
        some (copied.set len.toNat 0, cstr (copied.set len.toNat 0))
      else none
    else none
  else none

/-- The conversion of a `uint64` value to `int`: the low 32 bits, read as a two's
complement number. -/
def toInt32 (n : Nat) : Int :=
  if n % 2 ^ 32 < 2 ^ 31 then (n % 2 ^ 32 : Nat) else (n % 2 ^ 32 : Nat) - 2 ^ 32

/-- The conversion `(uint64)` of an `int` value. -/
def toUInt64 (z : Int) : Nat :=
  (z % 2 ^ 64).toNat

/-- What the nuklear slider `nk_slide_int(ctx, min, val, max, step)` returns when
the user does not touch it: the value it was given, clamped into the range of the
slider. -/
def slideUntouched (min val max : Int) : Int :=
  if val < min then min else if max < val then max else val

/-- Source: the statement
`o.maxResourcesMemory = 1024 * 1024 * (uint64)nk_slide_int(&ctx, 0, o.maxResourcesMemory / 1024 / 1024, 2048, 32);`
of `GuiImpl::prepareOptions`, which runs when the options panel is open.  `prev` is
the budget before, a `uint64`; `slide` is the answer of the slider to the `int`
value it is given. -/
def GuiImpl.prepareOptionsMaxMemory (prev : Nat) (slide : Int → Int) : Nat :=
  (1024 * 1024 * toUInt64 (slide (toInt32 (prev / 1024 / 1024)))) % 2 ^ 64

/-- One read of a per-LOD array of the statistics: `none` when the index is not
below `MaxLods`, the declared length. -/
def readLod (arr : Fin vts.MapStatistics.MaxLods → Nat) (i : Nat) : Option Nat :=
  if h : i < vts.MapStatistics.MaxLods then some (arr ⟨i, h⟩) else none

/-- Source: the loop
`for (unsigned i = 0; i < MapStatistics::MaxLods; i++) { if (arr[i] == 0) continue; ... S(buffer, arr[i], ""); }`
of `GuiImpl::prepareStatistics`, with `remaining` rounds left from index `i` on.
The result is the indices read and the rows shown (index and value); it is `none`
when a read is out of bounds. -/
def lodLoop (arr : Fin vts.MapStatistics.MaxLods → Nat) :
    Nat → Nat → Option (List Nat × List (Nat × Nat))
  | 0, _ => some ([], [])
  | remaining + 1, i =>
    match readLod arr i with
    | none => none
    | some v =>
      match lodLoop arr remaining (i + 1) with
      | none => none
      | some r => some (i :: r.1, if v = 0 then r.2 else (i, v) :: r.2)

/-- Source: the two per-LOD parts of `GuiImpl::prepareStatistics`: the traversed
details, shown when `statTraversedDetails` is set, and the rendered details, shown
when `statRenderedDetails` is set.  The result is the indices read from
`metaNodesTraversedPerLod` and from `meshesRenderedPerLod` with the rows shown. -/
def GuiImpl.prepareStatisticsLods (s : vts.MapStatistics)
    (statTraversedDetails statRenderedDetails : Bool) :
    Option ((List Nat × List (Nat × Nat)) × (List Nat × List (Nat × Nat))) :=
  let traversed :=
    if statTraversedDetails then lodLoop s.metaNodesTraversedPerLod vts.MapStatistics.MaxLods 0
    else some ([], [])
  let rendered :=
    if statRenderedDetails then lodLoop s.meshesRenderedPerLod vts.MapStatistics.MaxLods 0
    else some ([], [])
  match traversed, rendered with
  | some t, some r => some (t, r)
  | _, _ => none

/-- The search task of `vts-browser/search.hpp`, as far as the GUI step needs it:
its query. -/
structure SearchTask where
  query : List melown.Byte
deriving DecidableEq, Repr

/-- The members of `GuiImpl` that the query step of `prepareSearch` uses:
`searchText` and `searchTextPrev` (character buffers), `search` (a shared pointer,
`none` when empty) and `searchDetails`. -/
structure SearchGui where
  searchText : List melown.Byte
  searchTextPrev : List melown.Byte
  search : Option SearchTask
  searchDetails : Int
deriving DecidableEq, Repr

/-- Source: the block `// search query` of `GuiImpl::prepareSearch`.  `edited` is
the `len` bytes that `nk_edit_string` leaves in `searchText`; `nk_utf_len` and
`mapSearch` (the call `window->map->search`) are not code of this file.  The result
is the members afterwards and the queries of the calls of `window->map->search`. -/
def GuiImpl.prepareSearchQuery (nk_utf_len : List melown.Byte → Nat)
    (mapSearch : List melown.Byte → Option SearchTask) (g : SearchGui)
    (edited : List melown.Byte) : SearchGui × List (List melown.Byte) :=
  let g1 : SearchGui := { g with searchText := edited ++ [0] }
  if cstr g1.searchText ≠ cstr g1.searchTextPrev then
    if nk_utf_len edited ≥ 3 then
      ({ g1 with search := mapSearch (cstr g1.searchText),
                 searchTextPrev := cstr g1.searchText ++ [0], searchDetails := -1 },
        [cstr g1.searchText])
    else
      ({ g1 with search := none,
                 searchTextPrev := cstr g1.searchText ++ [0], searchDetails := -1 }, [])
  else (g1, [])

/-- One entry of `MapView::BoundLayerInfo::Map`: the id of a bound layer and its
alpha.  The alpha is a `double`; the function only compares and assigns it, so its
type is left open. -/
structure BoundLayerInfo (α : Type) where
  id : String
  alpha : α
deriving DecidableEq, Repr

/-- What the widgets of `prepareViewsBoundLayers` return in one frame: for the layer
at an index whether its check box stays checked, the value of its alpha slider for
the alpha it is given, and whether its button `^` is pressed; and for a layer that
is not in the list whether its check box is checked. -/
structure BoundLayerWidgets (α : Type) where
  keep : Nat → Bool
  slide : Nat → α → α
  up : Nat → Bool
  add : String → Bool

/-- The call `bl.erase(bl.begin() + idx)`: `none` when the index is outside the
list. -/
def eraseAt {α : Type} (l : List α) (idx : Nat) : Option (List α) :=
  if idx < l.length then some (l.eraseIdx idx) else none

/-- The call `std::swap(bl[i], bl[j])`: `none` when an index is outside the list. -/
def swapAt {α : Type} (l : List α) (i j : Nat) : Option (List α) :=
  match l[i]?, l[j]? with
  | some a, some b => some ((l.set i b).set j a)
  | _, _ => none

/-- Source: the second loop of `GuiImpl::prepareViewsBoundLayers`, over the layers
that are left in the set `bls`, and the final `return changed`. -/
def addLoop {α : Type} (ui : BoundLayerWidgets α) (defaultAlpha : α)
    (bl : List (BoundLayerInfo α)) : List String → Bool → Bool × List (BoundLayerInfo α)
  | [], changed => (changed, bl)
  | bn :: bls, changed =>
    if ui.add bn then (true, bl ++ [⟨bn, defaultAlpha⟩])
    else addLoop ui defaultAlpha bl bls changed

/-- Source: the first loop of `GuiImpl::prepareViewsBoundLayers`, over the layers of
the list, followed by the second loop.  `done` are the layers already passed, so
that `idx` is their number, and `rest` the layers to come; `ne` is the comparison
`!=` of two alphas.  The result is the returned flag and the list afterwards; it is
`none` when an index of `erase` or `swap` is outside the list. -/
def layerLoop {α : Type} (ui : BoundLayerWidgets α) (ne : α → α → Bool) (defaultAlpha : α) :
    List (BoundLayerInfo α) → List (BoundLayerInfo α) → List String → Bool →
      Option (Bool × List (BoundLayerInfo α))
  | done, [], bls, changed => some (addLoop ui defaultAlpha done bls changed)
  | done, bn :: rest, bls, changed =>
    if !ui.keep done.length then
      (eraseAt (done ++ bn :: rest) done.length).map (fun l => (true, l))
    else
      let a2 := ui.slide done.length bn.alpha
      let bn2 : BoundLayerInfo α := if ne bn.alpha a2 then { bn with alpha := a2 } else bn
      if 0 < done.length ∧ ui.up done.length = true then
        (swapAt (done ++ bn2 :: rest) (done.length - 1) done.length).map (fun l => (true, l))
      else
        layerLoop ui ne defaultAlpha (done ++ [bn2]) rest (bls.erase bn.id)
          (changed || ne bn.alpha a2)

/-- Source: `bool GuiImpl::prepareViewsBoundLayers(MapView &, MapView::BoundLayerInfo::Map &bl)`.
`bls` is the content of the set built from `getResourceBoundLayers()`, in the order
of its iteration, and `defaultAlpha` the alpha of a new `BoundLayerInfo`. -/
def GuiImpl.prepareViewsBoundLayers {α : Type} (ui : BoundLayerWidgets α) (ne : α → α → Bool)
    (defaultAlpha : α) (bls : List String) (bl : List (BoundLayerInfo α)) :
    Option (Bool × List (BoundLayerInfo α)) :=
  layerLoop ui ne defaultAlpha [] bl bls false

/-- Widgets for examples: every check box of a layer stays checked, no slider is
moved, no button is pressed and no new layer is checked. -/
def idleWidgets : BoundLayerWidgets Nat where
  keep := fun _ => true
  slide := fun _ a => a
  up := fun _ => false
  add := fun _ => false

/-- Widgets for examples: as `idleWidgets`, but the button `^` of the layer at index
1 is pressed. -/
def upWidgets : BoundLayerWidgets Nat where
  keep := fun _ => true
  slide := fun _ a => a
  up := fun i => decide (i = 1)
  add := fun _ => false

/-- A list of two bound layers for examples. -/
def exampleLayers : List (BoundLayerInfo Nat) :=
  [⟨"ortho", 10⟩, ⟨"labels", 5⟩]

/-- A local buffer of 301 bytes for examples, which holds the byte 9 everywhere. -/
def exampleJunk : List melown.Byte :=
  List.replicate 301 9

/-- Statistics for examples: 7 traversed meta nodes and 4 rendered meshes at LOD 3,
and zero everywhere else. -/
def exampleStatistics : vts.MapStatistics where
  meshesRenderedTotal := 4
  meshesRenderedPerLod := fun i => if i.val = 3 then 4 else 0
  metaNodesTraversedTotal := 7
  metaNodesTraversedPerLod := fun i => if i.val = 3 then 7 else 0
  resourcesIgnored := 0
  resourcesDownloaded := 0
  resourcesDiskLoaded := 0
  resourcesProcessLoaded := 0
  resourcesReleased := 0
  resourcesFailed := 0
  frameIndex := 0
  currentResources := 0
  currentResourceDownloads := 0
  currentResourcePreparing := 0
  currentGpuMemUse := 0
  currentRamMemUse := 0
  lastHeightRequestLod := 0
  currentNodeUpdates := 0

/-- The members of the search for examples: both texts empty, no search, and the
details of result 4 open. -/
def exampleSearchGui : SearchGui :=
  ⟨[0], [0], none, 4⟩
open melown

/-! ## Auxiliary facts about `free` and `allocate` -/

theorem cfree_of_freeable (w : World) (i : Nat) (hf : Freeable w i) :
    cfree w.heap (w.objs i).data_ = some (released w.heap (w.objs i).data_) := by
  unfold Freeable at hf
  cases hd : (w.objs i).data_ with
  | none => rfl
  | some p =>
    have := hf p hd
    simp [cfree, released, this.1, this.2]

theorem free_of_freeable (w : World) (i : Nat) (hf : Freeable w i) :
    Buffer.free w i = Outcome.ok
      { heap := released w.heap (w.objs i).data_,
        objs := Function.update w.objs i ⟨none, 0, none, none, none⟩ } := by
  have h := cfree_of_freeable w i hf
  simp [Buffer.free, setg, h]

theorem allocate_of_freeable (w : World) (i n : Nat) (ans : MallocAnswer) (hf : Freeable w i) :
    Buffer.allocate w i n ans =
      match ans with
      | none => Outcome.threw "not enough memory"
          { heap := released w.heap (w.objs i).data_,
            objs := Function.update w.objs i ⟨none, n, none, none, none⟩ }
      | some (blk, fill) => Outcome.ok
          { heap := Function.update (released w.heap (w.objs i).data_) blk
              (some ((List.range n).map fill)),
            objs := Function.update w.objs i
              ⟨some ⟨blk, 0⟩, n, some ⟨blk, 0⟩, some ⟨blk, 0⟩, some ⟨blk, n⟩⟩ } := by
  rw [Buffer.allocate, free_of_freeable w i hf]
  cases ans with
  | none => simp [malloc]
  | some a =>
    obtain ⟨blk, fill⟩ := a
    simp [malloc, setg, ptrAdd]

/-! ## Auxiliary facts about buffer contents and `memcpy` -/

theorem contents_of_owned_length (w : World) (i : Nat) (h : Owned w i) :
    (contents w i).length = (w.objs i).size_ := by
  unfold Owned at h
  unfold contents
  cases hd : (w.objs i).data_ with
  | none => simp [hd] at h; simp [h]
  | some p =>
    simp only [hd] at h
    obtain ⟨h0, bs, hbs, hl⟩ := h
    simp [hbs, h0, hl]

/-- The contents of a buffer depend only on its members and on its own block. -/
theorem contents_congr (w w' : World) (i : Nat) (ho : w'.objs i = w.objs i)
    (hh : ∀ q, (w.objs i).data_ = some q → w'.heap q.block = w.heap q.block) :
    contents w' i = contents w i := by
  unfold contents
  simp only [ho]
  cases hd : (w.objs i).data_ with
  | none => rfl
  | some p =>
    simp only
    rw [hh p hd]

/-- A buffer that points to the start of a block of `size_` bytes holds the block. -/
theorem contents_whole (w : World) (i blk : Nat) (bs : List Byte)
    (hd : (w.objs i).data_ = some ⟨blk, 0⟩) (hb : w.heap blk = some bs)
    (hl : bs.length = (w.objs i).size_) : contents w i = bs := by
  simp [contents, hd, hb, ← hl]

/-- Copying `n` bytes from the start of an owned source into the start of a block
of `n` bytes is defined, touches that block only, and makes it equal to the source. -/
theorem memcpy_whole (h : Heap) (blk : Nat) (db : List Byte) (src : Option Ptr) (n : Nat)
    (hdb : h blk = some db) (hlen : db.length = n)
    (hsrc : match src with
      | none => n = 0
      | some p => p.off = 0 ∧ p.block ≠ blk ∧ ∃ bs, h p.block = some bs ∧ bs.length = n) :
    ∃ h', memcpy h (some ⟨blk, 0⟩) src n = some h' ∧ (∀ a, a ≠ blk → h' a = h a) ∧
      ∃ bs, h' blk = some bs ∧ bs.length = n ∧ ∀ p, src = some p → h p.block = some bs := by
  by_cases hz : n = 0
  · subst hz
    refine ⟨h, by simp [memcpy], fun _ _ => rfl, db, hdb, hlen, ?_⟩
    intro p hp
    subst hp
    simp only at hsrc
    obtain ⟨_, _, bs, hbs, hl⟩ := hsrc
    have h1 : db = [] := List.length_eq_zero.mp hlen
    have h2 : bs = [] := List.length_eq_zero.mp hl
    simp [hbs, h1, h2]
  · cases src with
    | none => exact absurd hsrc hz
    | some p =>
      simp only at hsrc
      obtain ⟨h0, hb, bs, hbs, hl⟩ := hsrc
      subst hl
      refine ⟨Function.update h blk (some bs), ?_, ?_, bs, by simp, rfl, ?_⟩
      rotate_left 2
      · intro q hq
        cases hq
        exact hbs
      · have hb' : ¬ blk = p.block := fun e => hb e.symm
        have hd : List.drop bs.length db = [] := List.drop_eq_nil_of_le (le_of_eq hlen)
        simp [memcpy, hz, hdb, hbs, h0, hlen, hb', hd]
      · intro a ha
        simp [Function.update_noteq ha]

/-- The `memcpy` of the copy constructor and of copy assignment: the source buffer
`other` is owned in `w`, the heap `h0` at the time of the `malloc` agrees with
`w.heap` on the block of `other`, and `blk` is the block handed out. -/
theorem copy_step (w : World) (h0 : Heap) (other blk : Nat) (fill : Nat → Byte)
    (hown : Owned w other)
    (hagree : ∀ q, (w.objs other).data_ = some q → h0 q.block = w.heap q.block)
    (hfresh : h0 blk = none) :
    ∃ h' bs,
      memcpy (Function.update h0 blk (some ((List.range (w.objs other).size_).map fill)))
        (some ⟨blk, 0⟩) (w.objs other).data_ (w.objs other).size_ = some h' ∧
      (∀ a, a ≠ blk → h' a = h0 a) ∧
      h' blk = some bs ∧ bs.length = (w.objs other).size_ ∧ contents w other = bs ∧
      ∀ q, (w.objs other).data_ = some q → q.block ≠ blk ∧ h' q.block = w.heap q.block := by
  have hdist : ∀ q, (w.objs other).data_ = some q → q.block ≠ blk := by
    intro q hq hb
    unfold Owned at hown
    simp only [hq] at hown
    obtain ⟨_, bs, hbs, _⟩ := hown
    rw [← hagree q hq, hb, hfresh] at hbs
    cases hbs
  obtain ⟨h', hm, hframe, bs, hbs, hbl, hsrc⟩ := memcpy_whole
    (Function.update h0 blk (some (List.map fill (List.range (w.objs other).size_))))
    blk (List.map fill (List.range (w.objs other).size_)) (w.objs other).data_
    (w.objs other).size_ (by simp) (by simp) (by
      unfold Owned at hown
      cases hd : (w.objs other).data_ with
      | none => simpa [hd] using hown
      | some p =>
        simp only [hd] at hown
        obtain ⟨h0', bs, hbs, hl⟩ := hown
        have hb := hdist p hd
        exact ⟨h0', hb, bs, by simp [Function.update_noteq hb, hagree p hd, hbs], hl⟩)
  have hsrcbytes : contents w other = bs := by
    unfold contents
    unfold Owned at hown
    cases hd : (w.objs other).data_ with
    | none =>
      simp only [hd] at hown
      rw [hown] at hbl
      simp [List.length_eq_zero.mp hbl]
    | some p =>
      simp only [hd] at hown
      have h1 := hsrc p hd
      rw [Function.update_noteq (hdist p hd), hagree p hd] at h1
      simp [h1, hown.1, ← hbl]
  refine ⟨h', bs, hm, ?_, hbs, hbl, hsrcbytes, ?_⟩
  · intro a ha
    rw [hframe a ha, Function.update_noteq ha]
  · intro q hq
    refine ⟨hdist q hq, ?_⟩
    rw [hframe _ (hdist q hq), Function.update_noteq (hdist q hq), hagree q hq]

/-! ## Auxiliary facts about the copies and the read window -/

/-- The world after a copy construction that returns: the members of the new buffer,
and the block handed out, which holds the bytes of the source. -/
theorem ctorCopy_ok (w : World) (this other blk : Nat) (fill : Nat → Byte)
    (hne : this ≠ other) (hown : Owned w other) (hfresh : w.heap blk = none) :
    ∃ (w' : World) (bs : List Byte),
      Buffer.ctorCopy w this other (some (blk, fill)) = Outcome.ok w' ∧
      w'.objs this = ⟨some ⟨blk, 0⟩, (w.objs other).size_, some ⟨blk, 0⟩, some ⟨blk, 0⟩,
        some ⟨blk, (w.objs other).size_⟩⟩ ∧
      w'.heap blk = some bs ∧ bs.length = (w.objs other).size_ ∧ contents w other = bs := by
  have hne' : other ≠ this := fun h => hne h.symm
  have hf : Freeable ⟨w.heap, Function.update w.objs this ⟨none, (w.objs other).size_, none, none, none⟩⟩ this := by
    intro p hp
    simp at hp
  obtain ⟨h', bs, hm, _, hb, hl, hc, _⟩ :=
    copy_step w w.heap other blk fill hown (fun _ _ => rfl) hfresh
  rw [Buffer.ctorCopy]
  simp only [allocate_of_freeable _ _ _ _ hf]
  simp only [Function.update_same, released, Function.update_noteq hne', hm]
  exact ⟨_, bs, rfl, Function.update_same _ _ _, hb, hl, hc⟩

/-- The world that the statements of a copy assignment between distinct buffers
reach: the members of the destination, and the block handed out, which holds the
bytes of the source.  The operator then flows off its end. -/
theorem assignCopy_end (w : World) (this other blk : Nat) (fill : Nat → Byte)
    (hne : this ≠ other) (hf : Freeable w this) (hown : Owned w other)
    (hna : ∀ p q, (w.objs this).data_ = some p → (w.objs other).data_ = some q →
      p.block ≠ q.block)
    (hfresh : released w.heap (w.objs this).data_ blk = none) :
    ∃ (w' : World) (bs : List Byte),
      Buffer.assignCopy w this other (some (blk, fill)) = Outcome.noReturn w' ∧
      w'.objs this = ⟨some ⟨blk, 0⟩, (w.objs other).size_, some ⟨blk, 0⟩, some ⟨blk, 0⟩,
        some ⟨blk, (w.objs other).size_⟩⟩ ∧
      w'.heap blk = some bs ∧ bs.length = (w.objs other).size_ ∧ contents w other = bs := by
  have hne' : other ≠ this := fun h => hne h.symm
  have hf1 : Freeable ⟨released w.heap (w.objs this).data_,
      Function.update w.objs this ⟨none, 0, none, none, none⟩⟩ this := by
    intro p hp
    simp at hp
  have hagree : ∀ q, (w.objs other).data_ = some q →
      released w.heap (w.objs this).data_ q.block = w.heap q.block := by
    intro q hq
    cases hd : (w.objs this).data_ with
    | none => rfl
    | some p => simp [released, Function.update_noteq (hna p q hd hq).symm]
  obtain ⟨h', bs, hm, _, hb, hl, hc, _⟩ :=
    copy_step w (released w.heap (w.objs this).data_) other blk fill hown hagree hfresh
  rw [Buffer.assignCopy, if_neg hne', free_of_freeable w this hf]
  simp only [allocate_of_freeable _ _ _ _ hf1]
  simp only [Function.update_same, released, Function.update_noteq hne']
  simp only [released] at hm
  simp only [hm]
  exact ⟨_, bs, rfl, Function.update_same _ _ _, hb, hl, hc⟩

/-- A read window that spans the buffer reads exactly the bytes of the buffer. -/
theorem readWindow_eq_contents (w : World) (i : Nat) (h : WindowAtStart (w.objs i)) :
    readWindow w i = contents w i := by
  obtain ⟨_, hg, he⟩ := h
  unfold readWindow contents
  rw [hg, he]
  cases hd : (w.objs i).data_ with
  | none => rfl
  | some p =>
    simp only [ptrAdd]
    cases w.heap p.block with
    | none => rfl
    | some bs => simp

/-- A fresh block stays fresh when another block is released. -/
theorem released_fresh (h : Heap) (d : Option Ptr) (blk : Nat) (hfresh : h blk = none) :
    released h d blk = none := by
  cases d with
  | none => exact hfresh
  | some p =>
    by_cases e : blk = p.block
    · subst e
      simp [released]
    · simp [released, Function.update_noteq e, hfresh]

/-- The members of the buffer and the new block after an `allocate` that returns. -/
theorem allocate_ok_objs (w : World) (this n blk : Nat) (fill : Nat → Byte)
    (hf : Freeable w this) :
    ∃ w', Buffer.allocate w this n (some (blk, fill)) = Outcome.ok w' ∧
      w'.objs this = ⟨some ⟨blk, 0⟩, n, some ⟨blk, 0⟩, some ⟨blk, 0⟩, some ⟨blk, n⟩⟩ ∧
      w'.heap blk = some ((List.range n).map fill) := by
  rw [allocate_of_freeable w this n _ hf]
  exact ⟨_, rfl, by simp, by simp⟩

/-- The members of the buffer and the new block after a `Buffer(size)` that returns. -/
theorem ctorSize_ok_objs (w : World) (this n blk : Nat) (fill : Nat → Byte) :
    ∃ w', Buffer.ctorSize w this n (some (blk, fill)) = Outcome.ok w' ∧
      w'.objs this = ⟨some ⟨blk, 0⟩, n, some ⟨blk, 0⟩, some ⟨blk, 0⟩, some ⟨blk, n⟩⟩ ∧
      w'.heap blk = some ((List.range n).map fill) := by
  have hf0 : Freeable ⟨w.heap, Function.update w.objs this ⟨none, n, none, none, none⟩⟩ this := by
    intro p hp
    simp at hp
  exact allocate_ok_objs _ this n blk fill hf0

/-- The members of the destination after a move construction. -/
theorem ctorMove_objs (w : World) (this other : Nat) (hne : this ≠ other) :
    (Buffer.ctorMove w this other).objs this =
      ⟨(w.objs other).data_, (w.objs other).size_, (w.objs other).data_, (w.objs other).data_,
        ptrAdd (w.objs other).data_ (w.objs other).size_⟩ := by
  have hne' : other ≠ this := fun h => hne h.symm
  simp [Buffer.ctorMove, setg, Function.update_noteq hne, Function.update_noteq hne']

/-- The world that the statements of a move assignment between distinct buffers
reach: the members of the destination and the heap.  The operator then flows off
its end. -/
theorem assignMove_end (w : World) (this other : Nat) (hne : this ≠ other)
    (hf : Freeable w this) :
    ∃ w', Buffer.assignMove w this other = Outcome.noReturn w' ∧
      w'.objs this =
        ⟨(w.objs other).data_, (w.objs other).size_, (w.objs other).data_,
          (w.objs other).data_, ptrAdd (w.objs other).data_ (w.objs other).size_⟩ ∧
      w'.heap = released w.heap (w.objs this).data_ := by
  have hne' : other ≠ this := fun h => hne h.symm
  rw [Buffer.assignMove, if_neg hne', free_of_freeable w this hf]
  refine ⟨_, rfl, ?_, rfl⟩
  simp [setg, Function.update_noteq hne, Function.update_noteq hne']

/-- The read window and the contents of a buffer whose members span a whole block. -/
theorem readWindow_whole (w : World) (i blk n : Nat) (bs : List Byte)
    (ho : w.objs i = ⟨some ⟨blk, 0⟩, n, some ⟨blk, 0⟩, some ⟨blk, 0⟩, some ⟨blk, n⟩⟩)
    (hb : w.heap blk = some bs) (hl : bs.length = n) :
    readWindow w i = bs ∧ contents w i = bs := by
  subst hl
  simp [readWindow, contents, ho, hb]

/-- A buffer that has the `data_` and `size_` of another buffer, in a heap that
agrees on the block, holds the bytes of that buffer. -/
theorem contents_transfer (w w' : World) (i j : Nat)
    (hd : (w'.objs i).data_ = (w.objs j).data_) (hs : (w'.objs i).size_ = (w.objs j).size_)
    (hh : ∀ q, (w.objs j).data_ = some q → w'.heap q.block = w.heap q.block) :
    contents w' i = contents w j := by
  unfold contents
  rw [hd, hs]
  cases hq : (w.objs j).data_ with
  | none => rfl
  | some p =>
    simp only
    rw [hh p hq]

/-- A buffer whose get area was set to `data_`, `data_`, `data_ + size_`. -/
theorem windowAtStart_mk (d : Option Ptr) (n : Nat) :
    WindowAtStart ⟨d, n, d, d, ptrAdd d n⟩ :=
  ⟨rfl, rfl, rfl⟩

/-! ## Auxiliary facts about the loops of `DataThread::run` -/

/-- The first loop makes no call on the map and no graphics call. -/
theorem waitLoop_events (env : Nat → Shared) :
    ∀ fuel t r, DataThread.waitLoop env fuel t = some r →
      ∀ e ∈ r.1, e.isMapCall = false ∧ e.isGraphicsCall = false := by
  intro fuel
  induction fuel with
  | zero => intro t r h; simp [DataThread.waitLoop] at h
  | succ n ih =>
    intro t r h
    rw [DataThread.waitLoop] at h
    split_ifs at h with hs
    · cases h
      intro e he
      simp at he
      subst he
      exact ⟨rfl, rfl⟩
    · cases hm : (env (t + 1)).map with
      | some m =>
        simp only [hm] at h
        cases h
        intro e he
        simp at he
        rcases he with he | he <;> subst he <;> exact ⟨rfl, rfl⟩
      | none =>
        simp only [hm] at h
        cases hr : DataThread.waitLoop env n (t + 2) with
        | none => simp [hr] at h
        | some r' =>
          simp only [hr] at h
          cases h
          intro e he
          simp at he
          rcases he with he | he | he | he
          · subst he; exact ⟨rfl, rfl⟩
          · subst he; exact ⟨rfl, rfl⟩
          · subst he; exact ⟨rfl, rfl⟩
          · exact ih (t + 2) r' hr e he

/-- The first loop is left within one round when a map is attached throughout. -/
theorem waitLoop_attached (env : Nat → Shared) (hmap : ∀ t, (env t).map ≠ none) (fuel t : Nat) :
    ∃ r, DataThread.waitLoop env (fuel + 1) t = some r := by
  rw [DataThread.waitLoop]
  split_ifs with hs
  · exact ⟨_, rfl⟩
  · cases hm : (env (t + 1)).map with
    | some m => exact ⟨_, rfl⟩
    | none => exact absurd hm (hmap (t + 1))

/-- The calls of the second loop on the map: the `dataTick` calls on an attached
map, followed by a call through the null pointer exactly when the loop was not left
at its condition. -/
theorem tickLoop_mapCalls (env : Nat → Shared) (tick : Nat → Bool) :
    ∀ fuel t r, DataThread.tickLoop env tick fuel t = some r →
      ∃ ticks : List (Nat × Bool),
        r.1.filter Event.isMapCall =
          ticks.map (fun p => Event.dataTick p.1 p.2) ++
            (match r.2 with
             | none => [Event.nullMapCall MapMethod.dataTick]
             | some _ => []) := by
  intro fuel
  induction fuel with
  | zero => intro t r h; simp [DataThread.tickLoop] at h
  | succ n ih =>
    intro t r h
    rw [DataThread.tickLoop] at h
    by_cases hs : (env t).stop = true
    · rw [if_pos hs] at h
      cases h
      exact ⟨[], rfl⟩
    · rw [if_neg hs] at h
      cases hm : (env (t + 1)).map with
      | none =>
        simp only [hm] at h
        cases h
        exact ⟨[], rfl⟩
      | some m =>
        simp only [hm] at h
        cases hr : DataThread.tickLoop env tick n (t + 2) with
        | none => simp [hr] at h
        | some r' =>
          simp only [hr] at h
          cases h
          obtain ⟨ticks, ht⟩ := ih (t + 2) r' hr
          refine ⟨(m, tick (t + 1)) :: ticks, ?_⟩
          simp [List.filter, Event.isMapCall]
          simpa [List.filter] using ht

/-- The second loop makes no graphics call. -/
theorem tickLoop_events (env : Nat → Shared) (tick : Nat → Bool) :
    ∀ fuel t r, DataThread.tickLoop env tick fuel t = some r →
      ∀ e ∈ r.1, e.isGraphicsCall = false := by
  intro fuel
  induction fuel with
  | zero => intro t r h; simp [DataThread.tickLoop] at h
  | succ n ih =>
    intro t r h
    rw [DataThread.tickLoop] at h
    by_cases hs : (env t).stop = true
    · rw [if_pos hs] at h
      cases h
      intro e he
      simp at he
      subst he
      rfl
    · rw [if_neg hs] at h
      cases hm : (env (t + 1)).map with
      | none =>
        simp only [hm] at h
        cases h
        intro e he
        simp at he
        rcases he with he | he <;> subst he <;> rfl
      | some m =>
        simp only [hm] at h
        cases hr : DataThread.tickLoop env tick n (t + 2) with
        | none => simp [hr] at h
        | some r' =>
          simp only [hr] at h
          cases h
          intro e he
          simp at he
          rcases he with he | he | he | he
          · subst he; rfl
          · subst he; rfl
          · subst he; rfl
          · exact ih (t + 2) r' hr e he

/-- The second loop is left at its condition once `stop` stays set, when a map is
attached throughout. -/
theorem tickLoop_attached (env : Nat → Shared) (tick : Nat → Bool) (T : Nat)
    (hmap : ∀ t, (env t).map ≠ none) (hstop : ∀ t, T ≤ t → (env t).stop = true) :
    ∀ fuel t, T ≤ t + fuel →
      ∃ evs t2, DataThread.tickLoop env tick (fuel + 1) t = some (evs, some t2) := by
  intro fuel
  induction fuel with
  | zero =>
    intro t ht
    rw [DataThread.tickLoop]
    simp [hstop t (by omega)]
  | succ n ih =>
    intro t ht
    rw [DataThread.tickLoop]
    by_cases hs : (env t).stop = true
    · rw [if_pos hs]
      exact ⟨_, _, rfl⟩
    · rw [if_neg hs]
      cases hm : (env (t + 1)).map with
      | none => exact absurd hm (hmap (t + 1))
      | some m =>
        obtain ⟨evs, t2, hr⟩ := ih (t + 2) (by omega)
        simp only [hr]
        exact ⟨_, _, rfl⟩

/-- In the second loop every `dataTick` call is directly followed by the `usleep`
of its branch. -/
theorem tickLoop_sleeps (env : Nat → Shared) (tick : Nat → Bool) :
    ∀ fuel t r, DataThread.tickLoop env tick fuel t = some r →
      ∀ pre m b post, r.1 = pre ++ Event.dataTick m b :: post →
        ∃ rest, post = Event.usleep (if b then 20000 else 5000) :: rest := by
  intro fuel
  induction fuel with
  | zero => intro t r h; simp [DataThread.tickLoop] at h
  | succ n ih =>
    intro t r h pre m b post hd
    rw [DataThread.tickLoop] at h
    by_cases hs : (env t).stop = true
    · rw [if_pos hs] at h
      cases h
      rcases pre with _ | ⟨x, _ | ⟨y, pre⟩⟩ <;> simp at hd
    · rw [if_neg hs] at h
      cases hm : (env (t + 1)).map with
      | none =>
        simp only [hm] at h
        cases h
        rcases pre with _ | ⟨x, _ | ⟨y, _ | ⟨z, pre⟩⟩⟩ <;> simp at hd
      | some m' =>
        simp only [hm] at h
        cases hr : DataThread.tickLoop env tick n (t + 2) with
        | none => simp [hr] at h
        | some r' =>
          simp only [hr] at h
          cases h
          rcases pre with _ | ⟨x, _ | ⟨y, _ | ⟨z, pre⟩⟩⟩
          · simp at hd
          · simp at hd
            obtain ⟨_, ⟨_, hb⟩, hp⟩ := hd
            subst hb
            exact ⟨_, hp.symm⟩
          · simp at hd
          · simp at hd
            exact ih (t + 2) r' hr pre m b post hd.2.2.2

/-! ## Auxiliary facts about the eviction loop -/

theorem oldestEligible_none (rs : List ResourceRecord) (h : oldestEligible rs = none) :
    ∀ r ∈ rs, r.evictionEligible = false := by
  induction rs with
  | nil => intro r hr; cases hr
  | cons a rs ih =>
    rw [oldestEligible] at h
    cases ho : oldestEligible rs with
    | none =>
      simp only [ho] at h
      intro r hr
      rcases List.mem_cons.mp hr with e | e
      · subst e
        by_cases ha : r.evictionEligible = true
        · simp [ha] at h
        · simpa using ha
      · exact ih ho r e
    | some o =>
      simp only [ho] at h
      split_ifs at h

theorem oldestEligible_some (rs : List ResourceRecord) (o : ResourceRecord)
    (h : oldestEligible rs = some o) :
    o ∈ rs ∧ o.evictionEligible = true ∧
      ∀ r ∈ rs, r.evictionEligible = true → o.lastAccessTick ≤ r.lastAccessTick := by
  induction rs generalizing o with
  | nil => simp [oldestEligible] at h
  | cons a rs ih =>
    rw [oldestEligible] at h
    cases ho : oldestEligible rs with
    | none =>
      simp only [ho] at h
      by_cases ha : a.evictionEligible = true
      · simp only [ha, if_true] at h
        cases h
        refine ⟨List.mem_cons_self _ _, ha, ?_⟩
        intro r hr he
        rcases List.mem_cons.mp hr with e | e
        · subst e; exact le_refl _
        · rw [oldestEligible_none rs ho r e] at he
          cases he
      · simp [ha] at h
    | some o' =>
      simp only [ho] at h
      obtain ⟨hm, hel, hmin⟩ := ih o' ho
      by_cases hc : (a.evictionEligible && decide (a.lastAccessTick ≤ o'.lastAccessTick)) = true
      · rw [if_pos hc] at h
        cases h
        simp only [Bool.and_eq_true, decide_eq_true_eq] at hc
        refine ⟨List.mem_cons_self _ _, hc.1, ?_⟩
        intro r hr he
        rcases List.mem_cons.mp hr with e | e
        · subst e; exact le_refl _
        · exact le_trans hc.2 (hmin r e he)
      · rw [if_neg hc] at h
        cases h
        refine ⟨List.mem_cons_of_mem _ hm, hel, ?_⟩
        intro r hr he
        rcases List.mem_cons.mp hr with e | e
        · subst e
          simp only [Bool.and_eq_true, decide_eq_true_eq, not_and, not_le] at hc
          exact le_of_lt (hc he)
        · exact hmin r e he

/-- The evicted records together with the records that stay are the records before. -/
theorem evictLoop_perm (budget : Nat) :
    ∀ fuel rs, ((evictLoop budget fuel rs).2 ++ (evictLoop budget fuel rs).1).Perm rs := by
  intro fuel
  induction fuel with
  | zero => intro rs; simp [evictLoop]
  | succ n ih =>
    intro rs
    rw [evictLoop]
    by_cases hb : totalMemoryUse rs ≤ budget
    · simp [hb]
    · rw [if_neg hb]
      cases ho : oldestEligible rs with
      | none => simp
      | some o =>
        simp only [List.cons_append]
        exact ((ih (rs.erase o)).cons o).trans
          (List.perm_cons_erase (oldestEligible_some rs o ho).1).symm

/-- Only eligible records are evicted. -/
theorem evictLoop_evicted_eligible (budget : Nat) :
    ∀ fuel rs, ∀ e ∈ (evictLoop budget fuel rs).2, e.evictionEligible = true := by
  intro fuel
  induction fuel with
  | zero => intro rs e he; simp [evictLoop] at he
  | succ n ih =>
    intro rs e he
    rw [evictLoop] at he
    by_cases hb : totalMemoryUse rs ≤ budget
    · simp [hb] at he
    · rw [if_neg hb] at he
      cases ho : oldestEligible rs with
      | none => simp [ho] at he
      | some o =>
        simp only [ho, List.mem_cons] at he
        rcases he with e1 | e1
        · subst e1; exact (oldestEligible_some rs _ ho).2.1
        · exact ih _ e e1

/-- The records that stay are a sublist of the records before. -/
theorem evictLoop_sublist (budget : Nat) :
    ∀ fuel rs, ((evictLoop budget fuel rs).1).Sublist rs := by
  intro fuel
  induction fuel with
  | zero => intro rs; simp [evictLoop]
  | succ n ih =>
    intro rs
    rw [evictLoop]
    by_cases hb : totalMemoryUse rs ≤ budget
    · simp [hb]
    · rw [if_neg hb]
      cases ho : oldestEligible rs with
      | none => simp
      | some o => exact (ih (rs.erase o)).trans (List.erase_sublist o rs)

/-- The total memory use of a permutation. -/
theorem totalMemoryUse_perm {l1 l2 : List ResourceRecord} (h : l1.Perm l2) :
    totalMemoryUse l1 = totalMemoryUse l2 :=
  (h.map _).sum_eq

/-- The total memory use of a sublist. -/
theorem totalMemoryUse_sublist {l1 l2 : List ResourceRecord} (h : l1.Sublist l2) :
    totalMemoryUse l1 ≤ totalMemoryUse l2 :=
  (h.map _).sum_le_sum (fun _ _ => Nat.zero_le _)

/-- The evicted records are in ascending order of `lastAccessTick`, and none of
them was accessed later than an eligible record that stays. -/
theorem evictLoop_order (budget : Nat) :
    ∀ fuel rs,
      ((evictLoop budget fuel rs).2.map (fun r => r.lastAccessTick)).Sorted (fun a b => a ≤ b) ∧
      ∀ e ∈ (evictLoop budget fuel rs).2, ∀ r ∈ (evictLoop budget fuel rs).1,
        r.evictionEligible = true → e.lastAccessTick ≤ r.lastAccessTick := by
  intro fuel
  induction fuel with
  | zero => intro rs; simp [evictLoop]
  | succ n ih =>
    intro rs
    rw [evictLoop]
    by_cases hb : totalMemoryUse rs ≤ budget
    · simp [hb]
    · rw [if_neg hb]
      cases ho : oldestEligible rs with
      | none => simp
      | some o =>
        obtain ⟨hm, hel, hmin⟩ := oldestEligible_some rs o ho
        obtain ⟨hs, hk⟩ := ih (rs.erase o)
        have hsub1 : ∀ r ∈ (evictLoop budget n (rs.erase o)).1, r ∈ rs :=
          fun r hr => List.mem_of_mem_erase ((evictLoop_sublist budget n _).subset hr)
        have hsub2 : ∀ r ∈ (evictLoop budget n (rs.erase o)).2, r ∈ rs := by
          intro r hr
          have : r ∈ (evictLoop budget n (rs.erase o)).2 ++ (evictLoop budget n (rs.erase o)).1 :=
            List.mem_append_left _ hr
          exact List.mem_of_mem_erase ((evictLoop_perm budget n _).subset this)
        refine ⟨?_, ?_⟩
        · simp only [List.map_cons, List.sorted_cons]
          refine ⟨?_, hs⟩
          intro b hb'
          obtain ⟨r, hr, rfl⟩ := List.mem_map.mp hb'
          exact hmin r (hsub2 r hr) (evictLoop_evicted_eligible budget n _ r hr)
        · intro e he r hr hre
          rcases List.mem_cons.mp he with e1 | e1
          · subst e1; exact hmin r (hsub1 r hr) hre
          · exact hk e e1 r hr hre

/-- Every eviction was made while the total memory use exceeded the budget. -/
theorem evictLoop_needed (budget : Nat) :
    ∀ fuel rs ev1 x ev2, (evictLoop budget fuel rs).2 = ev1 ++ x :: ev2 →
      budget < totalMemoryUse (x :: ev2 ++ (evictLoop budget fuel rs).1) := by
  intro fuel
  induction fuel with
  | zero => intro rs ev1 x ev2 h; simp [evictLoop] at h
  | succ n ih =>
    intro rs ev1 x ev2 h
    rw [evictLoop] at h ⊢
    by_cases hb : totalMemoryUse rs ≤ budget
    · simp [hb] at h
    · rw [if_neg hb] at h ⊢
      cases ho : oldestEligible rs with
      | none => simp [ho] at h
      | some o =>
        simp only [ho] at h ⊢
        rcases ev1 with _ | ⟨y, ev1⟩
        · simp only [List.nil_append, List.cons.injEq] at h
          obtain ⟨h1, h2⟩ := h
          subst h1
          have hp := (evictLoop_perm budget n (rs.erase o)).cons o
          have hp2 := hp.trans (List.perm_cons_erase (oldestEligible_some rs o ho).1).symm
          rw [← h2, List.cons_append, totalMemoryUse_perm hp2]
          omega
        · simp only [List.cons_append, List.cons.injEq] at h
          exact ih (rs.erase o) ev1 x ev2 h.2

/-- With fuel for every record, the loop ends within the budget when the records
that are not eligible fit into the budget. -/
theorem evictLoop_within_budget (budget : Nat) :
    ∀ fuel rs, rs.length ≤ fuel →
      totalMemoryUse (rs.filter (fun r => !r.evictionEligible)) ≤ budget →
      totalMemoryUse (evictLoop budget fuel rs).1 ≤ budget := by
  intro fuel
  induction fuel with
  | zero =>
    intro rs hl _
    have : rs = [] := List.length_eq_zero.mp (Nat.le_zero.mp hl)
    subst this
    simp [evictLoop, totalMemoryUse]
  | succ n ih =>
    intro rs hl hfit
    rw [evictLoop]
    by_cases hb : totalMemoryUse rs ≤ budget
    · simp [hb]
    · rw [if_neg hb]
      cases ho : oldestEligible rs with
      | none =>
        have hall := oldestEligible_none rs ho
        have : rs.filter (fun r => !r.evictionEligible) = rs := by
          rw [List.filter_eq_self]
          intro r hr
          simp [hall r hr]
        rw [this] at hfit
        exact absurd hfit hb
      | some o =>
        obtain ⟨hm, _, _⟩ := oldestEligible_some rs o ho
        apply ih
        · rw [List.length_erase_of_mem hm]
          omega
        · exact le_trans (totalMemoryUse_sublist
            ((List.erase_sublist o rs).filter _)) hfit

/-! ## Auxiliary facts about the operations on the cache -/

theorem touch_key (now : Nat) (r : ResourceRecord) : (r.touch now).key = r.key := by
  unfold ResourceRecord.touch
  split_ifs <;> rfl

theorem advance_key (disk : ResourceKey → DiskEntry) (r : ResourceRecord) :
    (r.advance disk).1.key = r.key := by
  unfold ResourceRecord.advance
  cases r.state <;> simp only
  cases disk r.key <;> rfl

theorem fetchCompleted_key (res : Except FetchError (List Byte)) (r : ResourceRecord) :
    (r.fetchCompleted res).key = r.key := by
  unfold ResourceRecord.fetchCompleted
  split_ifs
  · cases res <;> rfl
  · rfl

/-- A step of the data thread on a record submits fetch tasks for its own key only. -/
theorem advance_submits_own_key (disk : ResourceKey → DiskEntry) (r : ResourceRecord)
    (k : ResourceKey) (hk : k ∈ (r.advance disk).2) : k = r.key := by
  unfold ResourceRecord.advance at hk
  cases hs : r.state <;> simp only [hs] at hk <;> try (simp at hk)
  cases hd : disk r.key <;> simp only [hd] at hk <;> simp at hk <;> exact hk

/-- A map over the records that keeps the keys keeps the list of keys. -/
theorem map_keys_eq (f : ResourceRecord → ResourceRecord) (hf : ∀ r, (f r).key = r.key)
    (rs : List ResourceRecord) :
    (rs.map f).map (fun r => r.key) = rs.map (fun r => r.key) := by
  rw [List.map_map]
  exact List.map_congr_left (fun r _ => hf r)

/-- In a cache with unique keys, the fetch tasks that one tick of the data thread
submits for the key of a record are the ones submitted by the step on that record. -/
theorem count_submitted_of_mem (disk : ResourceKey → DiskEntry) (r : ResourceRecord) :
    ∀ rs : List ResourceRecord, (rs.map (fun x => x.key)).Nodup → r ∈ rs →
      (rs.flatMap (fun x => (x.advance disk).2)).count r.key =
        ((r.advance disk).2).count r.key := by
  intro rs
  induction rs with
  | nil => intro _ h; cases h
  | cons a rs ih =>
    intro hnd hr
    simp only [List.map_cons, List.nodup_cons] at hnd
    obtain ⟨ha, hnd'⟩ := hnd
    simp only [List.flatMap_cons, List.count_append]
    rcases List.mem_cons.mp hr with e | e
    · subst e
      have : (rs.flatMap (fun x => (x.advance disk).2)).count r.key = 0 := by
        apply List.count_eq_zero_of_not_mem
        intro hmem
        obtain ⟨x, hx, hk⟩ := List.mem_flatMap.mp hmem
        have := advance_submits_own_key disk x r.key hk
        exact ha (this ▸ List.mem_map_of_mem (fun x => x.key) hx)
      omega
    · have hne : a.key ≠ r.key := by
        intro heq
        exact ha (heq ▸ List.mem_map_of_mem (fun x => x.key) e)
      have : ((a.advance disk).2).count r.key = 0 := by
        apply List.count_eq_zero_of_not_mem
        intro hmem
        exact hne (advance_submits_own_key disk a r.key hmem).symm
      rw [this, ih hnd' e]
      omega

/-- One tick of the data thread submits no fetch task for a key without a record. -/
theorem count_submitted_of_absent (disk : ResourceKey → DiskEntry) (k : ResourceKey)
    (rs : List ResourceRecord) (habs : ∀ r ∈ rs, r.key ≠ k) :
    (rs.flatMap (fun x => (x.advance disk).2)).count k = 0 := by
  apply List.count_eq_zero_of_not_mem
  intro hmem
  obtain ⟨x, hx, hk⟩ := List.mem_flatMap.mp hmem
  exact habs x hx (advance_submits_own_key disk x k hk).symm

/-- No operation other than a new `acquire` of the key changes the state of a
record in `errorDownload`: after the operation every record for the key that is
still in the map is in `errorDownload`. -/
theorem step_keeps_errorDownload (k : ResourceKey) (c : CacheManager) (op : CacheOp)
    (hop : op ≠ CacheOp.acquire k)
    (h : ∀ r ∈ c.records, r.key = k → r.state = ResourceImpl.State.errorDownload) :
    ∀ r ∈ (c.step op).records, r.key = k → r.state = ResourceImpl.State.errorDownload := by
  cases op with
  | acquire key =>
    have hne : key ≠ k := fun e => hop (by rw [e])
    intro r hr hk
    simp only [CacheManager.step, CacheManager.acquire] at hr
    split_ifs at hr
    · simp only [List.mem_map] at hr
      obtain ⟨x, hx, rfl⟩ := hr
      by_cases hxk : x.key = key
      · rw [if_pos hxk] at hk
        rw [touch_key] at hk
        exact absurd (hxk.symm.trans hk) hne
      · rw [if_neg hxk] at hk ⊢
        exact h x hx hk
    · simp only [List.mem_append, List.mem_singleton] at hr
      rcases hr with hr | hr
      · exact h r hr hk
      · subst hr
        exact absurd hk hne
  | release key =>
    intro r hr hk
    simp only [CacheManager.step, CacheManager.release, List.mem_map] at hr
    obtain ⟨x, hx, rfl⟩ := hr
    by_cases hxk : x.key = key
    · rw [if_pos hxk] at hk ⊢
      exact h x hx hk
    · rw [if_neg hxk] at hk ⊢
      exact h x hx hk
  | tick =>
    intro r hr hk
    exact h r ((evictLoop_sublist _ _ _).subset hr) hk
  | purge =>
    intro r hr
    cases hr
  | dataTick disk =>
    intro r hr hk
    simp only [CacheManager.step, CacheManager.dataTick, List.mem_map] at hr
    obtain ⟨x, hx, rfl⟩ := hr
    rw [advance_key] at hk
    have hs := h x hx hk
    simp [ResourceRecord.advance, hs]
  | fetchCompleted key res =>
    intro r hr hk
    simp only [CacheManager.step, CacheManager.fetchCompleted, List.mem_map] at hr
    obtain ⟨x, hx, rfl⟩ := hr
    by_cases hxk : x.key = key
    · rw [if_pos hxk] at hk ⊢
      rw [fetchCompleted_key] at hk
      have hs := h x hx hk
      simp [ResourceRecord.fetchCompleted, hs]
    · rw [if_neg hxk] at hk ⊢
      exact h x hx hk

theorem run_keeps_errorDownload (k : ResourceKey) (ops : List CacheOp)
    (hops : CacheOp.acquire k ∉ ops) :
    ∀ c : CacheManager,
      (∀ r ∈ c.records, r.key = k → r.state = ResourceImpl.State.errorDownload) →
      ∀ r ∈ (c.run ops).records, r.key = k → r.state = ResourceImpl.State.errorDownload := by
  induction ops with
  | nil => intro c h; exact h
  | cons op ops ih =>
    intro c h
    simp only [List.mem_cons, not_or] at hops
    have hstep := step_keeps_errorDownload k c op (fun e => hops.1 e.symm) h
    exact ih hops.2 (c.step op) hstep

/-- A record in use stays in the map through `tick()`. -/
theorem tick_keeps_live (c : CacheManager) (r : ResourceRecord) (hr : r ∈ c.records)
    (hlive : 0 < r.refCount) : r ∈ c.tick.records := by
  have hp := evictLoop_perm c.memoryBudget c.records.length c.records
  rcases List.mem_append.mp (hp.symm.subset hr) with h | h
  · have he := evictLoop_evicted_eligible c.memoryBudget c.records.length c.records r h
    simp [ResourceRecord.evictionEligible] at he
    omega
  · exact h

/-- Every operation keeps the keys of the records map unique. -/
theorem step_uniqueKeys (c : CacheManager) (op : CacheOp) (hu : c.UniqueKeys) :
    (c.step op).UniqueKeys := by
  unfold CacheManager.UniqueKeys at hu ⊢
  cases op with
  | acquire key =>
    simp only [CacheManager.step, CacheManager.acquire]
    split_ifs with hany
    · simp only
      rw [map_keys_eq _ (fun r => by split_ifs <;> simp [touch_key])]
      exact hu
    · simp only [List.map_append, List.map_cons, List.map_nil]
      rw [List.nodup_append]
      refine ⟨hu, List.nodup_singleton _, ?_⟩
      intro a ha hb
      rw [List.mem_singleton] at hb
      subst hb
      apply hany
      obtain ⟨x, hx, hxk⟩ := List.mem_map.mp ha
      simp only [List.any_eq_true, beq_iff_eq]
      exact ⟨x, hx, hxk⟩
  | release key =>
    simp only [CacheManager.step, CacheManager.release]
    rw [map_keys_eq _ (fun r => by split_ifs <;> rfl)]
    exact hu
  | tick =>
    exact hu.sublist ((evictLoop_sublist _ _ _).map _)
  | purge =>
    simp [CacheManager.step, CacheManager.purge]
  | dataTick disk =>
    simp only [CacheManager.step, CacheManager.dataTick]
    rw [map_keys_eq _ (advance_key disk)]
    exact hu
  | fetchCompleted key res =>
    simp only [CacheManager.step, CacheManager.fetchCompleted]
    rw [map_keys_eq _ (fun r => by split_ifs <;> simp [fetchCompleted_key])]
    exact hu

/-- A pending request stays tracked through every quiet operation. -/
theorem step_tracks (c : CacheManager) (k : ResourceKey) (n : Nat) (op : CacheOp)
    (hu : c.UniqueKeys) (ht : c.Tracks k n) (hq : op.quiet k) : (c.step op).Tracks k n := by
  obtain ⟨r, hr, hk, hlive, hst⟩ := ht
  have hnoerr : ¬ (r.state = ResourceImpl.State.errorDownload ∨
      r.state = ResourceImpl.State.errorLoad) := by
    rcases hst with ⟨h, _⟩ | ⟨h | h, _⟩ <;> simp [h]
  cases op with
  | acquire key =>
    simp only [CacheManager.step, CacheManager.acquire]
    by_cases hkey : key = k
    · subst hkey
      have hany : (c.records.any (fun x => x.key == key)) = true := by
        simp only [List.any_eq_true, beq_iff_eq]
        exact ⟨r, hr, hk⟩
      rw [if_pos hany]
      refine ⟨r.touch (c.accessCounter + 1), ?_, (touch_key _ _).trans hk, ?_, ?_⟩
      · simp only [List.mem_map]
        exact ⟨r, hr, by rw [if_pos hk]⟩
      · simp [ResourceRecord.touch, hnoerr]
      · simpa [ResourceRecord.touch, hnoerr] using hst
    · have hrk : ¬ r.key = key := fun e => hkey (e.symm.trans hk)
      split_ifs with hany
      · refine ⟨r, ?_, hk, hlive, hst⟩
        simp only [List.mem_map]
        exact ⟨r, hr, by rw [if_neg hrk]⟩
      · exact ⟨r, List.mem_append_left _ hr, hk, hlive, hst⟩
  | release key =>
    have hkey : key ≠ k := hq
    have hrk : ¬ r.key = key := fun e => hkey (e.symm.trans hk)
    refine ⟨r, ?_, hk, hlive, hst⟩
    simp only [CacheManager.step, CacheManager.release, List.mem_map]
    exact ⟨r, hr, by rw [if_neg hrk]⟩
  | tick =>
    exact ⟨r, tick_keeps_live c r hr hlive, hk, hlive, hst⟩
  | purge =>
    exact absurd hq id
  | dataTick disk =>
    have hvalid : ∀ bytes, disk k ≠ DiskEntry.valid bytes := hq
    have hcount := count_submitted_of_mem disk r c.records hu hr
    rw [hk] at hcount
    refine ⟨(r.advance disk).1, ?_, ?_, ?_, ?_⟩
    · simp only [CacheManager.step, CacheManager.dataTick, List.mem_map]
      exact ⟨r, hr, rfl⟩
    · rw [advance_key]; exact hk
    · unfold ResourceRecord.advance
      cases r.state <;> simp only <;> try exact hlive
      cases disk r.key <;> exact hlive
    · simp only [CacheManager.step, CacheManager.dataTick, List.count_append, hcount]
      rcases hst with ⟨h, hc⟩ | ⟨h, hc⟩
      · right
        cases hd : disk r.key with
        | valid bytes => exact absurd (hk ▸ hd) (hvalid bytes)
        | missing => simp [ResourceRecord.advance, h, hd, hc, hk]
        | invalid => simp [ResourceRecord.advance, h, hd, hc, hk]
      · right
        rcases h with h | h <;> simp [ResourceRecord.advance, h, hc]
  | fetchCompleted key res =>
    simp only [CacheManager.step, CacheManager.fetchCompleted]
    by_cases hkey : key = k
    · obtain ⟨bytes, hres⟩ := hq hkey
      subst hres
      refine ⟨r.fetchCompleted (Except.ok bytes), ?_, ?_, ?_, ?_⟩
      · simp only [List.mem_map]
        exact ⟨r, hr, by rw [if_pos (hk.trans hkey.symm)]⟩
      · rw [fetchCompleted_key]; exact hk
      · unfold ResourceRecord.fetchCompleted
        split_ifs <;> exact hlive
      · rcases hst with ⟨h, hc⟩ | ⟨h | h, hc⟩
        · left; simp [ResourceRecord.fetchCompleted, h, hc]
        · right; simp [ResourceRecord.fetchCompleted, h, hc]
        · right; simp [ResourceRecord.fetchCompleted, h, hc]
    · have hrk : ¬ r.key = key := fun e => hkey (e.symm.trans hk)
      refine ⟨r, ?_, hk, hlive, hst⟩
      simp only [List.mem_map]
      exact ⟨r, hr, by rw [if_neg hrk]⟩

/-- While no record exists for a key, an operation other than its `acquire` creates
none and submits no fetch task for it. -/
theorem step_absent (c : CacheManager) (k : ResourceKey) (op : CacheOp)
    (habs : ∀ r ∈ c.records, r.key ≠ k) (hop : op ≠ CacheOp.acquire k) :
    (∀ r ∈ (c.step op).records, r.key ≠ k) ∧
    (c.step op).submitted.count k = c.submitted.count k := by
  cases op with
  | acquire key =>
    have hne : key ≠ k := fun e => hop (by rw [e])
    refine ⟨?_, ?_⟩
    · intro r hr
      simp only [CacheManager.step, CacheManager.acquire] at hr
      split_ifs at hr
      · simp only [List.mem_map] at hr
        obtain ⟨x, hx, rfl⟩ := hr
        split_ifs
        · rw [touch_key]; exact habs x hx
        · exact habs x hx
      · simp only [List.mem_append, List.mem_singleton] at hr
        rcases hr with hr | hr
        · exact habs r hr
        · subst hr; exact hne
    · simp only [CacheManager.step, CacheManager.acquire]
      split_ifs <;> rfl
  | release key =>
    refine ⟨?_, rfl⟩
    intro r hr
    simp only [CacheManager.step, CacheManager.release, List.mem_map] at hr
    obtain ⟨x, hx, rfl⟩ := hr
    split_ifs <;> exact habs x hx
  | tick =>
    exact ⟨fun r hr => habs r ((evictLoop_sublist _ _ _).subset hr), rfl⟩
  | purge =>
    refine ⟨?_, rfl⟩
    intro r hr
    cases hr
  | dataTick disk =>
    refine ⟨?_, ?_⟩
    · intro r hr
      simp only [CacheManager.step, CacheManager.dataTick, List.mem_map] at hr
      obtain ⟨x, hx, rfl⟩ := hr
      rw [advance_key]; exact habs x hx
    · simp only [CacheManager.step, CacheManager.dataTick, List.count_append,
        count_submitted_of_absent disk k c.records habs, Nat.add_zero]
  | fetchCompleted key res =>
    refine ⟨?_, rfl⟩
    intro r hr
    simp only [CacheManager.step, CacheManager.fetchCompleted, List.mem_map] at hr
    obtain ⟨x, hx, rfl⟩ := hr
    split_ifs
    · rw [fetchCompleted_key]; exact habs x hx
    · exact habs x hx

/-- The first `acquire` of a key creates its record, in `initializing` and in use. -/
theorem acquire_absent_tracks (c : CacheManager) (k : ResourceKey)
    (habs : ∀ r ∈ c.records, r.key ≠ k) : (c.acquire k).Tracks k (c.submitted.count k) := by
  have hany : ¬ (c.records.any (fun x => x.key == k)) = true := by
    simp only [List.any_eq_true, beq_iff_eq, not_exists, not_and]
    exact habs
  simp only [CacheManager.acquire, if_neg hany]
  exact ⟨_, List.mem_append_right _ (List.mem_singleton_self _), rfl, by simp,
    Or.inl ⟨rfl, rfl⟩⟩

theorem run_tracks (k : ResourceKey) (n : Nat) (ops : List CacheOp) :
    ∀ c : CacheManager, c.UniqueKeys → c.Tracks k n → (∀ op ∈ ops, op.quiet k) →
      (c.run ops).UniqueKeys ∧ (c.run ops).Tracks k n := by
  induction ops with
  | nil => intro c hu ht _; exact ⟨hu, ht⟩
  | cons op ops ih =>
    intro c hu ht hq
    exact ih (c.step op) (step_uniqueKeys c op hu)
      (step_tracks c k n op hu ht (hq op (List.mem_cons_self _ _)))
      (fun o ho => hq o (List.mem_cons_of_mem _ ho))

theorem run_absent_tracks (k : ResourceKey) (ops : List CacheOp) :
    ∀ c : CacheManager, c.UniqueKeys → (∀ r ∈ c.records, r.key ≠ k) →
      (∀ op ∈ ops, op.quiet k) → CacheOp.acquire k ∈ ops →
      (c.run ops).UniqueKeys ∧ (c.run ops).Tracks k (c.submitted.count k) := by
  induction ops with
  | nil => intro c _ _ _ h; cases h
  | cons op ops ih =>
    intro c hu habs hq hacq
    have hq' : ∀ o ∈ ops, o.quiet k := fun o ho => hq o (List.mem_cons_of_mem _ ho)
    by_cases hop : op = CacheOp.acquire k
    · subst hop
      exact run_tracks k _ ops (c.acquire k) (step_uniqueKeys c (CacheOp.acquire k) hu)
        (acquire_absent_tracks c k habs) hq'
    · obtain ⟨habs', hcount⟩ := step_absent c k op habs hop
      have hacq' : CacheOp.acquire k ∈ ops := by
        rcases List.mem_cons.mp hacq with e | e
        · exact absurd e.symm hop
        · exact e
      have := ih (c.step op) (step_uniqueKeys c op hu) habs' hq' hacq'
      rw [hcount] at this
      exact this

/-! ## Auxiliary facts about the GUI functions -/

/-- A C string ends at the NUL that is appended to it. -/
theorem cstr_append_nul (x : List melown.Byte) : cstr (x ++ [0]) = cstr x := by
  induction x with
  | nil => simp [cstr, List.takeWhile]
  | cons a x ih =>
    unfold cstr at ih ⊢
    simp only [List.cons_append, List.takeWhile_cons]
    split_ifs
    · rw [ih]
    · rfl

/-- The bytes of a C string are not NUL, so the C string of a C string is itself. -/
theorem cstr_cstr (x : List melown.Byte) : cstr (cstr x) = cstr x := by
  induction x with
  | nil => rfl
  | cons a x ih =>
    unfold cstr at ih ⊢
    by_cases ha : decide (a ≠ 0) = true
    · simp only [List.takeWhile_cons, ha, if_true]
      rw [ih]
    · simp only [List.takeWhile_cons, ha]
      rfl

/-- A C string that is followed by anything after its NUL. -/
theorem cstr_append_nul_append (x y : List melown.Byte) : cstr (x ++ 0 :: y) = cstr x := by
  induction x with
  | nil => simp [cstr, List.takeWhile]
  | cons a x ih =>
    unfold cstr at ih ⊢
    simp only [List.cons_append, List.takeWhile_cons]
    split_ifs
    · rw [ih]
    · rfl

/-- A write at the end of the first part of a list. -/
theorem set_append_cons {α : Type} (a : List α) (x v : α) (rest : List α) (n : Nat)
    (hn : a.length = n) : (a ++ x :: rest).set n v = a ++ v :: rest := by
  subst hn
  induction a with
  | nil => rfl
  | cons b a ih => simp [ih]

/-- The buffer of `clipBoardCopy` after its two writes. -/
theorem clipBoardCopy_eq (junk text : List melown.Byte) (len : Int)
    (hjunk : junk.length = 301) (h0 : 0 ≤ len) (h300 : len < 300)
    (htext : len.toNat ≤ text.length) :
    clipBoardCopy junk text len =
      some (text.take len.toNat ++ 0 :: junk.drop (len.toNat + 1),
        cstr (text.take len.toNat)) := by
  have hn : len.toNat < 300 := by omega
  have hlen : (text.take len.toNat).length = len.toNat := by
    rw [List.length_take]; omega
  have hdrop : ∃ x, junk.drop len.toNat = x :: junk.drop (len.toNat + 1) :=
    ⟨_, List.drop_eq_getElem_cons (by omega)⟩
  have hset : (text.take len.toNat ++ junk.drop len.toNat).set len.toNat 0 =
      text.take len.toNat ++ 0 :: junk.drop (len.toNat + 1) := by
    obtain ⟨x, hx⟩ := hdrop
    rw [hx]
    exact set_append_cons _ x 0 _ _ hlen
  have hcl : len.toNat < (text.take len.toNat ++ junk.drop len.toNat).length := by
    rw [List.length_append, hlen, List.length_drop]; omega
  unfold clipBoardCopy
  rw [if_pos h300, if_pos ⟨h0, htext, by omega⟩]
  simp only [hcl, if_true, hset, cstr_append_nul_append]

theorem exampleJunk_length : exampleJunk.length = 301 := by
  rw [exampleJunk, List.length_replicate]

/-- For a slider result within the range of the slider the new budget is the result
in MiB; the product does not overflow. -/
theorem prepareOptionsMaxMemory_in_range (prev : Nat) (slide : Int → Int)
    (h0 : 0 ≤ slide (toInt32 (prev / 1024 / 1024)))
    (h1 : slide (toInt32 (prev / 1024 / 1024)) ≤ 2048) :
    GuiImpl.prepareOptionsMaxMemory prev slide =
      1048576 * (slide (toInt32 (prev / 1024 / 1024))).toNat ∧
    1048576 * (slide (toInt32 (prev / 1024 / 1024))).toNat < 2 ^ 64 ∧
    GuiImpl.prepareOptionsMaxMemory prev slide ≤ 2048 * 1048576 := by
  unfold GuiImpl.prepareOptionsMaxMemory toUInt64
  generalize slide (toInt32 (prev / 1024 / 1024)) = s at h0 h1
  obtain ⟨n, rfl⟩ := Int.eq_ofNat_of_zero_le h0
  have hn : n ≤ 2048 := by omega
  have hmod : ((n : Int) % 2 ^ 64).toNat = n := by
    have : ((n : Int) % 2 ^ 64) = n := Int.emod_eq_of_lt (by omega) (by omega)
    rw [this]
    rfl
  rw [hmod]
  simp only [Int.toNat_ofNat]
  have : 1024 * 1024 * n < 2 ^ 64 := by omega
  rw [Nat.mod_eq_of_lt this]
  omega

/-- With an untouched slider and a previous budget below 2^51 bytes the new budget is
the previous budget rounded down to whole MiB and capped at 2048 MiB. -/
theorem prepareOptionsMaxMemory_untouched (prev : Nat) (hprev : prev < 2 ^ 51) :
    GuiImpl.prepareOptionsMaxMemory prev (fun v => slideUntouched 0 v 2048) =
      min (prev / 1048576) 2048 * 1048576 := by
  have hdiv : prev / 1024 / 1024 = prev / 1048576 := by
    rw [Nat.div_div_eq_div_mul]
  have hq : prev / 1048576 < 2 ^ 31 := by omega
  have h32 : toInt32 (prev / 1024 / 1024) = ((prev / 1048576 : Nat) : Int) := by
    unfold toInt32
    rw [hdiv]
    have hm : prev / 1048576 % 2 ^ 32 = prev / 1048576 := Nat.mod_eq_of_lt (by omega)
    rw [hm, if_pos hq]
  have hs0 : 0 ≤ slideUntouched 0 (toInt32 (prev / 1024 / 1024)) 2048 := by
    unfold slideUntouched
    split_ifs <;> omega
  have hs1 : slideUntouched 0 (toInt32 (prev / 1024 / 1024)) 2048 ≤ 2048 := by
    unfold slideUntouched
    split_ifs <;> omega
  rw [(prepareOptionsMaxMemory_in_range prev (fun v => slideUntouched 0 v 2048) hs0 hs1).1]
  simp only [h32]
  unfold slideUntouched
  split_ifs with ha hb
  · omega
  · have : 2048 < prev / 1048576 := by omega
    rw [Nat.min_eq_right (by omega)]
    rfl
  · have : prev / 1048576 ≤ 2048 := by omega
    rw [Nat.min_eq_left this, Int.toNat_ofNat]
    omega

/-- The loop over a per-LOD array stays inside the array when it ends at `MaxLods`:
it returns, and it reads the indices from `i` on, one after the other. -/
theorem lodLoop_in_bounds (arr : Fin vts.MapStatistics.MaxLods → Nat) :
    ∀ remaining i, i + remaining ≤ vts.MapStatistics.MaxLods →
      ∃ r, lodLoop arr remaining i = some r ∧ r.1 = List.range' i remaining ∧
        ∀ j ∈ r.1, j < vts.MapStatistics.MaxLods := by
  intro remaining
  induction remaining with
  | zero => intro i _; exact ⟨_, rfl, rfl, fun j hj => by cases hj⟩
  | succ n ih =>
    intro i hi
    have hlt : i < vts.MapStatistics.MaxLods := by omega
    obtain ⟨r, hr, hidx, hb⟩ := ih (i + 1) (by omega)
    refine ⟨(i :: r.1, if arr ⟨i, hlt⟩ = 0 then r.2 else (i, arr ⟨i, hlt⟩) :: r.2), ?_, ?_, ?_⟩
    · rw [lodLoop]
      simp only [readLod, dif_pos hlt, hr]
    · simp only [hidx, List.range']
    · intro j hj
      rcases List.mem_cons.mp hj with e | e
      · rw [e]; exact hlt
      · exact hb j e

/-- The second loop of `prepareViewsBoundLayers` returns `false` only when nothing
was changed before it and it leaves the list as it is. -/
theorem addLoop_false {α : Type} (ui : BoundLayerWidgets α) (defaultAlpha : α)
    (bl : List (BoundLayerInfo α)) :
    ∀ (bls : List String) (changed : Bool),
      (addLoop ui defaultAlpha bl bls changed).1 = false →
      changed = false ∧ (addLoop ui defaultAlpha bl bls changed).2 = bl := by
  intro bls
  induction bls with
  | nil => intro changed h; exact ⟨h, rfl⟩
  | cons bn bls ih =>
    intro changed h
    rw [addLoop] at h ⊢
    by_cases ha : ui.add bn = true
    · rw [if_pos ha] at h
      cases h
    · rw [if_neg ha] at h ⊢
      exact ih changed h

/-- A swap of two positions inside the list is defined. -/
theorem swapAt_some {α : Type} (l : List α) (i j : Nat) (hi : i < l.length)
    (hj : j < l.length) : ∃ l', swapAt l i j = some l' := by
  unfold swapAt
  rw [List.getElem?_eq_getElem hi, List.getElem?_eq_getElem hj]
  exact ⟨_, rfl⟩

/-- The loops of `prepareViewsBoundLayers` use indices inside the list only, and
they return `false` only when no change was made before and the list is as it was. -/
theorem layerLoop_spec {α : Type} (ui : BoundLayerWidgets α) (ne : α → α → Bool)
    (defaultAlpha : α) :
    ∀ (rest done : List (BoundLayerInfo α)) (bls : List String) (changed : Bool),
      ∃ r, layerLoop ui ne defaultAlpha done rest bls changed = some r ∧
        (r.1 = false → changed = false ∧ r.2 = done ++ rest) := by
  intro rest
  induction rest with
  | nil =>
    intro done bls changed
    refine ⟨_, rfl, ?_⟩
    intro h
    have := addLoop_false ui defaultAlpha done bls changed h
    simpa using this
  | cons bn rest ih =>
    intro done bls changed
    rw [layerLoop]
    by_cases hk : (!ui.keep done.length) = true
    · rw [if_pos hk]
      have hlt : done.length < (done ++ bn :: rest).length := by
        simp
      refine ⟨(true, (done ++ bn :: rest).eraseIdx done.length), ?_, ?_⟩
      · simp [eraseAt, hlt]
      · intro h; cases h
    · rw [if_neg hk]
      by_cases hu : 0 < done.length ∧ ui.up done.length = true
      · simp only [if_pos hu]
        obtain ⟨l, hl⟩ := swapAt_some (done ++ (if ne bn.alpha (ui.slide done.length bn.alpha) = true
            then { bn with alpha := ui.slide done.length bn.alpha } else bn) :: rest)
            (done.length - 1) done.length (by simp; omega) (by simp)
        refine ⟨(true, l), ?_, ?_⟩
        · rw [hl]; rfl
        · intro h; cases h
      · simp only [if_neg hu]
        obtain ⟨r, hr, hspec⟩ := ih (done ++ [if ne bn.alpha (ui.slide done.length bn.alpha) = true
            then { bn with alpha := ui.slide done.length bn.alpha } else bn]) (bls.erase bn.id)
            (changed || ne bn.alpha (ui.slide done.length bn.alpha))
        refine ⟨r, hr, ?_⟩
        intro hf
        obtain ⟨hc, hl⟩ := hspec hf
        simp only [Bool.or_eq_false_iff] at hc
        refine ⟨hc.1, ?_⟩
        rw [hl]
        simp [hc.2]

/-! ## The claims -/

/-- C1: move construction transfers ownership.  The buffer built by
`Buffer(std::move(b))` has the size of `b` and the same `data_` pointer while the
heap is untouched (the same region and bytes, not a copy), and afterwards `b` has
size 0 and a null `data_`. -/
theorem C1_move_construction_transfers (w : World) (this other : Nat) (hne : this ≠ other) :
    ((Buffer.ctorMove w this other).objs this).size_ = (w.objs other).size_ ∧
    ((Buffer.ctorMove w this other).objs this).data_ = (w.objs other).data_ ∧
    (Buffer.ctorMove w this other).heap = w.heap ∧
    contents (Buffer.ctorMove w this other) this = contents w other ∧
    ((Buffer.ctorMove w this other).objs other).size_ = 0 ∧
    ((Buffer.ctorMove w this other).objs other).data_ = none := by
  have hne' : other ≠ this := fun h => hne h.symm
  simp [Buffer.ctorMove, contents, setg, Function.update_same, Function.update_noteq, hne, hne']

/-- C1 at a concrete input: the buffer at address 1 of the example world, which
owns block 7 with 3 bytes, is moved into a new buffer at address 5. -/
theorem C1_move_construction_transfers_witness :
    (5 : Nat) ≠ 1 ∧
    ((Buffer.ctorMove exampleWorld 5 1).objs 5).size_ = 3 ∧
    ((Buffer.ctorMove exampleWorld 5 1).objs 5).data_ = some ⟨7, 0⟩ ∧
    contents (Buffer.ctorMove exampleWorld 5 1) 5 = [10, 20, 30] ∧
    ((Buffer.ctorMove exampleWorld 5 1).objs 1).size_ = 0 ∧
    ((Buffer.ctorMove exampleWorld 5 1).objs 1).data_ = none := by
  have h := C1_move_construction_transfers exampleWorld 5 1 (by decide)
  refine ⟨by decide, ?_, ?_, ?_, h.2.2.2.2.1, h.2.2.2.2.2⟩
  · rw [h.1]; rfl
  · rw [h.2.1]; rfl
  · rw [h.2.2.2.1]; rfl

/-- C2: copy construction creates an independent duplicate.  When the allocator
hands out a block, `Buffer(b)` returns with the size of `b` and the same bytes at
every index, in a block of its own that is distinct from the block of `b`, and
`b` keeps its members and its bytes. -/
theorem C2_copy_construction_duplicates (w : World) (this other blk : Nat) (fill : Nat → Byte)
    (hne : this ≠ other) (hown : Owned w other) (hfresh : w.heap blk = none) :
    ∃ w', Buffer.ctorCopy w this other (some (blk, fill)) = Outcome.ok w' ∧
      (w'.objs this).size_ = (w.objs other).size_ ∧
      contents w' this = contents w other ∧
      (contents w' this).length = (w.objs other).size_ ∧
      (w'.objs this).data_ = some ⟨blk, 0⟩ ∧
      (∀ q, (w.objs other).data_ = some q → q.block ≠ blk) ∧
      w'.objs other = w.objs other ∧
      contents w' other = contents w other := by
  have hne' : other ≠ this := fun h => hne h.symm
  have hf : Freeable ⟨w.heap, Function.update w.objs this ⟨none, (w.objs other).size_, none, none, none⟩⟩ this := by
    intro p hp
    simp at hp
  obtain ⟨h', bs, hm, hframe, hbs, hbl, hsrc, hq⟩ :=
    copy_step w w.heap other blk fill hown (fun _ _ => rfl) hfresh
  rw [Buffer.ctorCopy]
  simp only [allocate_of_freeable _ _ _ _ hf]
  simp only [Function.update_same, released, Function.update_noteq hne', hm]
  have hthis := contents_whole ⟨h', Function.update (Function.update w.objs this
    ⟨none, (w.objs other).size_, none, none, none⟩) this
    ⟨some ⟨blk, 0⟩, (w.objs other).size_, some ⟨blk, 0⟩, some ⟨blk, 0⟩,
      some ⟨blk, (w.objs other).size_⟩⟩⟩ this blk bs (by simp) hbs (by simp [hbl])
  refine ⟨_, rfl, by simp, ?_, ?_, by simp, fun q hd => (hq q hd).1,
    by simp [Function.update_noteq hne'], ?_⟩
  · rw [hsrc]; exact hthis
  · rw [hthis]; exact hbl
  · exact contents_congr w _ other (by simp [Function.update_noteq hne'])
      (fun q hd => (hq q hd).2)

theorem exampleWorld_owned_1 : Owned exampleWorld 1 :=
  ⟨rfl, [10, 20, 30], rfl, rfl⟩

/-- C2 at a concrete input: the buffer at address 1 of the example world (block 7,
bytes 10, 20, 30) is copied into a new buffer at address 5, and the allocator
hands out block 9. -/
theorem C2_copy_construction_duplicates_witness :
    (5 : Nat) ≠ 1 ∧ Owned exampleWorld 1 ∧ exampleWorld.heap 9 = none ∧
    ∃ w', Buffer.ctorCopy exampleWorld 5 1 (some (9, fun _ => 0)) = Outcome.ok w' ∧
      (w'.objs 5).size_ = 3 ∧ contents w' 5 = [10, 20, 30] ∧
      (w'.objs 5).data_ = some ⟨9, 0⟩ ∧ (exampleWorld.objs 1).data_ = some ⟨7, 0⟩ ∧
      w'.objs 1 = exampleWorld.objs 1 ∧ contents w' 1 = [10, 20, 30] := by
  refine ⟨by decide, exampleWorld_owned_1, rfl, ?_⟩
  obtain ⟨w', h1, h2, h3, _, h5, _, h7, h8⟩ :=
    C2_copy_construction_duplicates exampleWorld 5 1 9 (fun _ => 0) (by decide)
      exampleWorld_owned_1 rfl
  exact ⟨w', h1, h2, h3, h5, rfl, h7, h8⟩

/-- C3, evaluated on the code: the moved-from buffer keeps its read window.  After
`Buffer(std::move(b))` for the buffer `b` at address 1 of the example world, and
when the statements of `a = std::move(b)` are done for the buffers at addresses 2
and 1 (the operator then reaches its closing brace without a `return`), `b` has
size 0 and a null `data_`, but its get area still spans block 7, which the
destination now owns, and a read through `b` reaches the three bytes of the
destination. -/
theorem C3_moved_from_window_still_reads_destination :
    ((Buffer.ctorMove exampleWorld 5 1).objs 1).size_ = 0 ∧
    ((Buffer.ctorMove exampleWorld 5 1).objs 1).data_ = none ∧
    ((Buffer.ctorMove exampleWorld 5 1).objs 1).gptr = some ⟨7, 0⟩ ∧
    ((Buffer.ctorMove exampleWorld 5 1).objs 1).egptr = some ⟨7, 3⟩ ∧
    ((Buffer.ctorMove exampleWorld 5 1).objs 5).data_ = some ⟨7, 0⟩ ∧
    readWindow (Buffer.ctorMove exampleWorld 5 1) 1 = [10, 20, 30] ∧
    contents (Buffer.ctorMove exampleWorld 5 1) 5 = [10, 20, 30] ∧
    ∃ w', Buffer.assignMove exampleWorld 2 1 = Outcome.noReturn w' ∧
      (w'.objs 1).size_ = 0 ∧ (w'.objs 1).data_ = none ∧
      (w'.objs 1).gptr = some ⟨7, 0⟩ ∧ (w'.objs 1).egptr = some ⟨7, 3⟩ ∧
      (w'.objs 2).data_ = some ⟨7, 0⟩ ∧
      readWindow w' 1 = [10, 20, 30] ∧ contents w' 2 = [10, 20, 30] :=
  ⟨rfl, rfl, rfl, rfl, rfl, rfl, rfl, _, rfl, rfl, rfl, rfl, rfl, rfl, rfl, rfl⟩

/-- C4, refuted as stated: it is not the case that in every run of the tick loop
the sleep after a `dataTick` call that returned `true` is strictly shorter than the
sleep after a `dataTick` call that returned `false`.  In the example run the first
lasts 20000 microseconds and the second 5000. -/
theorem C4_sleep_after_true_not_shorter :
    ¬ ∀ (env : Nat → Shared) (tick : Nat → Bool) (fuel t : Nat) (r : List Event × Option Nat),
      DataThread.tickLoop env tick fuel t = some r →
      ∀ (pre1 : List Event) (m1 a : Nat) (post1 pre2 : List Event) (m2 b : Nat)
        (post2 : List Event),
        r.1 = pre1 ++ Event.dataTick m1 true :: Event.usleep a :: post1 →
        r.1 = pre2 ++ Event.dataTick m2 false :: Event.usleep b :: post2 → a < b := by
  intro h
  have h1 := h exampleEnv exampleTick 5 3
    ([Event.stopRead false, Event.dataTick 1 true, Event.usleep 20000,
      Event.stopRead false, Event.dataTick 1 false, Event.usleep 5000,
      Event.stopRead true], some 8) rfl
    [Event.stopRead false] 1 20000
    [Event.stopRead false, Event.dataTick 1 false, Event.usleep 5000, Event.stopRead true]
    [Event.stopRead false, Event.dataTick 1 true, Event.usleep 20000, Event.stopRead false]
    1 5000 [Event.stopRead true] rfl rfl
  exact absurd h1 (by decide)

/-- C4, amended: in every run of the tick loop each `dataTick` call is directly
followed by a `usleep`, of 20000 microseconds when the call returned `true` and of
5000 microseconds when it returned `false`; so the sleep after a `true` return is
strictly longer than the sleep after a `false` return. -/
theorem C4_sleep_after_true_is_longer (env : Nat → Shared) (tick : Nat → Bool) (fuel t : Nat)
    (r : List Event × Option Nat) (h : DataThread.tickLoop env tick fuel t = some r) :
    (∀ pre m b post, r.1 = pre ++ Event.dataTick m b :: post →
      ∃ rest, post = Event.usleep (if b then 20000 else 5000) :: rest) ∧
    (∀ (pre1 : List Event) (m1 a : Nat) (post1 pre2 : List Event) (m2 b : Nat)
        (post2 : List Event),
      r.1 = pre1 ++ Event.dataTick m1 true :: Event.usleep a :: post1 →
      r.1 = pre2 ++ Event.dataTick m2 false :: Event.usleep b :: post2 → b < a) := by
  have hs := tickLoop_sleeps env tick fuel t r h
  refine ⟨hs, ?_⟩
  intro pre1 m1 a post1 pre2 m2 b post2 h1 h2
  obtain ⟨rest1, e1⟩ := hs pre1 m1 true _ h1
  obtain ⟨rest2, e2⟩ := hs pre2 m2 false _ h2
  simp at e1 e2
  omega

/-- C4 amended, at a concrete input: the tick loop of the example run, entered at
read number 3, makes one `dataTick` call that returns `true` and one that returns
`false`. -/
theorem C4_sleep_after_true_is_longer_witness :
    DataThread.tickLoop exampleEnv exampleTick 5 3 =
      some ([Event.stopRead false, Event.dataTick 1 true, Event.usleep 20000,
        Event.stopRead false, Event.dataTick 1 false, Event.usleep 5000,
        Event.stopRead true], some 8) ∧
    (∃ rest, [Event.usleep 20000, Event.stopRead false, Event.dataTick 1 false,
        Event.usleep 5000, Event.stopRead true] =
      Event.usleep (if true then 20000 else 5000) :: rest) ∧
    (5000 : Nat) < 20000 := by
  have h := C4_sleep_after_true_is_longer exampleEnv exampleTick 5 3 _ rfl
  refine ⟨rfl, h.1 [Event.stopRead false] 1 true _ rfl, ?_⟩
  exact h.2 [Event.stopRead false] 1 20000
    [Event.stopRead false, Event.dataTick 1 false, Event.usleep 5000, Event.stopRead true]
    [Event.stopRead false, Event.dataTick 1 true, Event.usleep 20000, Event.stopRead false]
    1 5000 [Event.stopRead true] rfl rfl

/-- C5, evaluated on the code: when `stop` is set before any map is attached, the
first loop is left at once and `run` calls `dataInitialize` through the null `map`
pointer. -/
theorem C5_null_map_call_when_stopped_before_attach (self : DataThread) (tick : Nat → Bool)
    (fuel : Nat) :
    DataThread.run self stoppedEnv tick (fuel + 1) =
      some [Event.setThreadName "data", Event.glfwMakeContextCurrent self.window,
        Event.stopRead true, Event.setThreadName "downloader",
        Event.nullMapCall MapMethod.dataInitialize] := by
  rfl

/-- C6: the calls on the map.  In every run of `DataThread::run` that returns
without having called through a null `map`, the calls made on the map are exactly
one `dataInitialize` with the fetcher of the thread, then zero or more `dataTick`,
then one `dataFinalize`, which is also the last event of the run.  Such runs exist:
when a map is attached throughout and `stop` stays set from some read on, enough
fuel gives a run, and it makes no call through a null `map`. -/
theorem C6_map_call_sequence (self : DataThread) (env : Nat → Shared) (tick : Nat → Bool) :
    (∀ fuel evs, DataThread.run self env tick fuel = some evs →
      (∀ k, Event.nullMapCall k ∉ evs) →
      ∃ (m : Nat) (ticks : List (Nat × Bool)) (m' : Nat) (pre : List Event),
        evs = pre ++ [Event.dataFinalize m'] ∧
        evs.filter Event.isMapCall =
          Event.dataInitialize m self.fetcher ::
            (ticks.map (fun p => Event.dataTick p.1 p.2) ++ [Event.dataFinalize m'])) ∧
    (∀ T, (∀ t, (env t).map ≠ none) → (∀ t, T ≤ t → (env t).stop = true) →
      ∃ fuel evs, DataThread.run self env tick fuel = some evs ∧
        ∀ k, Event.nullMapCall k ∉ evs) := by
  have hshape : ∀ fuel evs, DataThread.run self env tick fuel = some evs →
      (∀ k, Event.nullMapCall k ∉ evs) →
      ∃ (m : Nat) (ticks : List (Nat × Bool)) (m' : Nat) (pre : List Event),
        evs = pre ++ [Event.dataFinalize m'] ∧
        evs.filter Event.isMapCall =
          Event.dataInitialize m self.fetcher ::
            (ticks.map (fun p => Event.dataTick p.1 p.2) ++ [Event.dataFinalize m']) := by
    intro fuel evs hrun hnull
    rw [DataThread.run] at hrun
    cases hw : DataThread.waitLoop env fuel 0 with
    | none => simp [hw] at hrun
    | some r1 =>
      obtain ⟨evs1, t1⟩ := r1
      have hw1 : evs1.filter Event.isMapCall = [] := by
        rw [List.filter_eq_nil_iff]
        intro e he
        simp [(waitLoop_events env fuel 0 _ hw e he).1]
      simp only [hw] at hrun
      cases hm : (env t1).map with
      | none =>
        simp only [hm] at hrun
        cases hrun
        exact absurd (by simp) (hnull MapMethod.dataInitialize)
      | some m =>
        simp only [hm] at hrun
        cases ht : DataThread.tickLoop env tick fuel (t1 + 1) with
        | none => simp [ht] at hrun
        | some r2 =>
          obtain ⟨evs2, left⟩ := r2
          obtain ⟨ticks, hticks⟩ := tickLoop_mapCalls env tick fuel (t1 + 1) _ ht
          simp only [ht] at hrun
          cases left with
          | none =>
            simp only at hrun hticks
            cases hrun
            have hin : Event.nullMapCall MapMethod.dataTick ∈ evs2 := by
              have : Event.nullMapCall MapMethod.dataTick ∈ evs2.filter Event.isMapCall := by
                rw [hticks]; simp
              exact (List.mem_filter.mp this).1
            exact absurd (by simp [hin]) (hnull MapMethod.dataTick)
          | some t2 =>
            simp only at hrun hticks
            cases hm2 : (env t2).map with
            | none =>
              simp only [hm2] at hrun
              cases hrun
              exact absurd (by simp) (hnull MapMethod.dataFinalize)
            | some m2 =>
              simp only [hm2] at hrun
              cases hrun
              refine ⟨m, ticks, m2, _, rfl, ?_⟩
              simp [List.filter_append, hw1, hticks, List.filter, Event.isMapCall]
  refine ⟨hshape, ?_⟩
  intro T hmap hstop
  obtain ⟨r1, hw⟩ := waitLoop_attached env hmap T 0
  obtain ⟨evs1, t1⟩ := r1
  obtain ⟨evs2, t2, ht⟩ := tickLoop_attached env tick T hmap hstop T (t1 + 1) (by omega)
  obtain ⟨ticks, hticks⟩ := tickLoop_mapCalls env tick (T + 1) (t1 + 1) _ ht
  have hw1 := waitLoop_events env (T + 1) 0 _ hw
  cases hm : (env t1).map with
  | none => exact absurd hm (hmap t1)
  | some m =>
    cases hm2 : (env t2).map with
    | none => exact absurd hm2 (hmap t2)
    | some m2 =>
      have hrun : DataThread.run self env tick (T + 1) =
          some ([Event.setThreadName "data", Event.glfwMakeContextCurrent self.window] ++ evs1 ++
            [Event.setThreadName "downloader"] ++
            [Event.dataInitialize m self.fetcher, Event.setThreadName "data"] ++ evs2 ++
            [Event.dataFinalize m2]) := by
        simp only [DataThread.run, hw, hm, ht, hm2]
      refine ⟨T + 1, _, hrun, ?_⟩
      intro k hk
      simp at hk
      rcases hk with hk | hk
      · exact absurd (hw1 _ hk).1 (by simp [Event.isMapCall])
      · have : Event.nullMapCall k ∈ evs2.filter Event.isMapCall :=
          List.mem_filter.mpr ⟨hk, rfl⟩
        rw [hticks] at this
        simp at this

/-- C6 at a concrete input: the example run, in which the map 1 is attached from
the start and `stop` is set from read number 6 on. -/
theorem C6_map_call_sequence_witness :
    DataThread.run ⟨3, 9⟩ exampleEnv exampleTick 5 = some exampleRun ∧
    (∀ k, Event.nullMapCall k ∉ exampleRun) ∧
    (∃ (m : Nat) (ticks : List (Nat × Bool)) (m' : Nat) (pre : List Event),
      exampleRun = pre ++ [Event.dataFinalize m'] ∧
      exampleRun.filter Event.isMapCall =
        Event.dataInitialize m 9 ::
          (ticks.map (fun p => Event.dataTick p.1 p.2) ++ [Event.dataFinalize m'])) ∧
    (∀ t, (exampleEnv t).map ≠ none) ∧ (∀ t, 6 ≤ t → (exampleEnv t).stop = true) ∧
    ∃ fuel evs, DataThread.run ⟨3, 9⟩ exampleEnv exampleTick fuel = some evs ∧
      ∀ k, Event.nullMapCall k ∉ evs := by
  have hnull : ∀ k, Event.nullMapCall k ∉ exampleRun := by
    intro k hk
    simp [exampleRun] at hk
  have hmap : ∀ t, (exampleEnv t).map ≠ none := by
    intro t h
    simp [exampleEnv] at h
  have hstop : ∀ t, 6 ≤ t → (exampleEnv t).stop = true := by
    intro t h
    simp [exampleEnv, h]
  exact ⟨rfl, hnull,
    (C6_map_call_sequence ⟨3, 9⟩ exampleEnv exampleTick).1 5 exampleRun rfl hnull,
    hmap, hstop,
    (C6_map_call_sequence ⟨3, 9⟩ exampleEnv exampleTick).2 6 hmap hstop⟩

/-- C7: allocation failure is reported.  For a buffer that can be released,
`allocate(n)` either returns normally, which happens exactly when the allocator
hands out a block, and then the buffer has size `n` and `data_` at the start of a
live block of exactly `n` bytes; or it throws `not enough memory`, which happens
exactly when the allocator yields the null pointer.  It never returns normally
with a null `data_`, and it never ends in any other way. -/
theorem C7_allocate_reports_failure (w : World) (this n : Nat) (ans : MallocAnswer)
    (hf : Freeable w this) :
    ((ans ≠ none ∧ ∃ w', Buffer.allocate w this n ans = Outcome.ok w' ∧
        (w'.objs this).size_ = n ∧
        ∃ p bs, (w'.objs this).data_ = some p ∧ p.off = 0 ∧
          w'.heap p.block = some bs ∧ bs.length = n) ∨
     (ans = none ∧ ∃ w', Buffer.allocate w this n ans = Outcome.threw "not enough memory" w')) ∧
    (∀ w', Buffer.allocate w this n ans = Outcome.ok w' → (w'.objs this).data_ ≠ none) := by
  rw [allocate_of_freeable w this n ans hf]
  cases ans with
  | none =>
    refine ⟨Or.inr ⟨rfl, _, rfl⟩, ?_⟩
    intro w' h
    cases h
  | some a =>
    obtain ⟨blk, fill⟩ := a
    refine ⟨Or.inl ⟨by simp, _, rfl, by simp, ⟨blk, 0⟩, (List.range n).map fill, by simp,
      rfl, by simp, by simp⟩, ?_⟩
    intro w' h
    cases h
    simp

theorem exampleWorld_freeable_1 : Freeable exampleWorld 1 := by
  intro p hp
  cases hp
  exact ⟨rfl, rfl⟩

/-- C7 at concrete inputs: `allocate(4)` on the buffer at address 1 of the example
world, once with the allocator handing out block 9 and once with the allocator out
of memory. -/
theorem C7_allocate_reports_failure_witness :
    Freeable exampleWorld 1 ∧
    (∃ w', Buffer.allocate exampleWorld 1 4 (some (9, fun _ => 0)) = Outcome.ok w' ∧
      (w'.objs 1).size_ = 4 ∧
      ∃ p bs, (w'.objs 1).data_ = some p ∧ p.off = 0 ∧
        w'.heap p.block = some bs ∧ bs.length = 4) ∧
    (∃ w', Buffer.allocate exampleWorld 1 4 none = Outcome.threw "not enough memory" w') := by
  refine ⟨exampleWorld_freeable_1, ?_, ?_⟩
  · rcases (C7_allocate_reports_failure exampleWorld 1 4 (some (9, fun _ => 0))
      exampleWorld_freeable_1).1 with h | h
    · exact h.2
    · exact absurd h.1 (by simp)
  · rcases (C7_allocate_reports_failure exampleWorld 1 4 none exampleWorld_freeable_1).1 with
      h | h
    · exact absurd rfl h.1
    · exact h.2
/-- C8, evaluated on the code: move assignment between distinct buffers does not
return.  For distinct buffers `a` (at `this`) and `b` (at `other`) in a world
without aliasing, `a = std::move(b)` has no returning outcome: its statements
release the former block of `a`, give `a` the former size, `data_` and bytes of `b`
and leave `b` with size 0 and a null `data_`, and control then reaches the closing
brace of the operator, which is declared to return `Buffer &`, without a `return`
statement.  The behaviour of the assignment is undefined. -/
theorem C8_move_assignment_flows_off_end (w : World) (this other : Nat) (hne : this ≠ other)
    (hf : Freeable w this) (hna : NoAlias w) :
    (∀ w', Buffer.assignMove w this other ≠ Outcome.ok w') ∧
    ∃ w', Buffer.assignMove w this other = Outcome.noReturn w' ∧
      (w'.objs this).size_ = (w.objs other).size_ ∧
      (w'.objs this).data_ = (w.objs other).data_ ∧
      contents w' this = contents w other ∧
      (w'.objs other).size_ = 0 ∧
      (w'.objs other).data_ = none ∧
      (∀ p, (w.objs this).data_ = some p →
        w'.heap p.block = none ∧ ∀ i q, (w'.objs i).data_ = some q → q.block ≠ p.block) ∧
      (∀ a, (∀ p, (w.objs this).data_ = some p → a ≠ p.block) → w'.heap a = w.heap a) := by
  have hne' : other ≠ this := fun h => hne h.symm
  rw [Buffer.assignMove, if_neg hne', free_of_freeable w this hf]
  have hheap : ∀ a, (∀ p, (w.objs this).data_ = some p → a ≠ p.block) →
      released w.heap (w.objs this).data_ a = w.heap a := by
    intro a ha
    cases hd : (w.objs this).data_ with
    | none => rfl
    | some p => simp [released, Function.update_noteq (ha p hd)]
  refine ⟨fun _ h => Outcome.noConfusion h, _, rfl, ?_, ?_, ?_, ?_, ?_, ?_, ?_⟩
  · simp [setg, Function.update_noteq hne, Function.update_noteq hne']
  · simp [setg, Function.update_noteq hne, Function.update_noteq hne']
  · unfold contents
    simp only [setg, Function.update_same, Function.update_noteq hne, Function.update_noteq hne']
    cases hd : (w.objs other).data_ with
    | none => rfl
    | some q =>
      simp only
      rw [hheap q.block (fun p hp => (hna this other p q hne hp hd).symm)]
  · simp [setg, Function.update_noteq hne, Function.update_noteq hne']
  · simp [setg, Function.update_noteq hne, Function.update_noteq hne']
  · intro p hp
    refine ⟨by simp [released, hp], ?_⟩
    intro i q hq
    by_cases hi : i = this
    · subst hi
      simp [setg, Function.update_noteq hne, Function.update_noteq hne'] at hq
      exact (hna i other p q hne hp hq).symm
    · by_cases hio : i = other
      · subst hio
        simp [setg, Function.update_noteq hne, Function.update_noteq hne'] at hq
      · simp [setg, Function.update_noteq hi, Function.update_noteq hio] at hq
        exact (hna this i p q (fun e => hi e.symm) hp hq).symm
  · intro a ha
    exact hheap a ha

theorem exampleWorld_freeable_2 : Freeable exampleWorld 2 := by
  intro p hp
  cases hp
  exact ⟨rfl, rfl⟩

theorem exampleWorld_noAlias : NoAlias exampleWorld := by
  intro i j p q hij hp hq
  simp only [exampleWorld] at hp hq
  split_ifs at hp hq <;> simp_all
  · subst hp; subst hq; simp
  · subst hp; subst hq; simp

/-- C8 at a concrete input: in the example world the buffer at address 1 (block 7,
bytes 10, 20, 30) is move-assigned to the buffer at address 2 (block 8).  The
assignment does not return; at the closing brace the buffer at address 2 has the
block and the bytes of the buffer at address 1 and block 8 is released. -/
theorem C8_move_assignment_flows_off_end_witness :
    (2 : Nat) ≠ 1 ∧ Freeable exampleWorld 2 ∧ NoAlias exampleWorld ∧
    (∀ w', Buffer.assignMove exampleWorld 2 1 ≠ Outcome.ok w') ∧
    ∃ w', Buffer.assignMove exampleWorld 2 1 = Outcome.noReturn w' ∧
      (w'.objs 2).size_ = 3 ∧ (w'.objs 2).data_ = some ⟨7, 0⟩ ∧
      contents w' 2 = [10, 20, 30] ∧
      (w'.objs 1).size_ = 0 ∧ (w'.objs 1).data_ = none ∧ w'.heap 8 = none := by
  refine ⟨by decide, exampleWorld_freeable_2, exampleWorld_noAlias, ?_⟩
  obtain ⟨h0, w', h1, h2, h3, h4, h5, h6, h7, _⟩ :=
    C8_move_assignment_flows_off_end exampleWorld 2 1 (by decide) exampleWorld_freeable_2
      exampleWorld_noAlias
  exact ⟨h0, w', h1, h2, h3, h4, h5, h6, (h7 ⟨8, 0⟩ rfl).1⟩
/-- C9, evaluated on the code: copy assignment between distinct buffers does not
return.  For distinct buffers `a` (at `this`) and `b` (at `other`) that do not
share a block, when the allocator hands out a block, `a = b` has no returning
outcome: its statements give `a` the size of `b` and the same bytes at every index,
in a block that is distinct from the block of `b`, and leave `b` with its members
and its bytes, and control then reaches the closing brace of the operator, which is
declared to return `Buffer &`, without a `return` statement.  The behaviour of the
assignment is undefined. -/
theorem C9_copy_assignment_flows_off_end (w : World) (this other blk : Nat) (fill : Nat → Byte)
    (hne : this ≠ other) (hf : Freeable w this) (hown : Owned w other)
    (hna : ∀ p q, (w.objs this).data_ = some p → (w.objs other).data_ = some q →
      p.block ≠ q.block)
    (hfresh : released w.heap (w.objs this).data_ blk = none) :
    (∀ w', Buffer.assignCopy w this other (some (blk, fill)) ≠ Outcome.ok w') ∧
    ∃ w', Buffer.assignCopy w this other (some (blk, fill)) = Outcome.noReturn w' ∧
      (w'.objs this).size_ = (w.objs other).size_ ∧
      contents w' this = contents w other ∧
      (contents w' this).length = (w.objs other).size_ ∧
      (w'.objs this).data_ = some ⟨blk, 0⟩ ∧
      (∀ q, (w.objs other).data_ = some q → q.block ≠ blk) ∧
      w'.objs other = w.objs other ∧
      contents w' other = contents w other := by
  have hne' : other ≠ this := fun h => hne h.symm
  have hf1 : Freeable ⟨released w.heap (w.objs this).data_,
      Function.update w.objs this ⟨none, 0, none, none, none⟩⟩ this := by
    intro p hp
    simp at hp
  have hagree : ∀ q, (w.objs other).data_ = some q →
      released w.heap (w.objs this).data_ q.block = w.heap q.block := by
    intro q hq
    cases hd : (w.objs this).data_ with
    | none => rfl
    | some p => simp [released, Function.update_noteq (hna p q hd hq).symm]
  obtain ⟨h', bs, hm, hframe, hbs, hbl, hsrc, hq⟩ :=
    copy_step w (released w.heap (w.objs this).data_) other blk fill hown hagree hfresh
  rw [Buffer.assignCopy, if_neg hne', free_of_freeable w this hf]
  simp only [allocate_of_freeable _ _ _ _ hf1]
  simp only [Function.update_same, released, Function.update_noteq hne']
  simp only [released] at hm
  simp only [hm]
  have hthis := contents_whole ⟨h', Function.update (Function.update w.objs this
    ⟨none, 0, none, none, none⟩) this
    ⟨some ⟨blk, 0⟩, (w.objs other).size_, some ⟨blk, 0⟩, some ⟨blk, 0⟩,
      some ⟨blk, (w.objs other).size_⟩⟩⟩ this blk bs (by simp) hbs (by simp [hbl])
  refine ⟨fun _ h => Outcome.noConfusion h, _, rfl, by simp, ?_, ?_, by simp,
    fun q hd => (hq q hd).1,
    by simp [Function.update_noteq hne'], ?_⟩
  · rw [hsrc]; exact hthis
  · rw [hthis]; exact hbl
  · exact contents_congr w _ other (by simp [Function.update_noteq hne'])
      (fun q hd => (hq q hd).2)

/-- C9 at a concrete input: in the example world the buffer at address 1 (block 7,
bytes 10, 20, 30) is copy-assigned to the buffer at address 2, and the allocator
hands out block 8 again, which the assignment has just released.  The assignment
does not return; at the closing brace the buffer at address 2 holds a copy of the
three bytes in block 8. -/
theorem C9_copy_assignment_flows_off_end_witness :
    (2 : Nat) ≠ 1 ∧ Freeable exampleWorld 2 ∧ Owned exampleWorld 1 ∧
    released exampleWorld.heap (exampleWorld.objs 2).data_ 8 = none ∧
    (∀ w', Buffer.assignCopy exampleWorld 2 1 (some (8, fun _ => 0)) ≠ Outcome.ok w') ∧
    ∃ w', Buffer.assignCopy exampleWorld 2 1 (some (8, fun _ => 0)) = Outcome.noReturn w' ∧
      (w'.objs 2).size_ = 3 ∧ contents w' 2 = [10, 20, 30] ∧
      (w'.objs 2).data_ = some ⟨8, 0⟩ ∧
      w'.objs 1 = exampleWorld.objs 1 ∧ contents w' 1 = [10, 20, 30] := by
  refine ⟨by decide, exampleWorld_freeable_2, exampleWorld_owned_1, rfl, ?_⟩
  obtain ⟨h0, w', h1, h2, h3, _, h5, _, h7, h8⟩ :=
    C9_copy_assignment_flows_off_end exampleWorld 2 1 8 (fun _ => 0) (by decide)
      exampleWorld_freeable_2 exampleWorld_owned_1
      (fun p q hp hq => by cases hp; cases hq; decide) rfl
  exact ⟨h0, w', h1, h2, h3, h5, h7, h8⟩

/-- C10, refuted as stated: it is not the case that no external call of
`DataThread::run` is a graphics-context operation.  The second call of the example
run is `glfwMakeContextCurrent(window)`. -/
theorem C10_run_makes_a_graphics_call :
    ¬ ∀ (self : DataThread) (env : Nat → Shared) (tick : Nat → Bool) (fuel : Nat)
        (evs : List Event),
      DataThread.run self env tick fuel = some evs →
      ∀ e ∈ evs, e.isExternalCall = true → e.isGraphicsCall = false := by
  intro h
  have h1 := h ⟨3, 9⟩ exampleEnv exampleTick 5 exampleRun rfl
    (Event.glfwMakeContextCurrent 3) (by simp [exampleRun]) rfl
  exact absurd h1 (by decide)

/-- C10, amended: every run of `DataThread::run` starts with `setThreadName("data")`
and the one graphics-context call `glfwMakeContextCurrent(window)`, made at entry
before the first loop; no later call of the run, up to its return, is a
graphics-context operation. -/
theorem C10_only_graphics_call_is_at_entry (self : DataThread) (env : Nat → Shared)
    (tick : Nat → Bool) (fuel : Nat) (evs : List Event)
    (hrun : DataThread.run self env tick fuel = some evs) :
    ∃ rest, evs = Event.setThreadName "data" :: Event.glfwMakeContextCurrent self.window :: rest ∧
      ∀ e ∈ rest, e.isGraphicsCall = false := by
  rw [DataThread.run] at hrun
  cases hw : DataThread.waitLoop env fuel 0 with
  | none => simp [hw] at hrun
  | some r1 =>
    obtain ⟨evs1, t1⟩ := r1
    have hw1 := waitLoop_events env fuel 0 _ hw
    simp only [hw] at hrun
    cases hm : (env t1).map with
    | none =>
      simp only [hm] at hrun
      cases hrun
      refine ⟨_, rfl, ?_⟩
      intro e he
      simp at he
      rcases he with he | he | he
      · exact (hw1 e he).2
      · subst he; rfl
      · subst he; rfl
    | some m =>
      simp only [hm] at hrun
      cases ht : DataThread.tickLoop env tick fuel (t1 + 1) with
      | none => simp [ht] at hrun
      | some r2 =>
        obtain ⟨evs2, left⟩ := r2
        have ht1 := tickLoop_events env tick fuel (t1 + 1) _ ht
        simp only [ht] at hrun
        have hbody : ∀ e ∈ evs1 ++ [Event.setThreadName "downloader"] ++
            [Event.dataInitialize m self.fetcher, Event.setThreadName "data"] ++ evs2,
            e.isGraphicsCall = false := by
          intro e he
          simp at he
          rcases he with he | he | he | he | he
          · exact (hw1 e he).2
          · subst he; rfl
          · subst he; rfl
          · subst he; rfl
          · exact ht1 e he
        cases left with
        | none =>
          simp only at hrun
          cases hrun
          exact ⟨_, by simp, hbody⟩
        | some t2 =>
          simp only at hrun
          cases hm2 : (env t2).map with
          | none =>
            simp only [hm2] at hrun
            cases hrun
            refine ⟨(evs1 ++ [Event.setThreadName "downloader"] ++
              [Event.dataInitialize m self.fetcher, Event.setThreadName "data"] ++ evs2) ++
              [Event.nullMapCall MapMethod.dataFinalize], by simp, ?_⟩
            intro e he
            rw [List.mem_append] at he
            rcases he with he | he
            · exact hbody e he
            · simp at he; subst he; rfl
          | some m2 =>
            simp only [hm2] at hrun
            cases hrun
            refine ⟨(evs1 ++ [Event.setThreadName "downloader"] ++
              [Event.dataInitialize m self.fetcher, Event.setThreadName "data"] ++ evs2) ++
              [Event.dataFinalize m2], by simp, ?_⟩
            intro e he
            rw [List.mem_append] at he
            rcases he with he | he
            · exact hbody e he
            · simp at he; subst he; rfl

/-- C10 amended, at a concrete input: the example run. -/
theorem C10_only_graphics_call_is_at_entry_witness :
    DataThread.run ⟨3, 9⟩ exampleEnv exampleTick 5 = some exampleRun ∧
    ∃ rest, exampleRun =
        Event.setThreadName "data" :: Event.glfwMakeContextCurrent 3 :: rest ∧
      ∀ e ∈ rest, e.isGraphicsCall = false :=
  ⟨rfl, C10_only_graphics_call_is_at_entry ⟨3, 9⟩ exampleEnv exampleTick 5 exampleRun rfl⟩

/-- C11, refuted as stated: the state type of the implementation does not have one
distinct value for each of the eight states of the specification and no other; no
assignment of the eight names to values of `ResourceImpl::State` is one to one and
onto. -/
theorem C11_state_type_not_eight_states :
    ¬ ∃ f : melown.SpecState → melown.ResourceImpl.State, Function.Bijective f := by
  rintro ⟨f, hf⟩
  have h := Fintype.card_of_bijective hf
  revert h
  decide

/-- C11, amended: `ResourceImpl::State` has exactly seven values, `initializing`,
`downloading`, `downloaded`, `ready`, `errorDownload`, `errorLoad` and
`finalizing`.  They stand for seven distinct states of the specification, with
`errorLoad` for ErrorPrepare, and the one state without a value is Preparing. -/
theorem C11_state_type_has_seven_states :
    Fintype.card melown.ResourceImpl.State = 7 ∧
    (∀ s : melown.ResourceImpl.State,
      s = melown.ResourceImpl.State.initializing ∨ s = melown.ResourceImpl.State.downloading ∨
      s = melown.ResourceImpl.State.downloaded ∨ s = melown.ResourceImpl.State.ready ∨
      s = melown.ResourceImpl.State.errorDownload ∨ s = melown.ResourceImpl.State.errorLoad ∨
      s = melown.ResourceImpl.State.finalizing) ∧
    Function.Injective melown.ResourceImpl.State.toSpec ∧
    (∀ t : melown.SpecState,
      (∃ s : melown.ResourceImpl.State, s.toSpec = t) ↔ t ≠ melown.SpecState.Preparing) := by
  refine ⟨by decide, ?_, ?_, ?_⟩
  · intro s
    cases s <;> simp
  · intro a b h
    cases a <;> cases b <;> first | rfl | cases h
  · intro t
    cases t <;> decide

/-- C12: `tick()` never removes a record in use.  For every cache, a record whose
liveness count is greater than zero is in the records map after `tick()` as often
as before, whatever the budget; and `tick()` adds no record. -/
theorem C12_tick_keeps_live_records (c : CacheManager) (r : ResourceRecord)
    (hr : r ∈ c.records) (hlive : 0 < r.refCount) :
    r ∈ c.tick.records ∧ c.tick.records.count r = c.records.count r ∧
    c.tick.records.Sublist c.records := by
  have hp := evictLoop_perm c.memoryBudget c.records.length c.records
  have hnot : r ∉ (evictLoop c.memoryBudget c.records.length c.records).2 := by
    intro hmem
    have he := evictLoop_evicted_eligible c.memoryBudget c.records.length c.records r hmem
    simp [ResourceRecord.evictionEligible] at he
    omega
  have hcount := hp.count_eq r
  rw [List.count_append, List.count_eq_zero_of_not_mem hnot, Nat.zero_add] at hcount
  refine ⟨?_, hcount, evictLoop_sublist _ _ _⟩
  rcases List.mem_append.mp (hp.symm.subset hr) with h | h
  · exact absurd h hnot
  · exact h

/-- C12 at a concrete input: the cache `liveCache` is over its budget and its oldest
record `a` has liveness 2; after `tick()` it is the one record left. -/
theorem C12_tick_keeps_live_records_witness :
    (⟨"a", ResourceImpl.State.ready, none, 1, 10, 2⟩ : ResourceRecord) ∈ liveCache.records ∧
    0 < (⟨"a", ResourceImpl.State.ready, none, 1, 10, 2⟩ : ResourceRecord).refCount ∧
    liveCache.memoryBudget < totalMemoryUse liveCache.records ∧
    (⟨"a", ResourceImpl.State.ready, none, 1, 10, 2⟩ : ResourceRecord) ∈ liveCache.tick.records ∧
    liveCache.tick.records.map (fun r => r.key) = ["a"] := by
  have h := C12_tick_keeps_live_records liveCache ⟨"a", ResourceImpl.State.ready, none, 1, 10, 2⟩
    (by decide) (by decide)
  exact ⟨by decide, by decide, by decide, h.1, by decide⟩

/-- C13: the order of eviction.  For a cache whose records all have zero liveness
and pairwise distinct `lastAccessTick` values, `tick()` splits the records into the
evicted ones and the ones that stay; the evicted records leave in strictly
ascending `lastAccessTick` order and each of them is older than every record that
stays, so that their ticks are the first entries of the sorted list of all ticks;
the total memory use afterwards is at most the budget; and before each eviction
the total still exceeded the budget, so that no shorter prefix reaches it. -/
theorem C13_eviction_order (c : CacheManager)
    (hzero : ∀ r ∈ c.records, r.refCount = 0)
    (hdist : (c.records.map (fun r => r.lastAccessTick)).Nodup) :
    (c.tickEvicted ++ c.tick.records).Perm c.records ∧
    (c.tickEvicted.map (fun r => r.lastAccessTick)).Sorted (fun a b => a < b) ∧
    (∀ e ∈ c.tickEvicted, ∀ r ∈ c.tick.records, e.lastAccessTick < r.lastAccessTick) ∧
    c.tickEvicted.map (fun r => r.lastAccessTick) =
      ((c.records.map (fun r => r.lastAccessTick)).insertionSort (fun a b => a ≤ b)).take
        c.tickEvicted.length ∧
    totalMemoryUse c.tick.records ≤ c.memoryBudget ∧
    (∀ ev1 x ev2, c.tickEvicted = ev1 ++ x :: ev2 →
      c.memoryBudget < totalMemoryUse (x :: ev2 ++ c.tick.records)) := by
  have hp := evictLoop_perm c.memoryBudget c.records.length c.records
  obtain ⟨hs, hk⟩ := evictLoop_order c.memoryBudget c.records.length c.records
  have hpt := hp.map (fun r => r.lastAccessTick)
  have hnd : ((c.tickEvicted ++ c.tick.records).map (fun r => r.lastAccessTick)).Nodup :=
    (hpt.nodup_iff).mpr hdist
  rw [List.map_append] at hnd
  have hel : ∀ r ∈ c.tick.records, r.evictionEligible = true := by
    intro r hr
    have := hzero r ((evictLoop_sublist _ _ _).subset hr)
    simp [ResourceRecord.evictionEligible, this]
  have hlt : ∀ e ∈ c.tickEvicted, ∀ r ∈ c.tick.records,
      e.lastAccessTick < r.lastAccessTick := by
    intro e he r hr
    have hle := hk e he r hr (hel r hr)
    have hne : e.lastAccessTick ≠ r.lastAccessTick := by
      intro heq
      exact (List.nodup_append.mp hnd).2.2 (List.mem_map_of_mem _ he)
        (heq ▸ List.mem_map_of_mem _ hr)
    omega
  have hsorted : ((c.tickEvicted.map (fun r => r.lastAccessTick)) ++
      (c.tick.records.map (fun r => r.lastAccessTick)).insertionSort (fun a b => a ≤ b)).Sorted
      (fun a b => a ≤ b) := by
    rw [List.Sorted, List.pairwise_append]
    refine ⟨hs, List.sorted_insertionSort _ _, ?_⟩
    intro a ha b hb
    obtain ⟨e, he, rfl⟩ := List.mem_map.mp ha
    have hb' := (List.perm_insertionSort (fun a b => a ≤ b) _).subset hb
    obtain ⟨r, hr, rfl⟩ := List.mem_map.mp hb'
    exact le_of_lt (hlt e he r hr)
  have hperm : ((c.tickEvicted.map (fun r => r.lastAccessTick)) ++
      (c.tick.records.map (fun r => r.lastAccessTick)).insertionSort (fun a b => a ≤ b)).Perm
      ((c.records.map (fun r => r.lastAccessTick)).insertionSort (fun a b => a ≤ b)) := by
    refine List.Perm.trans ?_ (List.perm_insertionSort _ _).symm
    refine List.Perm.trans ?_ (by simpa [List.map_append] using hpt)
    exact List.Perm.append_left _ (List.perm_insertionSort _ _)
  have heq := List.eq_of_perm_of_sorted hperm hsorted (List.sorted_insertionSort _ _)
  refine ⟨hp, hs.lt_of_le (List.nodup_append.mp hnd).1, hlt, ?_, ?_, ?_⟩
  · rw [← heq, ← List.length_map c.tickEvicted (fun r => r.lastAccessTick),
      List.take_left]
  · apply evictLoop_within_budget _ _ _ (le_refl _)
    have : c.records.filter (fun r => !r.evictionEligible) = [] := by
      rw [List.filter_eq_nil_iff]
      intro r hr
      simp [ResourceRecord.evictionEligible, hzero r hr]
    rw [this]
    simp [totalMemoryUse]
  · exact evictLoop_needed c.memoryBudget c.records.length c.records

/-- C13 at a concrete input: scenario D, five records of 3 MB with the ticks 3, 1,
5, 2, 4 and a budget of 10 MB.  The records of ticks 1 and 2 are evicted, in this
order. -/
theorem C13_eviction_order_witness :
    (∀ r ∈ scenarioD.records, r.refCount = 0) ∧
    (scenarioD.records.map (fun r => r.lastAccessTick)).Nodup ∧
    scenarioD.tickEvicted.map (fun r => r.lastAccessTick) = [1, 2] ∧
    (scenarioD.tickEvicted.map (fun r => r.lastAccessTick)).Sorted (fun a b => a < b) ∧
    scenarioD.tickEvicted.map (fun r => r.lastAccessTick) =
      ((scenarioD.records.map (fun r => r.lastAccessTick)).insertionSort
        (fun a b => a ≤ b)).take scenarioD.tickEvicted.length ∧
    totalMemoryUse scenarioD.tick.records ≤ scenarioD.memoryBudget := by
  have h := C13_eviction_order scenarioD (by decide) (by decide)
  exact ⟨by decide, by decide, by decide, h.2.1, h.2.2.2.1, h.2.2.2.2.1⟩

/-- C14: the budget after `tick()`.  When the records that are not
eviction-eligible fit into the budget, so that evicting eligible records can reach
it, the total memory use of the records after `tick()` is at most the budget.  In
scenario D (budget 10 MB, five `ready` records of 3 MB with zero liveness and the
ticks 1 to 5) exactly the records of ticks 1 and 2 are evicted, and the three
records that stay take 9 MB. -/
theorem C14_tick_reaches_budget :
    (∀ c : CacheManager,
      totalMemoryUse (c.records.filter (fun r => !r.evictionEligible)) ≤ c.memoryBudget →
      totalMemoryUse c.tick.records ≤ c.memoryBudget) ∧
    scenarioD.tickEvicted.map (fun r => r.lastAccessTick) = [1, 2] ∧
    scenarioD.tick.records.map (fun r => r.lastAccessTick) = [3, 5, 4] ∧
    totalMemoryUse scenarioD.tick.records = 9 * MiB ∧
    totalMemoryUse scenarioD.records = 15 * MiB ∧
    scenarioD.memoryBudget = 10 * MiB := by
  refine ⟨?_, by decide, by decide, by decide, by decide, by decide⟩
  intro c hfit
  exact evictLoop_within_budget c.memoryBudget c.records.length c.records (le_refl _) hfit

/-- C14 at a concrete input: in `roomyCache` the one record in use takes 10 bytes;
with the budget of 12 bytes the two idle records are evicted and the budget is met. -/
theorem C14_tick_reaches_budget_witness :
    totalMemoryUse (roomyCache.records.filter (fun r => !r.evictionEligible)) ≤
      roomyCache.memoryBudget ∧
    totalMemoryUse roomyCache.records = 30 ∧ roomyCache.memoryBudget = 12 ∧
    totalMemoryUse roomyCache.tick.records ≤ roomyCache.memoryBudget :=
  ⟨by decide, by decide, by decide, C14_tick_reaches_budget.1 roomyCache (by decide)⟩

/-- C15: a failed download is sticky until the key is requested again.  When the
fetch of a record in `downloading` fails, the record moves to `errorDownload`;
through every sequence of operations without a new `acquire` of its key, the record
stays in `errorDownload` for as long as it is in the map; and the next `acquire` of
the key leaves a record for the key that is in `initializing` and has no raw
bytes. -/
theorem C15_failed_download_is_sticky (c : CacheManager) (k : ResourceKey) (e : FetchError)
    (ops : List CacheOp)
    (hex : ∃ r ∈ c.records, r.key = k)
    (hdl : ∀ r ∈ c.records, r.key = k → r.state = ResourceImpl.State.downloading)
    (hops : CacheOp.acquire k ∉ ops) :
    (∃ r ∈ (c.fetchCompleted k (Except.error e)).records, r.key = k) ∧
    (∀ r ∈ (c.fetchCompleted k (Except.error e)).records, r.key = k →
      r.state = ResourceImpl.State.errorDownload) ∧
    (∀ r ∈ ((c.fetchCompleted k (Except.error e)).run ops).records, r.key = k →
      r.state = ResourceImpl.State.errorDownload) ∧
    (∃ r ∈ (((c.fetchCompleted k (Except.error e)).run ops).acquire k).records, r.key = k) ∧
    (∀ r ∈ (((c.fetchCompleted k (Except.error e)).run ops).acquire k).records, r.key = k →
      r.state = ResourceImpl.State.initializing ∧ r.rawBytes = none) := by
  have hfail : ∀ r ∈ (c.fetchCompleted k (Except.error e)).records, r.key = k →
      r.state = ResourceImpl.State.errorDownload := by
    intro r hr hk
    simp only [CacheManager.fetchCompleted, List.mem_map] at hr
    obtain ⟨x, hx, rfl⟩ := hr
    by_cases hxk : x.key = k
    · rw [if_pos hxk]
      simp [ResourceRecord.fetchCompleted, hdl x hx hxk]
    · rw [if_neg hxk] at hk
      exact absurd hk hxk
  have hrun := run_keeps_errorDownload k ops hops _ hfail
  refine ⟨?_, hfail, hrun, ?_, ?_⟩
  · obtain ⟨r, hr, hk⟩ := hex
    refine ⟨r.fetchCompleted (Except.error e), ?_, ?_⟩
    · simp only [CacheManager.fetchCompleted, List.mem_map]
      exact ⟨r, hr, by rw [if_pos hk]⟩
    · rw [fetchCompleted_key]; exact hk
  · simp only [CacheManager.acquire]
    split_ifs with hany
    · simp only [List.any_eq_true, beq_iff_eq] at hany
      obtain ⟨x, hx, hxk⟩ := hany
      refine ⟨x.touch (((c.fetchCompleted k (Except.error e)).run ops).accessCounter + 1),
        ?_, ?_⟩
      · simp only [List.mem_map]
        exact ⟨x, hx, by rw [if_pos hxk]⟩
      · rw [touch_key]; exact hxk
    · exact ⟨_, List.mem_append_right _ (List.mem_singleton_self _), rfl⟩
  · intro r hr hk
    simp only [CacheManager.acquire] at hr
    split_ifs at hr with hany
    · simp only [List.mem_map] at hr
      obtain ⟨x, hx, rfl⟩ := hr
      by_cases hxk : x.key = k
      · rw [if_pos hxk]
        simp [ResourceRecord.touch, hrun x hx hxk]
      · rw [if_neg hxk] at hk
        exact absurd hk hxk
    · simp only [List.mem_append, List.mem_singleton] at hr
      rcases hr with hr | hr
      · exfalso
        apply hany
        simp only [List.any_eq_true, beq_iff_eq]
        exact ⟨r, hr, hk⟩
      · subst hr
        exact ⟨rfl, rfl⟩

/-- C15 at a concrete input: the download of `tile/0/0.jpg` fails with an HTTP
error; a tick of the data thread, a `tick()`, a stale fetch result and a `release`
follow; then the key is acquired again. -/
theorem C15_failed_download_is_sticky_witness :
    (∃ r ∈ fetchingCache.records, r.key = "tile/0/0.jpg") ∧
    (∀ r ∈ fetchingCache.records, r.key = "tile/0/0.jpg" →
      r.state = ResourceImpl.State.downloading) ∧
    CacheOp.acquire "tile/0/0.jpg" ∉
      [CacheOp.dataTick emptyDisk, CacheOp.tick,
       CacheOp.fetchCompleted "tile/0/0.jpg" (Except.ok [1]), CacheOp.release "tile/0/0.jpg"] ∧
    ((fetchingCache.fetchCompleted "tile/0/0.jpg" (Except.error FetchError.httpStatus)).run
      [CacheOp.dataTick emptyDisk, CacheOp.tick,
       CacheOp.fetchCompleted "tile/0/0.jpg" (Except.ok [1]),
       CacheOp.release "tile/0/0.jpg"]).records =
      [⟨"tile/0/0.jpg", ResourceImpl.State.errorDownload, none, 1, 0, 0⟩] ∧
    (∀ r ∈ (((fetchingCache.fetchCompleted "tile/0/0.jpg"
        (Except.error FetchError.httpStatus)).run
      [CacheOp.dataTick emptyDisk, CacheOp.tick,
       CacheOp.fetchCompleted "tile/0/0.jpg" (Except.ok [1]),
       CacheOp.release "tile/0/0.jpg"]).acquire "tile/0/0.jpg").records,
      r.key = "tile/0/0.jpg" →
      r.state = ResourceImpl.State.initializing ∧ r.rawBytes = none) := by
  have hex : ∃ r ∈ fetchingCache.records, r.key = "tile/0/0.jpg" := ⟨_, List.mem_singleton_self _, rfl⟩
  have hdl : ∀ r ∈ fetchingCache.records, r.key = "tile/0/0.jpg" →
      r.state = ResourceImpl.State.downloading := by
    intro r hr _
    rw [List.mem_singleton.mp hr]
  have hops : CacheOp.acquire "tile/0/0.jpg" ∉
      [CacheOp.dataTick emptyDisk, CacheOp.tick,
       CacheOp.fetchCompleted "tile/0/0.jpg" (Except.ok [1]), CacheOp.release "tile/0/0.jpg"] := by
    simp
  exact ⟨hex, hdl, hops, by decide,
    (C15_failed_download_is_sticky fetchingCache "tile/0/0.jpg" FetchError.httpStatus _
      hex hdl hops).2.2.2.2⟩

/-- C16: a valid disk entry skips the Fetcher.  In a cache with unique keys, one
tick of the data thread on a record in `initializing` submits no fetch task for its
key when the disk cache holds valid content for the key, and the record becomes
`downloaded` with the disk bytes; it submits exactly one fetch task for the key
when the disk entry is missing or invalid, and the record becomes `downloading`. -/
theorem C16_disk_hit_skips_fetcher (c : CacheManager) (disk : ResourceKey → DiskEntry)
    (r : ResourceRecord) (hu : c.UniqueKeys) (hr : r ∈ c.records)
    (hinit : r.state = ResourceImpl.State.initializing) :
    (∀ bytes, disk r.key = DiskEntry.valid bytes →
      (c.dataTick disk).submitted.count r.key = c.submitted.count r.key ∧
      (r.advance disk).2 = [] ∧
      (r.advance disk).1.state = ResourceImpl.State.downloaded ∧
      (r.advance disk).1.rawBytes = some bytes ∧
      (r.advance disk).1 ∈ (c.dataTick disk).records) ∧
    ((disk r.key = DiskEntry.missing ∨ disk r.key = DiskEntry.invalid) →
      (c.dataTick disk).submitted.count r.key = c.submitted.count r.key + 1 ∧
      (r.advance disk).2 = [r.key] ∧
      (r.advance disk).1.state = ResourceImpl.State.downloading ∧
      (r.advance disk).1 ∈ (c.dataTick disk).records) := by
  have hcount := count_submitted_of_mem disk r c.records hu hr
  have hmem : (r.advance disk).1 ∈ (c.dataTick disk).records := by
    simp only [CacheManager.dataTick, List.mem_map]
    exact ⟨r, hr, rfl⟩
  refine ⟨?_, ?_⟩
  · intro bytes hd
    have h2 : (r.advance disk).2 = [] := by simp [ResourceRecord.advance, hinit, hd]
    refine ⟨?_, h2, ?_, ?_, hmem⟩
    · simp only [CacheManager.dataTick, List.count_append, hcount, h2]
      simp
    · simp [ResourceRecord.advance, hinit, hd]
    · simp [ResourceRecord.advance, hinit, hd]
  · intro hd
    have h2 : (r.advance disk).2 = [r.key] := by
      rcases hd with hd | hd <;> simp [ResourceRecord.advance, hinit, hd]
    refine ⟨?_, h2, ?_, hmem⟩
    · simp only [CacheManager.dataTick, List.count_append, hcount, h2]
      simp
    · rcases hd with hd | hd <;> simp [ResourceRecord.advance, hinit, hd]

theorem requestedCache_uniqueKeys : requestedCache.UniqueKeys := by
  unfold CacheManager.UniqueKeys
  decide

/-- C16 at a concrete input: the record of `tile/0/0.jpg` in `initializing`, once
with valid bytes on disk and once with an empty disk cache. -/
theorem C16_disk_hit_skips_fetcher_witness :
    requestedCache.UniqueKeys ∧
    (⟨"tile/0/0.jpg", ResourceImpl.State.initializing, none, 1, 0, 1⟩ : ResourceRecord) ∈
      requestedCache.records ∧
    tileDisk "tile/0/0.jpg" = DiskEntry.valid [7, 7] ∧
    (requestedCache.dataTick tileDisk).submitted.count "tile/0/0.jpg" = 0 ∧
    (requestedCache.dataTick tileDisk).records =
      [⟨"tile/0/0.jpg", ResourceImpl.State.downloaded, some [7, 7], 1, 2, 1⟩] ∧
    emptyDisk "tile/0/0.jpg" = DiskEntry.missing ∧
    (requestedCache.dataTick emptyDisk).submitted.count "tile/0/0.jpg" = 1 ∧
    (requestedCache.dataTick emptyDisk).records =
      [⟨"tile/0/0.jpg", ResourceImpl.State.downloading, none, 1, 0, 1⟩] := by
  have h1 := (C16_disk_hit_skips_fetcher requestedCache tileDisk
    ⟨"tile/0/0.jpg", ResourceImpl.State.initializing, none, 1, 0, 1⟩
    requestedCache_uniqueKeys (by decide) rfl).1 [7, 7] rfl
  have h2 := (C16_disk_hit_skips_fetcher requestedCache emptyDisk
    ⟨"tile/0/0.jpg", ResourceImpl.State.initializing, none, 1, 0, 1⟩
    requestedCache_uniqueKeys (by decide) rfl).2 (Or.inl rfl)
  exact ⟨requestedCache_uniqueKeys, by decide, rfl, h1.1, by decide, rfl, h2.1, by decide⟩

/-- C17, refuted as stated: it is not the case that any number of `acquire(k)` calls
made before the record reaches `ready` result in exactly one record and exactly
one Fetcher submission for `k`.  With valid content for the key on disk, two
`acquire` calls and the tick of the data thread that follows them leave one record,
in `downloaded`, and no submission. -/
theorem C17_valid_disk_entry_gives_no_submission :
    ¬ ∀ (k : ResourceKey) (n : Nat) (disk : ResourceKey → DiskEntry), 0 < n →
      ((emptyCache.run (List.replicate n (CacheOp.acquire k) ++
          [CacheOp.dataTick disk])).records.map (fun r => r.key)).count k = 1 ∧
      (emptyCache.run (List.replicate n (CacheOp.acquire k) ++
          [CacheOp.dataTick disk])).submitted.count k = 1 := by
  intro h
  have h1 := (h "tile/0/0.jpg" 2 tileDisk (by decide)).2
  revert h1
  decide

/-- C17, amended: one record and at most one fetch per key.  Start from a cache
with unique keys and no record for `k`, and run any sequence of operations that
contains an `acquire(k)` and in which the key is not released, the cache is not
purged, the disk cache never holds valid content for `k` and no fetch of `k` fails.
Then the records map holds exactly one record for `k`, and at most one fetch task
was submitted for `k`, however many `acquire(k)` calls were made: none while the
record is in `initializing`, and exactly one once the data thread has advanced
it. -/
theorem C17_one_record_at_most_one_fetch (c : CacheManager) (k : ResourceKey)
    (ops : List CacheOp) (hu : c.UniqueKeys) (habs : ∀ r ∈ c.records, r.key ≠ k)
    (hq : ∀ op ∈ ops, op.quiet k) (hacq : CacheOp.acquire k ∈ ops) :
    ((c.run ops).records.map (fun r => r.key)).count k = 1 ∧
    (c.run ops).submitted.count k ≤ c.submitted.count k + 1 ∧
    ∀ r ∈ (c.run ops).records, r.key = k →
      (r.state = ResourceImpl.State.initializing →
        (c.run ops).submitted.count k = c.submitted.count k) ∧
      (r.state ≠ ResourceImpl.State.initializing →
        (c.run ops).submitted.count k = c.submitted.count k + 1) := by
  obtain ⟨hu', r, hr, hk, _, hst⟩ := run_absent_tracks k ops c hu habs hq hacq
  refine ⟨?_, ?_, ?_⟩
  · apply List.count_eq_one_of_mem hu'
    exact hk ▸ List.mem_map_of_mem (fun r => r.key) hr
  · rcases hst with ⟨_, hc⟩ | ⟨_, hc⟩ <;> omega
  · intro r' hr' hk'
    have heq : r' = r := List.inj_on_of_nodup_map hu' hr' hr (hk'.trans hk.symm)
    subst heq
    rcases hst with ⟨hs, hc⟩ | ⟨hs, hc⟩
    · exact ⟨fun _ => hc, fun hne => absurd hs hne⟩
    · refine ⟨fun hi => ?_, fun _ => hc⟩
      rcases hs with hs | hs <;> rw [hs] at hi <;> cases hi

theorem emptyCache_uniqueKeys : emptyCache.UniqueKeys := by
  unfold CacheManager.UniqueKeys
  decide

/-- C17 amended, at a concrete input: three `acquire` calls for `tile/0/0.jpg` on
the empty cache, interleaved with two ticks of the data thread that find nothing
on disk, and the successful end of the fetch. -/
theorem C17_one_record_at_most_one_fetch_witness :
    emptyCache.UniqueKeys ∧ (∀ r ∈ emptyCache.records, r.key ≠ "tile/0/0.jpg") ∧
    (∀ op ∈ [CacheOp.acquire "tile/0/0.jpg", CacheOp.acquire "tile/0/0.jpg",
        CacheOp.dataTick emptyDisk, CacheOp.acquire "tile/0/0.jpg",
        CacheOp.dataTick emptyDisk, CacheOp.fetchCompleted "tile/0/0.jpg" (Except.ok [1, 2])],
      op.quiet "tile/0/0.jpg") ∧
    ((emptyCache.run [CacheOp.acquire "tile/0/0.jpg", CacheOp.acquire "tile/0/0.jpg",
        CacheOp.dataTick emptyDisk, CacheOp.acquire "tile/0/0.jpg",
        CacheOp.dataTick emptyDisk,
        CacheOp.fetchCompleted "tile/0/0.jpg" (Except.ok [1, 2])]).records.map
      (fun r => r.key)).count "tile/0/0.jpg" = 1 ∧
    (emptyCache.run [CacheOp.acquire "tile/0/0.jpg", CacheOp.acquire "tile/0/0.jpg",
        CacheOp.dataTick emptyDisk, CacheOp.acquire "tile/0/0.jpg",
        CacheOp.dataTick emptyDisk,
        CacheOp.fetchCompleted "tile/0/0.jpg" (Except.ok [1, 2])]).submitted =
      ["tile/0/0.jpg"] := by
  have habs : ∀ r ∈ emptyCache.records, r.key ≠ "tile/0/0.jpg" := by
    intro r hr
    cases hr
  have hq : ∀ op ∈ [CacheOp.acquire "tile/0/0.jpg", CacheOp.acquire "tile/0/0.jpg",
      CacheOp.dataTick emptyDisk, CacheOp.acquire "tile/0/0.jpg",
      CacheOp.dataTick emptyDisk, CacheOp.fetchCompleted "tile/0/0.jpg" (Except.ok [1, 2])],
      op.quiet "tile/0/0.jpg" := by
    intro op hop
    simp only [List.mem_cons, List.mem_singleton, List.not_mem_nil, or_false] at hop
    rcases hop with h | h | h | h | h | h <;> subst h
    · trivial
    · trivial
    · intro bytes hb; cases hb
    · trivial
    · intro bytes hb; cases hb
    · intro _; exact ⟨[1, 2], rfl⟩
  exact ⟨emptyCache_uniqueKeys, habs, hq,
    (C17_one_record_at_most_one_fetch emptyCache "tile/0/0.jpg" _ emptyCache_uniqueKeys habs hq
      (by simp)).1, by decide⟩

/-- C18: `resetFrame` clears only the per-frame counters.  Afterwards
`meshesRenderedTotal`, `metaNodesTraversedTotal` and every entry of
`meshesRenderedPerLod` and `metaNodesTraversedPerLod` are zero, and every global
and current statistic has the value it had before the call. -/
theorem C18_resetFrame_clears_frame_counters_only (s : vts.MapStatistics) :
    s.resetFrame.meshesRenderedTotal = 0 ∧
    s.resetFrame.metaNodesTraversedTotal = 0 ∧
    (∀ i, s.resetFrame.meshesRenderedPerLod i = 0) ∧
    (∀ i, s.resetFrame.metaNodesTraversedPerLod i = 0) ∧
    s.resetFrame.resourcesIgnored = s.resourcesIgnored ∧
    s.resetFrame.resourcesDownloaded = s.resourcesDownloaded ∧
    s.resetFrame.resourcesDiskLoaded = s.resourcesDiskLoaded ∧
    s.resetFrame.resourcesProcessLoaded = s.resourcesProcessLoaded ∧
    s.resetFrame.resourcesReleased = s.resourcesReleased ∧
    s.resetFrame.resourcesFailed = s.resourcesFailed ∧
    s.resetFrame.frameIndex = s.frameIndex ∧
    s.resetFrame.currentResources = s.currentResources ∧
    s.resetFrame.currentResourceDownloads = s.currentResourceDownloads ∧
    s.resetFrame.currentResourcePreparing = s.currentResourcePreparing ∧
    s.resetFrame.currentGpuMemUse = s.currentGpuMemUse ∧
    s.resetFrame.currentRamMemUse = s.currentRamMemUse ∧
    s.resetFrame.lastHeightRequestLod = s.lastHeightRequestLod ∧
    s.resetFrame.currentNodeUpdates = s.currentNodeUpdates :=
  ⟨rfl, rfl, fun _ => rfl, fun _ => rfl, rfl, rfl, rfl, rfl, rfl, rfl, rfl, rfl, rfl, rfl,
    rfl, rfl, rfl, rfl⟩

/-- C19: `resetAll` resets every statistic.  After the call every frame, global and
current counter is zero, every entry of the two per-LOD arrays included. -/
theorem C19_resetAll_zeroes_every_counter (s : vts.MapStatistics) :
    s.resetAll.meshesRenderedTotal = 0 ∧
    s.resetAll.metaNodesTraversedTotal = 0 ∧
    (∀ i, s.resetAll.meshesRenderedPerLod i = 0) ∧
    (∀ i, s.resetAll.metaNodesTraversedPerLod i = 0) ∧
    s.resetAll.resourcesIgnored = 0 ∧
    s.resetAll.resourcesDownloaded = 0 ∧
    s.resetAll.resourcesDiskLoaded = 0 ∧
    s.resetAll.resourcesProcessLoaded = 0 ∧
    s.resetAll.resourcesReleased = 0 ∧
    s.resetAll.resourcesFailed = 0 ∧
    s.resetAll.frameIndex = 0 ∧
    s.resetAll.currentResources = 0 ∧
    s.resetAll.currentResourceDownloads = 0 ∧
    s.resetAll.currentResourcePreparing = 0 ∧
    s.resetAll.currentGpuMemUse = 0 ∧
    s.resetAll.currentRamMemUse = 0 ∧
    s.resetAll.lastHeightRequestLod = 0 ∧
    s.resetAll.currentNodeUpdates = 0 :=
  ⟨rfl, rfl, fun _ => rfl, fun _ => rfl, rfl, rfl, rfl, rfl, rfl, rfl, rfl, rfl, rfl, rfl,
    rfl, rfl, rfl, rfl⟩

/-- C20: the tick loop runs until it is stopped.  In every run of the loop the
number of `dataTick` calls equals the number of loop checks that read `stop` clear,
whatever the calls return; a run that leaves the loop at its condition ends with
the one check that reads `stop` set.  With a map attached throughout, the loop is
left once `stop` stays set, given enough fuel, and it is never left while `stop`
stays clear. -/
theorem C20_tick_loop_runs_until_stopped (env : Nat → Shared) (tick : Nat → Bool) :
    (∀ fuel t evs left, DataThread.tickLoop env tick fuel t = some (evs, left) →
      evs.countP Event.isTickCall = evs.count (Event.stopRead false) ∧
      ∀ t2, left = some t2 →
        1 ≤ t2 ∧ (env (t2 - 1)).stop = true ∧
        ∃ pre, evs = pre ++ [Event.stopRead true] ∧ Event.stopRead true ∉ pre) ∧
    (∀ T, (∀ t, (env t).map ≠ none) → (∀ t, T ≤ t → (env t).stop = true) →
      ∀ t, ∃ fuel evs t2, DataThread.tickLoop env tick fuel t = some (evs, some t2)) ∧
    ((∀ t, (env t).map ≠ none) → (∀ t, (env t).stop = false) →
      ∀ fuel t, DataThread.tickLoop env tick fuel t = none) := by
  refine ⟨?_, ?_, ?_⟩
  · intro fuel
    induction fuel with
    | zero => intro t evs left h; simp [DataThread.tickLoop] at h
    | succ n ih =>
      intro t evs left h
      rw [DataThread.tickLoop] at h
      by_cases hs : (env t).stop = true
      · rw [if_pos hs] at h
        cases h
        refine ⟨by decide, ?_⟩
        intro t2 ht2
        cases ht2
        exact ⟨by omega, by simpa using hs, [], rfl, by simp⟩
      · rw [if_neg hs] at h
        cases hm : (env (t + 1)).map with
        | none =>
          simp only [hm] at h
          cases h
          refine ⟨by decide, ?_⟩
          intro t2 ht2
          cases ht2
        | some m =>
          simp only [hm] at h
          cases hr : DataThread.tickLoop env tick n (t + 2) with
          | none => simp [hr] at h
          | some r =>
            obtain ⟨evs', lft⟩ := r
            simp only [hr] at h
            cases h
            obtain ⟨hc, hl⟩ := ih (t + 2) _ _ hr
            refine ⟨?_, ?_⟩
            · simp [List.countP_cons, List.count_cons, Event.isTickCall, hc]
            · intro t2 ht2
              obtain ⟨h1, h2, pre, hpre, hnot⟩ := hl t2 ht2
              refine ⟨h1, h2, Event.stopRead false :: Event.dataTick m (tick (t + 1)) ::
                Event.usleep (if tick (t + 1) then 20000 else 5000) :: pre, ?_, ?_⟩
              · simp [hpre]
              · simp [hnot]
  · intro T hmap hstop t
    obtain ⟨evs, t2, h⟩ := tickLoop_attached env tick T hmap hstop T t (by omega)
    exact ⟨T + 1, evs, t2, h⟩
  · intro hmap hstop fuel
    induction fuel with
    | zero => intro t; rfl
    | succ n ih =>
      intro t
      rw [DataThread.tickLoop]
      have hs : ¬ (env t).stop = true := by simp [hstop t]
      rw [if_neg hs]
      cases hm : (env (t + 1)).map with
      | none => exact absurd hm (hmap (t + 1))
      | some m => simp [ih (t + 2)]

/-- C20 at concrete inputs: the tick loop of the example run, which is stopped at
read number 6, and the tick loop in an environment that never sets `stop`. -/
theorem C20_tick_loop_runs_until_stopped_witness :
    DataThread.tickLoop exampleEnv exampleTick 5 3 =
      some ([Event.stopRead false, Event.dataTick 1 true, Event.usleep 20000,
        Event.stopRead false, Event.dataTick 1 false, Event.usleep 5000,
        Event.stopRead true], some 8) ∧
    (1 ≤ 8 ∧ (exampleEnv (8 - 1)).stop = true ∧
      ∃ pre, [Event.stopRead false, Event.dataTick 1 true, Event.usleep 20000,
        Event.stopRead false, Event.dataTick 1 false, Event.usleep 5000,
        Event.stopRead true] = pre ++ [Event.stopRead true] ∧ Event.stopRead true ∉ pre) ∧
    (∀ t, (runningEnv t).map ≠ none) ∧ (∀ t, (runningEnv t).stop = false) ∧
    DataThread.tickLoop runningEnv exampleTick 100 0 = none := by
  have hmap : ∀ t, (runningEnv t).map ≠ none := by
    intro t h
    simp [runningEnv] at h
  have hstop : ∀ t, (runningEnv t).stop = false := fun _ => rfl
  exact ⟨rfl,
    ((C20_tick_loop_runs_until_stopped exampleEnv exampleTick).1 5 3 _ _ rfl).2 8 rfl,
    hmap, hstop,
    (C20_tick_loop_runs_until_stopped runningEnv exampleTick).2.2 hmap hstop 100 0⟩

/-- C21, evaluated on the code: a failed `allocate` leaves a size without a region.
`allocate(4)` on the buffer at address 1 of the example world with the allocator
out of memory throws, and at the throw the buffer has `size_ = 4` and a null
`data_`; the failed copy assignment `a = b` of the buffer at address 1 to the
buffer at address 2 leaves `a`, which lives on, with `size_ = 3` and a null
`data_`.  Neither buffer is owned in the sense of the invariant. -/
theorem C21_failed_allocate_keeps_size :
    (∃ w', Buffer.allocate exampleWorld 1 4 none = Outcome.threw "not enough memory" w' ∧
      (w'.objs 1).size_ = 4 ∧ (w'.objs 1).data_ = none ∧ ¬ Owned w' 1) ∧
    (∃ w', Buffer.assignCopy exampleWorld 2 1 none = Outcome.threw "not enough memory" w' ∧
      (w'.objs 2).size_ = 3 ∧ (w'.objs 2).data_ = none ∧ ¬ Owned w' 2) := by
  refine ⟨⟨_, rfl, rfl, rfl, ?_⟩, ⟨_, rfl, rfl, rfl, ?_⟩⟩
  · intro h
    exact absurd (show (4 : Nat) = 0 from h) (by decide)
  · intro h
    exact absurd (show (3 : Nat) = 0 from h) (by decide)

/-- C22, evaluated on the code: an empty buffer cannot be copied when the allocator
answers a zero-byte request with the null pointer.  The buffer at address 3 of the
example world is empty (size 0, null `data_`).  With the answer `none` of `malloc(0)`
the copy construction from it, the copy assignment from it and `allocate(0)` all
throw `not enough memory`. -/
theorem C22_empty_copy_throws_on_null_malloc :
    (exampleWorld.objs 3).size_ = 0 ∧ (exampleWorld.objs 3).data_ = none ∧
    (∃ w', Buffer.ctorCopy exampleWorld 5 3 none = Outcome.threw "not enough memory" w') ∧
    (∃ w', Buffer.assignCopy exampleWorld 2 3 none = Outcome.threw "not enough memory" w') ∧
    (∃ w', Buffer.allocate exampleWorld 3 0 none = Outcome.threw "not enough memory" w') :=
  ⟨rfl, rfl, ⟨_, rfl⟩, ⟨_, rfl⟩, ⟨_, rfl⟩⟩
/-- C23, evaluated on the code: every operation sets the read window, but the two
assignments do not return.  `Buffer(size)`, copy construction, move construction
and `allocate` return with a get area that begins at `data_`, has its read position
at `data_` and ends `size_` bytes later, inside a live block, so that the read
window has `size_` bytes and they are the bytes of the buffer; `free` returns with
the three pointers of the get area null and an empty read window.  Copy assignment
and move assignment between distinct buffers set the same get area in their
statements, and then reach the closing brace of the operator, which is declared to
return `Buffer &`, without a `return` statement: they have no returning outcome,
and there is no state after them. -/
theorem C23_window_set_but_assignments_flow_off_end (w : World) (this other n blk : Nat)
    (fill : Nat → Byte) (hne : this ≠ other) (hf : Freeable w this) (hown : Owned w other)
    (hna : ∀ p q, (w.objs this).data_ = some p → (w.objs other).data_ = some q →
      p.block ≠ q.block)
    (hfresh : w.heap blk = none) :
    (∃ w', Buffer.ctorSize w this n (some (blk, fill)) = Outcome.ok w' ∧
      w'.objs this = ⟨some ⟨blk, 0⟩, n, some ⟨blk, 0⟩, some ⟨blk, 0⟩, some ⟨blk, n⟩⟩ ∧
      readWindow w' this = contents w' this ∧ (readWindow w' this).length = n) ∧
    (∃ w', Buffer.ctorCopy w this other (some (blk, fill)) = Outcome.ok w' ∧
      w'.objs this = ⟨some ⟨blk, 0⟩, (w.objs other).size_, some ⟨blk, 0⟩, some ⟨blk, 0⟩,
        some ⟨blk, (w.objs other).size_⟩⟩ ∧
      readWindow w' this = contents w' this ∧
      (readWindow w' this).length = (w.objs other).size_ ∧
      readWindow w' this = contents w other) ∧
    ((Buffer.ctorMove w this other).objs this =
        ⟨(w.objs other).data_, (w.objs other).size_, (w.objs other).data_,
          (w.objs other).data_, ptrAdd (w.objs other).data_ (w.objs other).size_⟩ ∧
      readWindow (Buffer.ctorMove w this other) this =
        contents (Buffer.ctorMove w this other) this ∧
      (readWindow (Buffer.ctorMove w this other) this).length = (w.objs other).size_ ∧
      readWindow (Buffer.ctorMove w this other) this = contents w other) ∧
    ((∀ w', Buffer.assignCopy w this other (some (blk, fill)) ≠ Outcome.ok w') ∧
      ∃ w', Buffer.assignCopy w this other (some (blk, fill)) = Outcome.noReturn w' ∧
        w'.objs this = ⟨some ⟨blk, 0⟩, (w.objs other).size_, some ⟨blk, 0⟩, some ⟨blk, 0⟩,
          some ⟨blk, (w.objs other).size_⟩⟩ ∧
        (readWindow w' this).length = (w.objs other).size_ ∧
        readWindow w' this = contents w other) ∧
    ((∀ w', Buffer.assignMove w this other ≠ Outcome.ok w') ∧
      ∃ w', Buffer.assignMove w this other = Outcome.noReturn w' ∧
        w'.objs this =
          ⟨(w.objs other).data_, (w.objs other).size_, (w.objs other).data_,
            (w.objs other).data_, ptrAdd (w.objs other).data_ (w.objs other).size_⟩ ∧
        (readWindow w' this).length = (w.objs other).size_ ∧
        readWindow w' this = contents w other) ∧
    (∃ w', Buffer.allocate w this n (some (blk, fill)) = Outcome.ok w' ∧
      w'.objs this = ⟨some ⟨blk, 0⟩, n, some ⟨blk, 0⟩, some ⟨blk, 0⟩, some ⟨blk, n⟩⟩ ∧
      readWindow w' this = contents w' this ∧ (readWindow w' this).length = n) ∧
    (∃ w', Buffer.free w this = Outcome.ok w' ∧
      (w'.objs this).eback = none ∧ (w'.objs this).gptr = none ∧
      (w'.objs this).egptr = none ∧ readWindow w' this = []) := by
  have hlen := contents_of_owned_length w other hown
  have hagree : ∀ q, (w.objs other).data_ = some q →
      released w.heap (w.objs this).data_ q.block = w.heap q.block := by
    intro q hq
    cases hd : (w.objs this).data_ with
    | none => rfl
    | some p => simp [released, Function.update_noteq (hna p q hd hq).symm]
  -- a window over a whole fresh block
  have fresh : ∀ (w' : World),
      w'.objs this = ⟨some ⟨blk, 0⟩, n, some ⟨blk, 0⟩, some ⟨blk, 0⟩, some ⟨blk, n⟩⟩ →
      w'.heap blk = some ((List.range n).map fill) →
      readWindow w' this = contents w' this ∧ (readWindow w' this).length = n := by
    intro w' ho hb
    obtain ⟨hr, hc⟩ := readWindow_whole w' this blk n _ ho hb (by simp)
    exact ⟨hr.trans hc.symm, by rw [hr]; simp⟩
  -- a window set to the members taken from the source
  have moved : ∀ (w' : World),
      w'.objs this = ⟨(w.objs other).data_, (w.objs other).size_, (w.objs other).data_,
        (w.objs other).data_, ptrAdd (w.objs other).data_ (w.objs other).size_⟩ →
      (∀ q, (w.objs other).data_ = some q → w'.heap q.block = w.heap q.block) →
      readWindow w' this = contents w' this ∧
        (readWindow w' this).length = (w.objs other).size_ ∧
        readWindow w' this = contents w other := by
    intro w' ho hh
    have hw : WindowAtStart (w'.objs this) := by
      rw [ho]
      exact windowAtStart_mk _ _
    have h1 := readWindow_eq_contents w' this hw
    have h2 : contents w' this = contents w other :=
      contents_transfer w w' this other (by rw [ho]) (by rw [ho]) hh
    exact ⟨h1, by rw [h1, h2, hlen], h1.trans h2⟩
  refine ⟨?_, ?_, ?_, ⟨?_, ?_⟩, ⟨?_, ?_⟩, ?_, ?_⟩
  · obtain ⟨w', he, ho, hb⟩ := ctorSize_ok_objs w this n blk fill
    exact ⟨w', he, ho, fresh w' ho hb⟩
  · obtain ⟨w', bs, he, ho, hb, hl, hc⟩ :=
      ctorCopy_ok w this other blk fill hne hown hfresh
    obtain ⟨hr, hcn⟩ := readWindow_whole w' this blk (w.objs other).size_ bs ho hb hl
    exact ⟨w', he, ho, hr.trans hcn.symm, by rw [hr, hl], hr.trans hc.symm⟩
  · exact ⟨ctorMove_objs w this other hne,
      moved _ (ctorMove_objs w this other hne) (fun _ _ => rfl)⟩
  · intro w' h
    obtain ⟨w1, bs, he, _⟩ := assignCopy_end w this other blk fill hne hf hown hna
      (released_fresh _ _ _ hfresh)
    rw [he] at h
    exact Outcome.noConfusion h
  · obtain ⟨w', bs, he, ho, hb, hl, hc⟩ :=
      assignCopy_end w this other blk fill hne hf hown hna (released_fresh _ _ _ hfresh)
    obtain ⟨hr, _⟩ := readWindow_whole w' this blk (w.objs other).size_ bs ho hb hl
    exact ⟨w', he, ho, by rw [hr, hl], hr.trans hc.symm⟩
  · intro w' h
    obtain ⟨w1, he, _⟩ := assignMove_end w this other hne hf
    rw [he] at h
    exact Outcome.noConfusion h
  · obtain ⟨w', he, ho, hh⟩ := assignMove_end w this other hne hf
    exact ⟨w', he, ho, (moved w' ho (fun q hq => by rw [hh]; exact hagree q hq)).2⟩
  · obtain ⟨w', he, ho, hb⟩ := allocate_ok_objs w this n blk fill hf
    exact ⟨w', he, ho, fresh w' ho (by rw [hb])⟩
  · rw [free_of_freeable w this hf]
    exact ⟨_, rfl, by simp, by simp, by simp, by simp [readWindow]⟩

/-- C23 at concrete inputs of the example world.  The buffer at address 5 is built
with size 4, as a copy and by a move of the buffer at address 1 (3 bytes 10, 20, 30
in block 7), the allocator handing out block 9; the buffer at address 2 is assigned
the buffer at address 1 by copy and by move, and the two assignments do not
return. -/
theorem C23_window_set_but_assignments_flow_off_end_witness :
    (5 : Nat) ≠ 1 ∧ (2 : Nat) ≠ 1 ∧ Freeable exampleWorld 5 ∧ Freeable exampleWorld 2 ∧
    Owned exampleWorld 1 ∧ exampleWorld.heap 9 = none ∧
    (∃ w', Buffer.ctorSize exampleWorld 5 4 (some (9, fun _ => 0)) = Outcome.ok w' ∧
      w'.objs 5 = ⟨some ⟨9, 0⟩, 4, some ⟨9, 0⟩, some ⟨9, 0⟩, some ⟨9, 4⟩⟩ ∧
      (readWindow w' 5).length = 4) ∧
    (∃ w', Buffer.ctorCopy exampleWorld 5 1 (some (9, fun _ => 0)) = Outcome.ok w' ∧
      w'.objs 5 = ⟨some ⟨9, 0⟩, 3, some ⟨9, 0⟩, some ⟨9, 0⟩, some ⟨9, 3⟩⟩ ∧
      readWindow w' 5 = [10, 20, 30]) ∧
    ((Buffer.ctorMove exampleWorld 5 1).objs 5 =
        ⟨some ⟨7, 0⟩, 3, some ⟨7, 0⟩, some ⟨7, 0⟩, some ⟨7, 3⟩⟩ ∧
      readWindow (Buffer.ctorMove exampleWorld 5 1) 5 = [10, 20, 30]) ∧
    (∀ w', Buffer.assignCopy exampleWorld 2 1 (some (9, fun _ => 0)) ≠ Outcome.ok w') ∧
    (∀ w', Buffer.assignMove exampleWorld 2 1 ≠ Outcome.ok w') ∧
    (∃ w', Buffer.allocate exampleWorld 2 4 (some (9, fun _ => 0)) = Outcome.ok w' ∧
      w'.objs 2 = ⟨some ⟨9, 0⟩, 4, some ⟨9, 0⟩, some ⟨9, 0⟩, some ⟨9, 4⟩⟩ ∧
      (readWindow w' 2).length = 4) ∧
    (∃ w', Buffer.free exampleWorld 2 = Outcome.ok w' ∧
      (w'.objs 2).eback = none ∧ (w'.objs 2).gptr = none ∧
      (w'.objs 2).egptr = none ∧ readWindow w' 2 = []) := by
  have hf5 : Freeable exampleWorld 5 := by
    intro p hp
    cases hp
  have h5 := C23_window_set_but_assignments_flow_off_end exampleWorld 5 1 4 9 (fun _ => 0)
    (by decide) hf5 exampleWorld_owned_1 (fun p q hp hq => by cases hp) rfl
  have h2 := C23_window_set_but_assignments_flow_off_end exampleWorld 2 1 4 9 (fun _ => 0)
    (by decide) exampleWorld_freeable_2 exampleWorld_owned_1
    (fun p q hp hq => by cases hp; cases hq; decide) rfl
  obtain ⟨⟨w1, e1, o1, _, l1⟩, ⟨w2, e2, o2, _, _, r2⟩, ⟨o3, _, _, r3⟩, _⟩ := h5
  obtain ⟨_, _, _, ⟨n4, _⟩, ⟨n5, _⟩, ⟨w6, e6, o6, _, l6⟩, h7⟩ := h2
  exact ⟨by decide, by decide, hf5, exampleWorld_freeable_2, exampleWorld_owned_1, rfl,
    ⟨w1, e1, o1, l1⟩, ⟨w2, e2, o2, r2⟩, ⟨o3, r3⟩, n4, n5, ⟨w6, e6, o6, l6⟩, h7⟩

/-- C24: self-assignment is the identity.  For every world and every buffer `a`, both
`a = a` and `a = std::move(a)` return with the world as it was: the members of
every buffer, the read window of `a` included, and every block of the heap are
unchanged, so nothing is released, whatever the allocator would answer. -/
theorem C24_self_assignment_is_identity (w : World) (a : Nat) (ans : MallocAnswer) :
    Buffer.assignCopy w a a ans = Outcome.ok w ∧ Buffer.assignMove w a a = Outcome.ok w := by
  constructor
  · simp [Buffer.assignCopy]
  · simp [Buffer.assignMove]

/-- C25, evaluated on the code: an unlimited budget becomes zero.  For the previous
budget `2^64 - 1` the MiB count `2^44 - 1` is passed to the slider as the `int`
value -1; the untouched slider answers 0, and the new budget is 0, where the
previous budget rounded down to whole MiB and capped at 2048 MiB is 2147483648.
The same happens for the previous budget `2^51`, whose MiB count `2^31` becomes the
`int` value `-2^31`.  And whatever the slider answers, the previous budget
`2^52 + 5 MiB` gives the budget that the previous budget `5 MiB` gives, since both
reach the slider as the `int` value 5. -/
theorem C25_unlimited_budget_becomes_zero :
    toInt32 ((2 ^ 64 - 1) / 1024 / 1024) = -1 ∧
    slideUntouched 0 (-1) 2048 = 0 ∧
    GuiImpl.prepareOptionsMaxMemory (2 ^ 64 - 1) (fun v => slideUntouched 0 v 2048) = 0 ∧
    min ((2 ^ 64 - 1) / 1048576) 2048 * 1048576 = 2147483648 ∧
    toInt32 (2 ^ 51 / 1024 / 1024) = -2147483648 ∧
    GuiImpl.prepareOptionsMaxMemory (2 ^ 51) (fun v => slideUntouched 0 v 2048) = 0 ∧
    (∀ slide : Int → Int,
      GuiImpl.prepareOptionsMaxMemory (2 ^ 52 + 5 * 1048576) slide =
        GuiImpl.prepareOptionsMaxMemory (5 * 1048576) slide) := by
  refine ⟨by decide, by decide, by decide, by decide, by decide, by decide, ?_⟩
  intro slide
  have h : toInt32 ((2 ^ 52 + 5 * 1048576) / 1024 / 1024) = toInt32 (5 * 1048576 / 1024 / 1024) := by
    decide
  unfold GuiImpl.prepareOptionsMaxMemory
  rw [h]

/-- C26: `prepareViewsBoundLayers` reports every modification.  For every list of
bound layers, every content of the set of available layers and every combination
of widget results the function returns, which means that the index of its `erase`
and the two indices of its `swap` are inside the list; and when it returns `false`
the list is the list before, element for element: the same layers in the same
order with the same alphas. -/
theorem C26_bound_layers_reports_changes {α : Type} (ui : BoundLayerWidgets α)
    (ne : α → α → Bool) (defaultAlpha : α) (bls : List String)
    (bl : List (BoundLayerInfo α)) :
    ∃ r, GuiImpl.prepareViewsBoundLayers ui ne defaultAlpha bls bl = some r ∧
      (r.1 = false → r.2 = bl) := by
  obtain ⟨r, hr, hspec⟩ := layerLoop_spec ui ne defaultAlpha bl [] bls false
  refine ⟨r, hr, ?_⟩
  intro hf
  simpa using (hspec hf).2

/-- C26 at concrete inputs: the two example layers with idle widgets, where the
function returns `false` and the list is unchanged, and with the button `^` of the
second layer pressed, where it returns `true` and the two layers are swapped. -/
theorem C26_bound_layers_reports_changes_witness :
    GuiImpl.prepareViewsBoundLayers idleWidgets (fun a b => a != b) 1 ["labels", "relief"]
      exampleLayers = some (false, exampleLayers) ∧
    GuiImpl.prepareViewsBoundLayers upWidgets (fun a b => a != b) 1 ["labels", "relief"]
      exampleLayers = some (true, [⟨"labels", 5⟩, ⟨"ortho", 10⟩]) ∧
    ∃ r, GuiImpl.prepareViewsBoundLayers idleWidgets (fun a b => a != b) 1
        ["labels", "relief"] exampleLayers = some r ∧
      (r.1 = false → r.2 = exampleLayers) :=
  ⟨by decide, by decide,
    C26_bound_layers_reports_changes idleWidgets (fun a b => a != b) 1 ["labels", "relief"]
      exampleLayers⟩

/-- C27: the query step of `prepareSearch`.  When the text in `searchText` differs
from the text in `searchTextPrev`, `window->map->search` is called, once and with
the text, if and only if `nk_utf_len` counts at least 3 characters, and `search`
becomes the task it returns; otherwise no call is made and `search` is emptied; in
both cases `searchTextPrev` then holds the text and `searchDetails` is -1.  When the
text is the same, no call is made and `search`, `searchDetails` and
`searchTextPrev` keep their values. -/
theorem C27_search_query_step (nk_utf_len : List melown.Byte → Nat)
    (mapSearch : List melown.Byte → Option SearchTask) (g : SearchGui)
    (edited : List melown.Byte) :
    (cstr edited ≠ cstr g.searchTextPrev →
      (3 ≤ nk_utf_len edited →
        (GuiImpl.prepareSearchQuery nk_utf_len mapSearch g edited).1.search =
          mapSearch (cstr edited) ∧
        (GuiImpl.prepareSearchQuery nk_utf_len mapSearch g edited).2 = [cstr edited]) ∧
      (nk_utf_len edited < 3 →
        (GuiImpl.prepareSearchQuery nk_utf_len mapSearch g edited).1.search = none ∧
        (GuiImpl.prepareSearchQuery nk_utf_len mapSearch g edited).2 = []) ∧
      cstr (GuiImpl.prepareSearchQuery nk_utf_len mapSearch g edited).1.searchTextPrev =
        cstr (GuiImpl.prepareSearchQuery nk_utf_len mapSearch g edited).1.searchText ∧
      cstr (GuiImpl.prepareSearchQuery nk_utf_len mapSearch g edited).1.searchText =
        cstr edited ∧
      (GuiImpl.prepareSearchQuery nk_utf_len mapSearch g edited).1.searchDetails = -1) ∧
    (cstr edited = cstr g.searchTextPrev →
      (GuiImpl.prepareSearchQuery nk_utf_len mapSearch g edited).1.search = g.search ∧
      (GuiImpl.prepareSearchQuery nk_utf_len mapSearch g edited).1.searchDetails =
        g.searchDetails ∧
      (GuiImpl.prepareSearchQuery nk_utf_len mapSearch g edited).1.searchTextPrev =
        g.searchTextPrev ∧
      (GuiImpl.prepareSearchQuery nk_utf_len mapSearch g edited).2 = []) := by
  refine ⟨?_, ?_⟩
  · intro hne
    refine ⟨?_, ?_, ?_, ?_, ?_⟩
    · intro h3
      simp [GuiImpl.prepareSearchQuery, cstr_append_nul, hne, h3]
    · intro h3
      have h3' : ¬ 3 ≤ nk_utf_len edited := by omega
      simp [GuiImpl.prepareSearchQuery, cstr_append_nul, hne, h3']
    · by_cases h3 : 3 ≤ nk_utf_len edited <;>
        simp [GuiImpl.prepareSearchQuery, cstr_append_nul, cstr_cstr, hne, h3]
    · by_cases h3 : 3 ≤ nk_utf_len edited <;>
        simp [GuiImpl.prepareSearchQuery, cstr_append_nul, hne, h3]
    · by_cases h3 : 3 ≤ nk_utf_len edited <;>
        simp [GuiImpl.prepareSearchQuery, cstr_append_nul, hne, h3]
  · intro heq
    simp [GuiImpl.prepareSearchQuery, cstr_append_nul, heq]

/-- C27 at a concrete input: the text `Pra` is typed into the empty query, with the
length in bytes as the count of characters and a search task for every query. -/
theorem C27_search_query_step_witness :
    cstr [80, 114, 97] ≠ cstr exampleSearchGui.searchTextPrev ∧
    3 ≤ ([80, 114, 97] : List melown.Byte).length ∧
    (GuiImpl.prepareSearchQuery List.length (fun q => some ⟨q⟩) exampleSearchGui
      [80, 114, 97]).1.search = some ⟨cstr [80, 114, 97]⟩ ∧
    (GuiImpl.prepareSearchQuery List.length (fun q => some ⟨q⟩) exampleSearchGui
      [80, 114, 97]).2 = [cstr [80, 114, 97]] ∧
    (GuiImpl.prepareSearchQuery List.length (fun q => some ⟨q⟩) exampleSearchGui
      [80, 114, 97]).1.searchDetails = -1 ∧
    cstr [80, 114, 97] = [80, 114, 97] := by
  have hne : cstr [80, 114, 97] ≠ cstr exampleSearchGui.searchTextPrev := by decide
  have h := (C27_search_query_step List.length (fun q => some ⟨q⟩) exampleSearchGui
    [80, 114, 97]).1 hne
  exact ⟨hne, by decide, (h.1 (by decide)).1, (h.1 (by decide)).2, h.2.2.2.2, by decide⟩

/-- C28: the per-LOD reads of the statistics panel are in bounds.  For every
statistics object and every setting of the two detail flags the per-LOD part of
`prepareStatistics` returns; every index it uses to read
`metaNodesTraversedPerLod` or `meshesRenderedPerLod` is less than `MaxLods`, which
is 22 and the declared length of both arrays; with a flag set the indices read are
0 to 21 in order, and without it none is read. -/
theorem C28_per_lod_reads_in_bounds (s : vts.MapStatistics)
    (statTraversedDetails statRenderedDetails : Bool) :
    vts.MapStatistics.MaxLods = 22 ∧
    ∃ t r, GuiImpl.prepareStatisticsLods s statTraversedDetails statRenderedDetails =
        some (t, r) ∧
      (∀ j ∈ t.1, j < vts.MapStatistics.MaxLods) ∧
      (∀ j ∈ r.1, j < vts.MapStatistics.MaxLods) ∧
      t.1 = (if statTraversedDetails then List.range' 0 22 else []) ∧
      r.1 = (if statRenderedDetails then List.range' 0 22 else []) := by
  refine ⟨rfl, ?_⟩
  obtain ⟨t, ht, hti, htb⟩ :=
    lodLoop_in_bounds s.metaNodesTraversedPerLod vts.MapStatistics.MaxLods 0 (by omega)
  obtain ⟨r, hr, hri, hrb⟩ :=
    lodLoop_in_bounds s.meshesRenderedPerLod vts.MapStatistics.MaxLods 0 (by omega)
  unfold GuiImpl.prepareStatisticsLods
  cases statTraversedDetails <;> cases statRenderedDetails
  · exact ⟨([], []), ([], []), rfl, by simp, by simp, rfl, rfl⟩
  · refine ⟨([], []), r, by simp [hr], by simp, hrb, rfl, hri⟩
  · refine ⟨t, ([], []), by simp [ht], htb, by simp, hti, rfl⟩
  · refine ⟨t, r, by simp [ht, hr], htb, hrb, hti, hri⟩

/-- C28 at a concrete input: the example statistics with the traversed details
shown and the rendered details hidden.  The indices 0 to 21 of
`metaNodesTraversedPerLod` are read, and the one row shown is that of LOD 3. -/
theorem C28_per_lod_reads_in_bounds_witness :
    GuiImpl.prepareStatisticsLods exampleStatistics true false =
      some ((List.range' 0 22, [(3, 7)]), ([], [])) ∧
    (∀ j ∈ List.range' 0 22, j < vts.MapStatistics.MaxLods) ∧
    ∃ t r, GuiImpl.prepareStatisticsLods exampleStatistics true false = some (t, r) ∧
      (∀ j ∈ t.1, j < vts.MapStatistics.MaxLods) ∧
      (∀ j ∈ r.1, j < vts.MapStatistics.MaxLods) ∧
      t.1 = (if true = true then List.range' 0 22 else []) ∧
      r.1 = (if false = true then List.range' 0 22 else []) := by
  refine ⟨by decide, by decide, ?_⟩
  exact (C28_per_lod_reads_in_bounds exampleStatistics true false).2

/-- C29, refuted as stated: it is not the case that for every text and every `len`
with `0 <= len < 300` the string passed to the clipboard consists of exactly the
first `len` bytes of the text.  For the three bytes `A`, NUL, `B` and `len = 3` the
clipboard receives the string `A`. -/
theorem C29_clipboard_string_ends_at_first_nul :
    ¬ ∀ (junk text : List melown.Byte) (len : Int),
      junk.length = 301 → 0 ≤ len → len < 300 → len.toNat ≤ text.length →
      ∃ buf, clipBoardCopy junk text len = some (buf, text.take len.toNat) := by
  intro h
  obtain ⟨buf, hb⟩ := h exampleJunk [65, 0, 66] 3 exampleJunk_length (by decide)
    (by decide) (by decide)
  rw [clipBoardCopy_eq _ _ _ exampleJunk_length (by decide) (by decide) (by decide)] at hb
  simp only [Option.some.injEq, Prod.mk.injEq] at hb
  exact absurd hb.2 (by decide)

/-- C29, amended: for every text with at least `len` readable bytes and every `len`
with `0 <= len < 300`, `clipBoardCopy` returns; of its local buffer of 301 bytes it
writes the indices 0 to `len` only: the bytes 0 to `len - 1` become the first `len`
bytes of the text, the byte `len` becomes NUL, and every later byte keeps its
content.  The string passed to the clipboard is the first `len` bytes of the text up
to their first NUL, and so exactly these `len` bytes when none of them is NUL. -/
theorem C29_clipboard_copy_within_buffer (junk text : List melown.Byte) (len : Int)
    (hjunk : junk.length = 301) (h0 : 0 ≤ len) (h300 : len < 300)
    (htext : len.toNat ≤ text.length) :
    ∃ buf str, clipBoardCopy junk text len = some (buf, str) ∧
      buf.length = 301 ∧
      buf.take len.toNat = text.take len.toNat ∧
      buf[len.toNat]? = some 0 ∧
      (∀ i, len.toNat < i → buf[i]? = junk[i]?) ∧
      str = cstr (text.take len.toNat) ∧
      ((∀ b ∈ text.take len.toNat, b ≠ 0) → str = text.take len.toNat) := by
  have hn : len.toNat < 300 := by omega
  have hlen : (text.take len.toNat).length = len.toNat := by
    rw [List.length_take]; omega
  refine ⟨_, _, clipBoardCopy_eq junk text len hjunk h0 h300 htext, ?_, ?_, ?_, ?_, rfl, ?_⟩
  · simp only [List.length_append, List.length_cons, List.length_drop, hlen]
    omega
  · rw [List.take_append_of_le_length (by omega), List.take_take, Nat.min_self]
  · rw [List.getElem?_append_right (by omega), hlen, Nat.sub_self]
    simp
  · intro i hi
    rw [List.getElem?_append_right (by omega), hlen]
    obtain ⟨k, rfl⟩ : ∃ k, i = len.toNat + 1 + k := ⟨i - (len.toNat + 1), by omega⟩
    have : len.toNat + 1 + k - len.toNat = k + 1 := by omega
    rw [this, List.getElem?_cons_succ, List.getElem?_drop]
  · intro hnul
    unfold cstr
    rw [List.takeWhile_eq_self_iff]
    intro b hb
    simpa using hnul b hb

/-- C29 amended, at a concrete input: the four bytes `A`, `B`, `C`, `D` with
`len = 3` and a buffer that holds the byte 9 everywhere. -/
theorem C29_clipboard_copy_within_buffer_witness :
    exampleJunk.length = 301 ∧ (0 : Int) ≤ 3 ∧ (3 : Int) < 300 ∧
    (3 : Int).toNat ≤ ([65, 66, 67, 68] : List melown.Byte).length ∧
    ∃ buf str, clipBoardCopy exampleJunk [65, 66, 67, 68] 3 = some (buf, str) ∧
      buf.length = 301 ∧ buf.take 3 = [65, 66, 67] ∧ buf[3]? = some 0 ∧
      buf[4]? = exampleJunk[4]? ∧ str = [65, 66, 67] := by
  have hlen : (3 : Int).toNat ≤ ([65, 66, 67, 68] : List melown.Byte).length := by decide
  obtain ⟨buf, str, h1, h2, h3, h4, h5, _, h7⟩ :=
    C29_clipboard_copy_within_buffer exampleJunk [65, 66, 67, 68] 3 exampleJunk_length
      (by decide) (by decide) hlen
  have h3' : buf.take 3 = [65, 66, 67] := h3
  have h4' : buf[3]? = some 0 := h4
  have h5' : buf[4]? = exampleJunk[4]? := h5 4 (by decide)
  have h7' : str = [65, 66, 67] := by
    apply h7
    intro b hb
    have hb' : b ∈ ([65, 66, 67] : List melown.Byte) := hb
    simp only [List.mem_cons, List.mem_singleton, List.not_mem_nil, or_false] at hb'
    rcases hb' with e | e | e <;> subst e <;> decide
  exact ⟨exampleJunk_length, by decide, by decide, hlen, buf, str, h1, h2, h3', h4', h5', h7'⟩
